import Mathlib

/-!
# CoolReader engine, `lvxml.cpp`: a verification development

Shallow embedding of the text reader, the line reader, the XML text
pre-processor and the heading classifier of `trunk/src/lvxml.cpp`.

Conventions of the embedding.

* A character (`lChar16`) and a byte (`lUInt8`) are natural numbers; a string
  (`lString16`, `lChar16 *`) is a `List Nat` of code units.
* C `int` values (buffer indices, sizes, file positions) are `Int`; the 32-bit
  wrap of positions is not modelled, so the results speak about streams that
  fit in an `int`.
* Counters that the source keeps in an `lChar16` variable wrap at `2 ^ 16`,
  the width the specification gives; the pre-processor is also modelled for a
  character type of any width (`ppCharW`).
* Callbacks are modelled by the list of events they receive.
-/

namespace lvxml

/-! ## Strings -/

/-- Code units of a string literal. -/
def codes (s : String) : List Nat := s.toList.map Char.toNat

/-- The view `lString16::c_str()` gives to code that scans for the terminating
zero: the characters before the first zero code unit. -/
def c_str (s : List Nat) : List Nat := s.takeWhile (fun c => c != 0)

/-- Modelled from the spec: `lString16::lowercase` is defined outside
`lvxml.cpp`; the spec only says that the line is lowercased.  Latin capitals
and the basic Cyrillic capitals are mapped to their small letters, every other
code unit is kept. -/
def lowerChar (c : Nat) : Nat :=
  if 65 ≤ c ∧ c ≤ 90 then c + 32
  else if 0x410 ≤ c ∧ c ≤ 0x42F then c + 0x20
  else c

/-! ## Heading classifier (`startsWithOneOf`, `DetectHeadingLevelByText`) -/

/-- Table `heading_volume`: "volume", "vol", "том". -/
def heading_volume : List (List Nat) :=
  [[118, 111, 108, 117, 109, 101], [118, 111, 108], [0x0442, 0x043e, 0x043c]]

/-- Table `heading_part`: "part", "часть". -/
def heading_part : List (List Nat) :=
  [[112, 97, 114, 116], [0x0447, 0x0430, 0x0441, 0x0442, 0x044c]]

/-- Table `heading_chapter`: "chapter", "глава". -/
def heading_chapter : List (List Nat) :=
  [[99, 104, 97, 112, 116, 101, 114], [0x0433, 0x043B, 0x0430, 0x0432, 0x0430]]

/-- Inner loop of `startsWithOneOf` for one keyword `q` against the line `p`
(both without their terminating zero).  `some b` is `return b`; `none` means
the loop was left by `break` and the next keyword is tried.

* keyword exhausted (`!q[j]`): `return true`;
* line exhausted first (`!p[j]`): `return (!q[j] || q[j]==' ')`;
* `p[j] != q[j]`: `break`. -/
def scanKeyword : List Nat → List Nat → Option Bool
  | _, [] => some true
  | [], qc :: _ => some (qc == 0 || qc == 32)
  | pc :: p, qc :: q => if pc != qc then none else scanKeyword p q

/-- Outer loop of `startsWithOneOf` over the keyword table. -/
def startsWithOneOfLoop (p : List Nat) : List (List Nat) → Bool
  | [] => false
  | q :: list =>
    match scanKeyword p q with
    | some b => b
    | none => startsWithOneOfLoop p list

/-- The function `startsWithOneOf( lString16 str, const lChar16 * list[] )`;
`lower` is the per-character map applied by `str.lowercase()`. -/
def startsWithOneOf (lower : Nat → Nat) (str : List Nat) (list : List (List Nat)) : Bool :=
  startsWithOneOfLoop (c_str (str.map lower)) list

/-- The loop `for ( i=1; i<str.length(); i++ )` of `DetectHeadingLevelByText`
over the characters after the first; `none` is the early `return 0`, `some n`
the final `point_count`. -/
def countPoints : List Nat → Nat → Option Nat
  | [], point_count => some point_count
  | ch :: rest, point_count =>
    if 48 ≤ ch ∧ ch ≤ 57 then countPoints rest point_count
    else if ch ≠ 46 then none
    else countPoints rest (point_count + 1)

/-- The function `DetectHeadingLevelByText( const lString16 & str )`. -/
def DetectHeadingLevelByText (lower : Nat → Nat) (str : List Nat) : Nat :=
  if str.isEmpty then 0
  else if startsWithOneOf lower str heading_volume then 1
  else if startsWithOneOf lower str heading_part then 2
  else if startsWithOneOf lower str heading_chapter then 3
  else
    let ch := str.headD 0
    if 48 ≤ ch ∧ ch ≤ 57 then
      match countPoints (str.drop 1) 0 with
      | none => 0
      | some point_count => if str.length < 80 then 4 + point_count else 0
    else 0

/-- The claimed separator rule: the (lowercased) line is exactly the keyword
`kw`, or `kw` immediately followed by a space. -/
def keywordWithSeparator (kw line : List Nat) : Bool :=
  line == kw || (kw ++ [32]).isPrefixOf line

/-- Some keyword of the table heads the line in the sense of
`keywordWithSeparator`. -/
def anyKeywordWithSeparator (list : List (List Nat)) (line : List Nat) : Bool :=
  list.any (fun kw => keywordWithSeparator kw line)


/-! ## XML text pre-processor (`PreProcessXmlString`) -/

/-- Modelled from the spec: the flag `TXTFLG_PRE` is declared outside
`lvxml.cpp`; the spec gives it as bit 4 of the text flags. -/
def TXTFLG_PRE : Nat := 16

/-- Modelled from the spec: `lChar16` is declared outside `lvxml.cpp`; the
spec describes it as a 16-bit character type.  A value stored in an `lChar16`
variable is reduced modulo `2 ^ 16`.  The source initialises `const lChar16 *`
tables with wide literals, so the type is `wchar_t`, which has 32 bits on
some platforms; values below `2 ^ 16` are the same for both widths, and
`ppCharW` takes the number of values as a parameter. -/
def toChar16 (n : Nat) : Nat := n % 65536

/-- The scalar locals of `PreProcessXmlString`: `state`, `nch`, `lch`, `nsp`. -/
structure PPVars where
  state : Nat
  nch : Nat
  lch : Nat
  nsp : Nat
deriving DecidableEq

/-- Values of the locals at loop entry. -/
def PPVars.init : PPVars := ⟨0, 0, 0, 0⟩

/-- Body of the `for` loop of `PreProcessXmlString` for the character
`ch0 = str[i]`: the character written to `str[j++]` (if any) and the new
locals.  `atStart` is `i==0`, `atEnd` is `i==len-1` and `next` is `str[i+1]`. -/
def ppChar (pre : Bool) (atStart atEnd : Bool) (next : Nat) (v : PPVars) (ch0 : Nat) :
    Option Nat × PPVars :=
  let ch := if pre = false ∧ (ch0 = 13 ∨ ch0 = 10 ∨ ch0 = 9) then 32 else ch0
  if ch = 13 then
    if (atStart = true ∨ v.lch ≠ 10) ∧ (atEnd = true ∨ next ≠ 10) then
      (some 10, { v with lch := ch })
    else (none, { v with lch := ch })
  else if ch = 10 then (some 10, { v with lch := ch })
  else if ch = 38 then (none, { v with state := 1, nch := 0, lch := ch })
  else if v.state = 0 then
    if ch = 32 then
      (if pre = true ∨ v.nsp = 0 then some ch else none,
        { v with nsp := toChar16 (v.nsp + 1), lch := ch })
    else (some ch, { v with nsp := 0, lch := ch })
  else
    if v.state = 2 ∧ 48 ≤ ch ∧ ch ≤ 57 then
      (none, { v with nch := toChar16 (v.nch * 10 + (ch - 48)), lch := ch })
    else if ch = 35 ∧ v.state = 1 then (none, { v with state := 2, lch := ch })
    else if ch = 59 then
      (if v.nch ≠ 0 then some v.nch else none, { v with state := 0, nsp := 0, lch := ch })
    else (none, { v with state := 0, lch := ch })

/-- The array being rewritten, the write index `j` and the scalar locals. -/
structure PPState where
  str : List Nat
  j : Nat
  vars : PPVars

/-- Effect of one iteration on the array: `str[j++] = c` when a character is
written, and the new locals. -/
def ppApply (s : PPState) : Option Nat × PPVars → PPState
  | (some c, v) => { str := s.str.set s.j c, j := s.j + 1, vars := v }
  | (none, v) => { s with vars := v }

/-- One iteration of the loop, in place, at read index `i`. -/
def ppStep (pre : Bool) (len : Nat) (i : Nat) (s : PPState) : PPState :=
  ppApply s (ppChar pre (i == 0) (i + 1 == len) (s.str.getD (i + 1) 0) s.vars (s.str.getD i 0))

/-- The state after the iterations `i = 0, …, k-1`. -/
def ppRun (pre : Bool) (len : Nat) : Nat → PPState → PPState
  | 0, s => s
  | k + 1, s => ppStep pre len k (ppRun pre len k s)

/-- The function `PreProcessXmlString( lChar16 * str, int len, lUInt32 flags )`
for `len ≥ 0`: the returned length `j` and the array after the call. -/
def PreProcessXmlString (str : List Nat) (len : Nat) (flags : Nat) : Nat × List Nat :=
  let pre : Bool := decide (flags &&& TXTFLG_PRE ≠ 0)
  let s := ppRun pre len len ⟨str, 0, PPVars.init⟩
  (s.j, s.str)

/-- The text a caller sees after the call: the first `j` cells of the array. -/
def preProcessed (str : List Nat) (flags : Nat) : List Nat :=
  (PreProcessXmlString str str.length flags).2.take (PreProcessXmlString str str.length flags).1

/-- The loop of `PreProcessXmlString` as a function from the input characters
to the output characters (no array, no indices). -/
def ppList (pre : Bool) : Bool → PPVars → List Nat → List Nat
  | _, _, [] => []
  | atStart, v, ch0 :: rest =>
    (ppChar pre atStart rest.isEmpty (rest.headD 0) v ch0).1.toList ++
      ppList pre false (ppChar pre atStart rest.isEmpty (rest.headD 0) v ch0).2 rest

/-- Decimal digits of `n` as characters, most significant first. -/
def decimal (n : Nat) : List Nat := ((Nat.digits 10 n).reverse).map (fun d => d + 48)

/-- The numeric character reference `&#NNNN;` of the code point `c`. -/
def charRef (c : Nat) : List Nat := [38, 35] ++ decimal c ++ [59]

/-- Space, or a character that non-PRE mode turns into a space. -/
def isBlank (c : Nat) : Bool := c == 32 || c == 13 || c == 10 || c == 9

/-- Reference semantics of whitespace collapse: CR, LF and TAB count as
spaces, a space directly after a space is dropped, the rest is kept. -/
def collapseSpaces : Bool → List Nat → List Nat
  | _, [] => []
  | afterSpace, c :: rest =>
    if isBlank c then
      (if afterSpace then [] else [32]) ++ collapseSpaces true rest
    else c :: collapseSpaces false rest

/-- A character that is neither blank nor '&'. -/
def plainChar (c : Nat) : Bool := !(isBlank c) && c != 38

/-- The value `nch` accumulates over a run of digit characters:
`nch = nch * 10 + (ch - '0')`, stored in an `lChar16`. -/
def parseDigits (nch : Nat) (ds : List Nat) : Nat :=
  ds.foldl (fun n d => toChar16 (n * 10 + (d - 48))) nch

/-! ## Windowed reader (`LVTextFileBase`) -/

/-- The encodings `m_enc_type` switches on in `ReadChar`. -/
inductive char_encoding_type
  | ce_8bit_cp
  | ce_utf8
  | ce_utf16_be
  | ce_utf16_le
  | ce_utf32_be
  | ce_utf32_le
deriving DecidableEq

/-- State of an `LVTextFileBase`.  The stream `m_stream` is an external
collaborator; it is modelled by its byte content `stream` and its read
position `stream_pos`.  The other fields are the members of the class.
`buf` lists the cells of `m_buf` written so far; a cell beyond them reads 0
(what fresh `realloc` memory holds is not specified), so a `realloc` changes
`buf_size` only. -/
structure LVTextFileBase where
  stream : List Nat
  stream_pos : Int
  buf : List Nat
  buf_size : Int
  stream_size : Int
  buf_len : Int
  buf_pos : Int
  buf_fpos : Int
  enc_type : char_encoding_type
  conv_table : Option (List Nat)
deriving DecidableEq

/-- The constructor `LVTextFileBase( LVStreamRef stream )`. -/
def LVTextFileBase.create (stream : List Nat) : LVTextFileBase :=
  { stream := stream, stream_pos := 0, buf := [], buf_size := 0, stream_size := stream.length,
    buf_len := 0, buf_pos := 0, buf_fpos := 0,
    enc_type := char_encoding_type.ce_8bit_cp, conv_table := none }

def BUF_SIZE_INCREMENT : Int := 4096

def MIN_BUF_DATA_SIZE : Int := 2048

/-- The absolute position `m_buf_fpos + m_buf_pos` of the cursor. -/
def cursor (f : LVTextFileBase) : Int := f.buf_fpos + f.buf_pos

/-- The byte `m_buf[i]`. -/
def bufAt (f : LVTextFileBase) (i : Int) : Nat :=
  if i < 0 then 0 else f.buf.getD i.toNat 0

/-- The C expression `a || b` on integers. -/
def logicalOr (a b : Nat) : Nat := if a ≠ 0 ∨ b ≠ 0 then 1 else 0

/-- The method `LVTextFileBase::ReadChar()`: the character returned and the
reader afterwards. -/
def ReadChar (f : LVTextFileBase) : Nat × LVTextFileBase :=
  let ch := bufAt f f.buf_pos
  match f.enc_type with
  | char_encoding_type.ce_8bit_cp | char_encoding_type.ce_utf8 =>
    if ch &&& 0x80 = 0 then (ch, { f with buf_pos := f.buf_pos + 1 })
    else
      match f.conv_table with
      | some table => (table.getD (ch &&& 0x7F) 0, { f with buf_pos := f.buf_pos + 1 })
      | none =>
        if ch &&& 0xE0 = 0xC0 then
          (toChar16 (((ch &&& 0x1F) <<< 6) ||| (bufAt f (f.buf_pos + 1) &&& 0x3F)),
            { f with buf_pos := f.buf_pos + 2 })
        else
          (toChar16 (((ch &&& 0x0F) <<< 12) ||| ((bufAt f (f.buf_pos + 1) &&& 0x3F) <<< 6)
              ||| (bufAt f (f.buf_pos + 2) &&& 0x3F)),
            { f with buf_pos := f.buf_pos + 3 })
  | char_encoding_type.ce_utf16_be =>
    (logicalOr (ch <<< 8) (bufAt f (f.buf_pos + 1)), { f with buf_pos := f.buf_pos + 2 })
  | char_encoding_type.ce_utf16_le =>
    (logicalOr ((bufAt f (f.buf_pos + 1)) <<< 8) ch, { f with buf_pos := f.buf_pos + 2 })
  | char_encoding_type.ce_utf32_be =>
    (logicalOr ((bufAt f (f.buf_pos + 2)) <<< 8) (bufAt f (f.buf_pos + 3)),
      { f with buf_pos := f.buf_pos + 4 })
  | char_encoding_type.ce_utf32_le =>
    (logicalOr (ch <<< 8) (bufAt f (f.buf_pos + 1)), { f with buf_pos := f.buf_pos + 4 })

/-- The bytes `m_stream->Read( dst, count, &n )` delivers: the next `count`
bytes of the stream, or all that are left. -/
def streamRead (f : LVTextFileBase) (count : Int) : List Nat :=
  (f.stream.drop f.stream_pos.toNat).take count.toNat

/-- Storing `data` at `m_buf + off`. -/
def writeAt (buf : List Nat) (off : Int) (data : List Nat) : List Nat :=
  buf.take off.toNat ++ List.replicate (off.toNat - buf.length) 0 ++ data ++
    buf.drop (off.toNat + data.length)

/-- The loop `for (int i=0; i<sz; i++) m_buf[i] = m_buf[i+m_buf_pos];`. -/
def moveDown (buf : List Nat) (pos sz : Int) : List Nat :=
  (List.range sz.toNat).foldl (fun b i => b.set i (b.getD (i + pos.toNat) 0)) buf

/-- The method `LVTextFileBase::FillBuffer( int bytesToRead )`: the returned
flag and the reader afterwards. -/
def FillBuffer (f : LVTextFileBase) (bytesToRead : Int) : Bool × LVTextFileBase :=
  let bytesleft := f.stream_size - (f.buf_fpos + f.buf_len)
  if bytesleft ≤ 0 then (false, f)
  else
    let bytesToRead := if bytesToRead > bytesleft then bytesleft else bytesToRead
    let space := f.buf_size - f.buf_len
    let f1 :=
      if space < bytesToRead then
        let f2 :=
          if f.buf_pos > bytesToRead ∨ f.buf_pos > (f.buf_len * 3) / 4 then
            { f with buf := moveDown f.buf f.buf_pos (f.buf_len - f.buf_pos),
                     buf_len := f.buf_len - f.buf_pos,
                     buf_fpos := f.buf_fpos + f.buf_pos,
                     buf_pos := 0 }
          else f
        if f2.buf_size - f2.buf_len < bytesToRead then
          { f2 with buf_size :=
              f2.buf_size + (bytesToRead - (f2.buf_size - f2.buf_len) + BUF_SIZE_INCREMENT) }
        else f2
      else f
    let data := streamRead f1 bytesToRead
    (decide (0 < data.length),
      { f1 with buf := writeAt f1.buf f1.buf_len data,
                buf_len := f1.buf_len + data.length,
                stream_pos := f1.stream_pos + data.length })

/-- Modelled from the spec: `Eof()` is defined outside `lvxml.cpp`; the spec
describes it as "true when `buf_pos == buf_len` and no more bytes remain in
the stream". -/
def Eof (f : LVTextFileBase) : Bool :=
  decide (f.buf_pos = f.buf_len) && decide (f.stream_size - (f.buf_fpos + f.buf_len) ≤ 0)

/-! ## Line reader (`LVTextFileBase::ReadLine`) -/

/-- The conversion `(unsigned)n` of an `int`. -/
def toUnsigned (n : Int) : Nat := (n % 4294967296).toNat

/-- Modelled from the spec: `lString16::erase( offset, count )` is defined
outside `lvxml.cpp`; the spec uses it to truncate a string, so it removes
`count` characters starting at `offset`. -/
def lString16_erase (s : List Nat) (offset count : Nat) : List Nat :=
  s.take offset ++ s.drop (offset + count)

/-- The reader and the locals of `ReadLine` that change in its loop. -/
structure LineVars where
  file : LVTextFileBase
  fpos : Int
  flags : Nat
  res : List Nat
  last_space_fpos : Int
  last_space_chpos : Int

/-- Body of the `while` loop of `ReadLine`.  The flag is `false` when the body
leaves the loop by `break`. -/
def ReadLineBody (eof : LVTextFileBase → Bool) (s : LineVars) : Bool × LineVars :=
  if eof s.file then
    (false, { s with last_space_fpos := cursor s.file,
                     last_space_chpos := s.res.length,
                     flags := s.flags ||| 1 })
  else
    let ch := (ReadChar s.file).1
    let f1 := (ReadChar s.file).2
    if ch = 0xFEFF ∧ s.fpos = 0 ∧ s.res = [] then
      (true, { s with file := f1, fpos := cursor f1 })
    else if ch ≠ 13 ∧ ch ≠ 10 then
      if ch = 32 ∨ ch = 9 then
        (true, { s with file := f1, res := s.res ++ [ch],
                        last_space_fpos := cursor f1,
                        last_space_chpos := (s.res ++ [ch]).length })
      else (true, { s with file := f1, res := s.res ++ [ch] })
    else
      let prev_pos := f1.buf_pos
      if eof f1 then
        (false, { s with file := f1,
                         last_space_fpos := cursor f1,
                         last_space_chpos := s.res.length,
                         flags := s.flags ||| 1 })
      else
        let ch2 := (ReadChar f1).1
        let f2 := (ReadChar f1).2
        if ch2 ≠ ch ∧ (ch2 = 13 ∨ ch2 = 10) then
          (false, { s with file := f2,
                           last_space_fpos := cursor f2,
                           last_space_chpos := s.res.length,
                           flags := s.flags ||| 1 })
        else
          (false, { s with file := { f2 with buf_pos := prev_pos },
                           last_space_fpos := cursor f1,
                           last_space_chpos := s.res.length,
                           flags := s.flags ||| 1 })

/-- The `while ( res.length()<(unsigned)maxLineSize )` loop of `ReadLine`;
`none` when the fuel runs out. -/
def ReadLineLoop (eof : LVTextFileBase → Bool) (maxLineSize : Int) :
    Nat → LineVars → Option LineVars
  | 0, _ => none
  | fuel + 1, s =>
    if s.res.length < toUnsigned maxLineSize then
      if (ReadLineBody eof s).1 then ReadLineLoop eof maxLineSize fuel (ReadLineBody eof s).2
      else some (ReadLineBody eof s).2
    else some s

/-- What `ReadLine` hands back: the text, `fpos`, `fsize`, `flags`, and the
reader afterwards. -/
structure LineResult where
  text : List Nat
  fpos : Int
  fsize : Int
  flags : Nat
  file : LVTextFileBase

/-- The part of `ReadLine` after the loop. -/
def ReadLineFinish (s : LineVars) : LineResult :=
  let noBreak : Bool := decide (s.flags = 0 ∧ s.last_space_chpos = -1)
  let last_space_fpos := if noBreak then cursor s.file else s.last_space_fpos
  let last_space_chpos : Int := if noBreak then s.res.length else s.last_space_chpos
  { text :=
      if toUnsigned last_space_chpos > s.res.length then
        lString16_erase s.res (toUnsigned last_space_chpos)
          (toUnsigned (s.res.length - last_space_chpos))
      else s.res,
    fpos := s.fpos,
    fsize := last_space_fpos - s.fpos,
    flags := s.flags,
    file := { s.file with buf_pos := last_space_fpos - s.file.buf_fpos } }

/-- The method `LVTextFileBase::ReadLine( maxLineSize, fpos, fsize, flags )`.
`eof` is the method `Eof()`.  The loop gets more fuel than it can use, so the
result is never `none` (`ReadLine_total`). -/
def ReadLine (eof : LVTextFileBase → Bool) (f : LVTextFileBase) (maxLineSize : Int) :
    Option LineResult :=
  (ReadLineLoop eof maxLineSize (toUnsigned maxLineSize + 3)
    { file := (FillBuffer f (maxLineSize * 3)).2, fpos := cursor f, flags := 0, res := [],
      last_space_fpos := 0, last_space_chpos := -1 }).map ReadLineFinish

/-! ## Text nodes of the XML parser (`LVXMLParser::ReadText`) -/

def TEXT_SPLIT_SIZE : Int := 8192

/-- A call `m_callback->OnText( text, len, fpos, fsize, flags )`; `text` holds
the `len` characters passed. -/
structure TextEvent where
  text : List Nat
  len : Nat
  fpos : Int
  fsize : Int
  flags : Nat
deriving DecidableEq

/-- The reader, the member `m_txt_buf`, the locals of `ReadText` that live
across iterations, the text events sent so far, and whether the loop has been
left. -/
structure TextVars where
  file : LVTextFileBase
  txt_buf : List Nat
  text_start_pos : Int
  last_split_fpos : Int
  last_split_txtlen : Int
  tlen : Int
  events : List TextEvent
  done : Bool

/-- Locals and buffer at the entry of `ReadText`. -/
def TextVars.init (f : LVTextFileBase) : TextVars :=
  { file := f, txt_buf := [], text_start_pos := cursor f, last_split_fpos := 0,
    last_split_txtlen := 0, tlen := 0, events := [], done := false }

/-- The part of the loop body of `ReadText` that sends a text event (the
branch `tlen > TEXT_SPLIT_SIZE || flgBreak`).  `herePos` is the value of
`(ch=='<') ? ch_start_pos : m_buf_fpos + m_buf_pos`. -/
def ReadTextEmit (s : TextVars) (f1 : LVTextFileBase) (txt_buf : List Nat) (tlen : Int)
    (flgBreak : Bool) (herePos : Int) : TextVars :=
  let newSplit : Bool := decide (s.last_split_fpos = 0) || flgBreak
  let last_split_fpos := if newSplit then herePos else s.last_split_fpos
  let last_split_txtlen := if newSplit then tlen else s.last_split_txtlen
  let pp := PreProcessXmlString txt_buf last_split_txtlen.toNat 0
  let ev : TextEvent :=
    { text := pp.2.take pp.1, len := pp.1, fpos := s.text_start_pos,
      fsize := last_split_fpos - s.text_start_pos, flags := 0 }
  if flgBreak then
    { file := f1, txt_buf := pp.2, text_start_pos := s.text_start_pos,
      last_split_fpos := last_split_fpos, last_split_txtlen := last_split_txtlen,
      tlen := tlen, events := s.events ++ [ev], done := true }
  else
    { file := f1, txt_buf := lString16_erase pp.2 0 last_split_txtlen.toNat,
      text_start_pos := last_split_fpos, last_split_fpos := 0, last_split_txtlen := 0,
      tlen := (lString16_erase pp.2 0 last_split_txtlen.toNat).length,
      events := s.events ++ [ev], done := false }

/-- The loop body of `ReadText` from `bool flgBreak = ch=='<' || Eof();` on:
`ch_start_pos` is the cursor before the character `ch` was read, `f1` the
reader after it and `atEof` the value of `Eof()` then. -/
def ReadTextAfterChar (splitSize : Int) (s : TextVars) (ch_start_pos : Int) (ch : Nat)
    (f1 : LVTextFileBase) (atEof : Bool) : TextVars :=
  let flgBreak : Bool := decide (ch = 60) || atEof
  let txt_buf := if flgBreak then s.txt_buf else s.txt_buf ++ [ch]
  let tlen := if flgBreak then s.tlen else s.tlen + 1
  if tlen > splitSize ∨ flgBreak = true then
    ReadTextEmit s f1 txt_buf tlen flgBreak (if ch = 60 then ch_start_pos else cursor f1)
  else if ch = 32 ∨ (ch = 13 ∧ bufAt f1 f1.buf_pos ≠ 10) ∨ (ch = 10 ∧ bufAt f1 f1.buf_pos ≠ 13) then
    { s with file := f1, txt_buf := txt_buf, tlen := tlen,
             last_split_fpos := cursor f1, last_split_txtlen := tlen }
  else { s with file := f1, txt_buf := txt_buf, tlen := tlen }

/-- The reader after the refill at the top of the loop body:
`if ( m_buf_len - m_buf_pos < MIN_BUF_DATA_SIZE ) FillBuffer( MIN_BUF_DATA_SIZE*2 );`. -/
def refill (f : LVTextFileBase) : LVTextFileBase :=
  if f.buf_len - f.buf_pos < MIN_BUF_DATA_SIZE then (FillBuffer f (MIN_BUF_DATA_SIZE * 2)).2
  else f

/-- Body of the `for (;!Eof();)` loop of `ReadText`, with the split size as a
parameter. -/
def ReadTextBody (eof : LVTextFileBase → Bool) (splitSize : Int) (s : TextVars) : TextVars :=
  ReadTextAfterChar splitSize s (cursor (refill s.file)) (ReadChar (refill s.file)).1
    (ReadChar (refill s.file)).2 (eof (ReadChar (refill s.file)).2)

/-- One turn of the loop: the test `!Eof()` and, if it holds, the body. -/
def ReadTextTurn (eof : LVTextFileBase → Bool) (splitSize : Int) (s : TextVars) : TextVars :=
  if s.done then s
  else if eof s.file then { s with done := true }
  else ReadTextBody eof splitSize s

/-- The state of `ReadText` after at most `n` turns of its loop. -/
def ReadTextRun (eof : LVTextFileBase → Bool) (splitSize : Int) (f : LVTextFileBase) :
    Nat → TextVars
  | 0 => TextVars.init f
  | n + 1 => ReadTextTurn eof splitSize (ReadTextRun eof splitSize f n)

/-- What a completed call of `ReadText` leaves: the returned flag, the text
events it sent, and the reader. -/
structure TextResult where
  ret : Bool
  events : List TextEvent
  file : LVTextFileBase

/-- The method `LVXMLParser::ReadText()`, run for at most `fuel` turns of its
loop; `none` when the loop has not been left by then. -/
def ReadText (eof : LVTextFileBase → Bool) (fuel : Nat) (f : LVTextFileBase) : Option TextResult :=
  if (ReadTextRun eof TEXT_SPLIT_SIZE f fuel).done then
    some { ret := !(eof (ReadTextRun eof TEXT_SPLIT_SIZE f fuel).file),
           events := (ReadTextRun eof TEXT_SPLIT_SIZE f fuel).events,
           file := (ReadTextRun eof TEXT_SPLIT_SIZE f fuel).file }
  else none

/-- Text events of one text node are byte-contiguous: each starts where the
one before it ended. -/
def Contiguous (events : List TextEvent) : Prop :=
  List.Chain' (fun a b : TextEvent => b.fpos = a.fpos + a.fsize) events

/-! ## Loop invariants used in the proofs -/

/-- The loop invariant behind byte contiguity: the events sent so far are
contiguous, the first one starts at the cursor of the entry, and while the
loop runs `text_start_pos` is the end of the last event (or the cursor of the
entry when none was sent). -/
def TextInv (f : LVTextFileBase) (s : TextVars) : Prop :=
  Contiguous s.events ∧
  (∀ e, s.events.head? = some e → e.fpos = cursor f) ∧
  (s.done = false →
    (s.events = [] → s.text_start_pos = cursor f) ∧
    (∀ e, s.events.getLast? = some e → e.fpos + e.fsize = s.text_start_pos))

/-- Bound on the number of further byte order marks the loop of `ReadLine`
can skip. -/
def bomBudget (s : LineVars) : Nat :=
  if s.fpos ≠ 0 then 0 else if cursor s.file < 0 then 2 else 1

/-- Loop invariant of `ReadLine`: no flag set yet, the cursor is beyond `c0`,
and a recorded soft break lies beyond `c0`. -/
def LineBeyond (c0 : Int) (s : LineVars) : Prop :=
  s.flags = 0 ∧ c0 < cursor s.file ∧ (s.last_space_chpos ≠ -1 → c0 < s.last_space_fpos)

/-- Loop invariant of `ReadLine` about the soft-break character index: it is
still unset and no flag is set, or it lies within the text read so far. -/
def LineBreakInRange (s : LineVars) : Prop :=
  (s.last_space_chpos = -1 ∧ s.flags = 0) ∨
  (0 ≤ s.last_space_chpos ∧ s.last_space_chpos ≤ s.res.length)

/-! ## Character encodings: reference definitions -/

/-- The standard 1-, 2- or 3-byte UTF-8 encoding of a code point of the Basic
Multilingual Plane. -/
def utf8Encode (c : Nat) : List Nat :=
  if c < 0x80 then [c]
  else if c < 0x800 then [0xC0 + c / 64, 0x80 + c % 64]
  else [0xE0 + c / 4096, 0x80 + (c / 64) % 64, 0x80 + c % 64]

/-- The window holds the bytes `bytes` from the cursor on:
`m_buf[m_buf_pos + i] = bytes[i]`. -/
def windowHolds (f : LVTextFileBase) (bytes : List Nat) : Prop :=
  ∀ i, i < bytes.length → bufAt f (f.buf_pos + (i : Nat)) = bytes.getD i 0

/-- A reader whose window holds exactly `bytes`, with the cursor at its start;
the state a fresh reader over the stream `bytes` is in after
`FillBuffer( bytes.length )`. -/
def readerOver (bytes : List Nat) (enc : char_encoding_type) (table : Option (List Nat)) :
    LVTextFileBase :=
  { (FillBuffer (LVTextFileBase.create bytes) bytes.length).2 with
      enc_type := enc, conv_table := table }

/-! ## Windowed reader: `Seek` and `Reset` -/

/-- The method `LVTextFileBase::Seek( lvpos_t pos, int bytesToPrefetch )`: the
returned flag and the reader afterwards.  Positions are added as integers,
which stands for the unsigned arithmetic of the code when `bytesToPrefetch`
is not negative. -/
def Seek (f : LVTextFileBase) (pos : Int) (bytesToPrefetch : Int) : Bool × LVTextFileBase :=
  if pos ≥ f.buf_fpos ∧ pos + bytesToPrefetch ≤ f.buf_fpos + f.buf_len then
    (true, { f with buf_pos := pos - f.buf_fpos })
  else if pos < 0 ∨ pos ≥ f.stream_size then (false, f)
  else
    let bytesToRead0 := if bytesToPrefetch > f.buf_size then bytesToPrefetch else f.buf_size
    let bytesToRead1 :=
      if bytesToRead0 < BUF_SIZE_INCREMENT then BUF_SIZE_INCREMENT else bytesToRead0
    let bytesToRead :=
      if bytesToRead1 > f.stream_size - pos then f.stream_size - pos else bytesToRead1
    let buf_size := if f.buf_size < bytesToRead then bytesToRead else f.buf_size
    let data := streamRead { f with stream_pos := pos } bytesToRead
    (true, { f with buf_size := buf_size,
                    buf_fpos := pos,
                    buf_pos := 0,
                    buf_len := buf_size,
                    buf := writeAt f.buf 0 data,
                    stream_pos := pos + data.length })

/-- The method `LVTextFileBase::Reset()`. -/
def Reset (f : LVTextFileBase) : LVTextFileBase :=
  { f with stream_pos := 0, buf_fpos := 0, buf_pos := 0, buf_len := 0,
           stream_size := f.stream.length }

/-- The window invariant of the claim:
`0 ≤ buf_pos ≤ buf_len ≤ capacity` and `buf_fpos + buf_len ≤ stream_size`. -/
def WindowInv (f : LVTextFileBase) : Prop :=
  0 ≤ f.buf_pos ∧ f.buf_pos ≤ f.buf_len ∧ f.buf_len ≤ f.buf_size ∧
    f.buf_fpos + f.buf_len ≤ f.stream_size

instance (f : LVTextFileBase) : Decidable (WindowInv f) := by
  unfold WindowInv
  infer_instance

/-- The request `Seek( pos, bytesToPrefetch )` is already covered by the
window: the test of the first `if` of `Seek`. -/
def inWindow (f : LVTextFileBase) (pos bytesToPrefetch : Int) : Prop :=
  pos ≥ f.buf_fpos ∧ pos + bytesToPrefetch ≤ f.buf_fpos + f.buf_len

instance (f : LVTextFileBase) (pos k : Int) : Decidable (inWindow f pos k) := by
  unfold inWindow
  infer_instance

/-! ## `FillBuffer` in stages (used in the proofs) -/

/-- The compaction step of `FillBuffer` ("just move"), taken when the cursor
is beyond `bytesToRead` or beyond three quarters of the window. -/
def fillCompact (f : LVTextFileBase) (bytesToRead : Int) : LVTextFileBase :=
  if f.buf_pos > bytesToRead ∨ f.buf_pos > (f.buf_len * 3) / 4 then
    { f with buf := moveDown f.buf f.buf_pos (f.buf_len - f.buf_pos),
             buf_len := f.buf_len - f.buf_pos,
             buf_fpos := f.buf_fpos + f.buf_pos,
             buf_pos := 0 }
  else f

/-- The growth step of `FillBuffer`. -/
def fillGrow (f : LVTextFileBase) (bytesToRead : Int) : LVTextFileBase :=
  if f.buf_size - f.buf_len < bytesToRead then
    { f with buf_size :=
        f.buf_size + (bytesToRead - (f.buf_size - f.buf_len) + BUF_SIZE_INCREMENT) }
  else f

/-- The reader `FillBuffer` reads into: after the block
`if (space < bytesToRead) { … }`. -/
def fillPrepare (f : LVTextFileBase) (bytesToRead : Int) : LVTextFileBase :=
  if f.buf_size - f.buf_len < bytesToRead then fillGrow (fillCompact f bytesToRead) bytesToRead
  else f

/-- The clamped request of `FillBuffer`:
`if (bytesToRead > bytesleft) bytesToRead = bytesleft`. -/
def fillCount (f : LVTextFileBase) (bytesToRead : Int) : Int :=
  if bytesToRead > f.stream_size - (f.buf_fpos + f.buf_len) then
    f.stream_size - (f.buf_fpos + f.buf_len)
  else bytesToRead

/-! ## Seeking and reading: reference notions -/

/-- The clamped read request of a re-anchoring `Seek`: the value of
`bytesToRead` when the stream is read. -/
def seekCount (f : LVTextFileBase) (pos : Int) (bytesToPrefetch : Int) : Int :=
  let bytesToRead0 := if bytesToPrefetch > f.buf_size then bytesToPrefetch else f.buf_size
  let bytesToRead1 :=
    if bytesToRead0 < BUF_SIZE_INCREMENT then BUF_SIZE_INCREMENT else bytesToRead0
  if bytesToRead1 > f.stream_size - pos then f.stream_size - pos else bytesToRead1

/-- A fresh reader over the stream of `f`, set to the encoding of `f`. -/
def freshReader (f : LVTextFileBase) : LVTextFileBase :=
  { LVTextFileBase.create f.stream with enc_type := f.enc_type, conv_table := f.conv_table }

/-- The number of bytes the next `ReadChar` consumes. -/
def readWidth (f : LVTextFileBase) : Int := (ReadChar f).2.buf_pos - f.buf_pos

/-- The window data is genuine: the cached size is the size of the stream,
the window start and the cursor offset are not negative, the stream is
positioned at the window end unless the window reaches the end of the stream,
and every window cell that stands for a position inside the stream holds the
byte of the stream at that position. -/
def Valid (f : LVTextFileBase) : Prop :=
  f.stream_size = f.stream.length ∧ 0 ≤ f.buf_fpos ∧ 0 ≤ f.buf_pos ∧
  (f.stream_pos = f.buf_fpos + f.buf_len ∨ f.stream_size ≤ f.buf_fpos + f.buf_len) ∧
  ∀ a : Int, f.buf_fpos ≤ a → a < f.buf_fpos + f.buf_len → a < f.stream_size →
    bufAt f (a - f.buf_fpos) = f.stream.getD a.toNat 0

/-- The reader states reachable from a fresh reader by `Seek`, `FillBuffer`
and `ReadChar` calls.  `FillBuffer` is called with the cursor inside the
window only: with `m_buf_pos > m_buf_len` its compaction computes a negative
`m_buf_len` and the read lands before the buffer. -/
inductive Reachable : LVTextFileBase → Prop
  | fresh (stream : List Nat) (enc : char_encoding_type) (table : Option (List Nat)) :
      Reachable { LVTextFileBase.create stream with enc_type := enc, conv_table := table }
  | seek (f : LVTextFileBase) (pos k : Int) : Reachable f → Reachable (Seek f pos k).2
  | fill (f : LVTextFileBase) (n : Int) :
      Reachable f → f.buf_pos ≤ f.buf_len → Reachable (FillBuffer f n).2
  | read (f : LVTextFileBase) : Reachable f → Reachable (ReadChar f).2

/-- A stream of 4096 letters `A` followed by the two bytes `C3 A9` of
U+00E9. -/
def longStream : List Nat := List.replicate 4096 0x41 ++ [0xC3, 0xA9]

/-! ## Parser events (`LVXMLParserCallback`) -/

/-- A call of a method of the callback `LVXMLParserCallback`; a namespace
argument is `none` where the code passes `NULL`. -/
inductive Event where
  | start
  | stop
  | encoding (name : List Nat) (table : Option (List Nat))
  | tagOpen (nsname : Option (List Nat)) (tagname : List Nat)
  | tagClose (nsname : Option (List Nat)) (tagname : List Nat)
  | attribute (nsname : Option (List Nat)) (attrname : List Nat) (attrvalue : List Nat)
  | text (ev : TextEvent)
deriving DecidableEq

/-- Modelled from the spec: the flag `TXTFLG_TRIM` is declared outside
`lvxml.cpp`; the spec gives it as bit 0 of the text flags. -/
def TXTFLG_TRIM : Nat := 1

/-- Modelled from the spec: the flag `TXTFLG_TRIM_REMOVE_EOL_HYPHENS` is
declared outside `lvxml.cpp`; the spec gives it as bit 3 of the text flags. -/
def TXTFLG_TRIM_REMOVE_EOL_HYPHENS : Nat := 8

/-- Modelled from the spec: `lString16::trimDoubleSpaces( false, false, true )`
is defined outside `lvxml.cpp`, and the functions below take it as the
parameter `trim`.  The spec calls its result "whitespace-normalised": runs of
whitespace become one space and no space is left at the start or at the end.
This instance is used where a paragraph is evaluated on a concrete text; it
leaves hyphens alone. -/
def trimDoubleSpaces (s : List Nat) : List Nat :=
  let t := collapseSpaces true s
  if t.getLast? = some 32 then t.dropLast else t

/-! ## Line records (`LVTextFileLine`) -/

/-- The conversion of an `int` to `lUInt16`. -/
def toUInt16 (n : Int) : Nat := (n % 65536).toNat

/-- The class `LVTextFileLine`: a line of the file with the columns of its
first non-space character (`lpos`) and behind its last one (`rpos`). -/
structure LVTextFileLine where
  fpos : Int
  fsize : Int
  flags : Nat
  text : List Nat
  lpos : Nat
  rpos : Nat
deriving DecidableEq, Inhabited

/-- The variables of the scan in the constructor of `LVTextFileLine`. -/
structure LinePosVars where
  p : Int
  lpos : Nat
  rpos : Nat

/-- One turn of `for ( int p=0; *s; s++ ) { … }` for the character `ch`. -/
def linePosStep (v : LinePosVars) (ch : Nat) : LinePosVars :=
  if ch = 9 then { v with p := Int.tmod (v.p + 8) 8 }
  else if ch ≠ 32 then
    { p := v.p + 1,
      lpos := if v.rpos = 0 then toUInt16 v.p else v.lpos,
      rpos := toUInt16 (v.p + 1) }
  else { v with p := v.p + 1 }

/-- The body of the constructor after `ReadLine` has returned `r`. -/
def LVTextFileLine.ofLine (r : LineResult) : LVTextFileLine :=
  let v := (c_str r.text).foldl linePosStep ⟨0, 0, 0⟩
  { fpos := r.fpos, fsize := r.fsize, flags := r.flags, text := r.text,
    lpos := v.lpos, rpos := v.rpos }

/-- The constructor `LVTextFileLine( LVTextFileBase * file, int maxsize )`:
the record and the reader afterwards. -/
def LVTextFileLine.create (eof : LVTextFileBase → Bool) (file : LVTextFileBase) (maxsize : Int) :
    Option (LVTextFileLine × LVTextFileBase) :=
  (ReadLine eof file maxsize).map (fun r => (LVTextFileLine.ofLine r, r.file))

/-! ## Line queue (`LVTextLineQueue`) -/

def tftParaPerLine : Nat := 1

def tftParaIdents : Nat := 2

def tftEmptyLineDelimPara : Nat := 4

def tftCenteredHeaders : Nat := 8

def tftEmptyLineDelimHeaders : Nat := 16

def MAX_PARA_LINES : Int := 30

def MAX_BUF_LINES : Int := 200

/-- The class `LVTextLineQueue`; `lines` is the content of its base class
`LVPtrVector<LVTextFileLine>`. -/
structure LVTextLineQueue where
  lines : List LVTextFileLine
  file : LVTextFileBase
  first_line_index : Int
  maxLineSize : Int
  authorFirstName : List Nat
  authorLastName : List Nat
  bookTitle : List Nat
  seriesName : List Nat
  seriesNumber : List Nat
  formatFlags : Nat
  min_left : Int
  max_right : Int
  avg_left : Int
  avg_right : Int
  paraCount : Int
deriving DecidableEq

/-- The constructor `LVTextLineQueue( LVTextFileBase * f, int maxLineLen )`.
It leaves `formatFlags` uninitialised: `formatFlags` is the value the member
happens to hold. -/
def LVTextLineQueue.create (f : LVTextFileBase) (maxLineLen : Int) (formatFlags : Nat) :
    LVTextLineQueue :=
  { lines := [], file := f, first_line_index := 0, maxLineSize := maxLineLen,
    authorFirstName := [], authorLastName := [], bookTitle := [], seriesName := [],
    seriesNumber := [], formatFlags := formatFlags,
    min_left := -1, max_right := -1, avg_left := 0, avg_right := 0, paraCount := 0 }

/-- The method `length()` of the base class. -/
def LVTextLineQueue.length (q : LVTextLineQueue) : Int := q.lines.length

/-- The method `get( i )` of the base class, for `0 ≤ i < length()`. -/
def LVTextLineQueue.get (q : LVTextLineQueue) (i : Int) : LVTextFileLine :=
  q.lines.getD i.toNat default

/-- The method `RemoveLines( int lineCount )`. -/
def RemoveLines (q : LVTextLineQueue) (lineCount : Int) : LVTextLineQueue :=
  let lineCount := if lineCount > q.length then q.length else lineCount
  { q with lines := q.lines.drop lineCount.toNat,
           first_line_index := q.first_line_index + lineCount }

/-- The loop of `ReadLines` from the turn `i` on, with `n` turns left: the
returned flag and the queue afterwards. -/
def ReadLinesLoop (eof : LVTextFileBase → Bool) :
    Nat → Int → LVTextLineQueue → Option (Bool × LVTextLineQueue)
  | 0, _, q => some (true, q)
  | n + 1, i, q =>
    if eof q.file = true ∧ i = 0 then some (false, q)
    else
      match LVTextFileLine.create eof q.file q.maxLineSize with
      | none => none
      | some (line, file) =>
        ReadLinesLoop eof n (i + 1) { q with lines := q.lines ++ [line], file := file }

/-- The method `ReadLines( int lineCount )`. -/
def ReadLines (eof : LVTextFileBase → Bool) (q : LVTextLineQueue) (lineCount : Int) :
    Option (Bool × LVTextLineQueue) :=
  ReadLinesLoop eof lineCount.toNat 0 q

/-- The locals and members the first loop of `detectFormatFlags` updates. -/
structure DetectVars where
  empty_lines : Int
  min_left : Int
  max_right : Int
  avg_left : Int
  avg_right : Int

/-- The body of the first loop of `detectFormatFlags` for line `i`. -/
def detectStatsBody (i : Int) (line : LVTextFileLine) (v : DetectVars) : DetectVars :=
  if line.lpos = line.rpos then { v with empty_lines := v.empty_lines + 1 }
  else
    { v with
      min_left := if i = 0 ∨ (line.lpos : Int) < v.min_left then line.lpos else v.min_left,
      max_right := if i = 0 ∨ (line.rpos : Int) > v.max_right then line.rpos else v.max_right,
      avg_left := v.avg_left + line.lpos,
      avg_right := v.avg_right + line.rpos }

/-- The first loop of `detectFormatFlags` over the lines from index `i` on. -/
def detectStatsLoop : List LVTextFileLine → Int → DetectVars → DetectVars
  | [], _, v => v
  | line :: rest, i, v => detectStatsLoop rest (i + 1) (detectStatsBody i line v)

/-- The second loop of `detectFormatFlags`: the final `ident_lines`. -/
def detectIdentLoop (lines : List LVTextFileLine) (min_left : Int) : Int :=
  lines.foldl (fun n line => if (line.lpos : Int) > min_left then n + 1 else n) 0

/-- The method `detectFormatFlags()`.  The divisions are those of C on `int`. -/
def detectFormatFlags (q : LVTextLineQueue) : LVTextLineQueue :=
  let q0 := { q with formatFlags := tftParaPerLine ||| tftEmptyLineDelimHeaders }
  if q0.length < 10 then q0
  else
    let v := detectStatsLoop q.lines 0
      { empty_lines := 0, min_left := -1, max_right := -1, avg_left := 0, avg_right := 0 }
    let q1 := { q0 with formatFlags := 0, min_left := v.min_left, max_right := v.max_right,
                        avg_left := v.avg_left, avg_right := v.avg_right }
    let ident_lines := detectIdentLoop q.lines q1.min_left
    let non_empty_lines := q1.length - v.empty_lines
    if non_empty_lines < 10 then q1
    else
      let q2 := { q1 with avg_left := Int.tdiv q1.avg_left q1.length,
                          avg_right := Int.tdiv q1.avg_right q1.length }
      if q2.avg_right ≥ 80 then q2
      else
        let ident_lines_percent := Int.tdiv (ident_lines * 100) q2.length
        let empty_lines_precent := Int.tdiv (v.empty_lines * 100) q2.length
        let flags1 := if empty_lines_precent > 5 then 0 ||| tftEmptyLineDelimPara else 0
        let flags2 := if ident_lines_percent > 5 then flags1 ||| tftParaIdents else flags1
        if flags2 = 0 then
          { q2 with formatFlags := tftParaPerLine ||| tftEmptyLineDelimHeaders }
        else { q2 with formatFlags := flags2 }

/-- The locals of the loop of `AddPara`. -/
structure ParaVars where
  str : List Nat
  pos : Int
  sz : Int

/-- The body of the loop of `AddPara` for line `i`. -/
def AddParaBody (q : LVTextLineQueue) (startline : Int) (v : ParaVars) (i : Int) : ParaVars :=
  let item := q.get i
  let pos := if i = startline then item.fpos else v.pos
  { str := v.str ++ (item.text ++ [10]), pos := pos, sz := (item.fpos + item.fsize) - pos }

/-- The loop `for ( int i=startline; i<=endline; i++ ) { … }` of `AddPara`. -/
def AddParaLoop (q : LVTextLineQueue) (startline endline : Int) : ParaVars :=
  ((List.range (endline + 1 - startline).toNat).map
      (fun (j : Nat) => startline + (j : Int))).foldl
    (AddParaBody q startline) { str := [], pos := 0, sz := 0 }

/-- The method `AddPara( startline, endline, callback )`: the events sent to
the callback and the queue afterwards.  `trim` is
`lString16::trimDoubleSpaces( false, false, true )` and `lower` the
lowercasing of a character, both defined outside `lvxml.cpp`. -/
def AddPara (trim : List Nat → List Nat) (lower : Nat → Nat) (q : LVTextLineQueue)
    (startline endline : Int) : List Event × LVTextLineQueue :=
  let v := AddParaLoop q startline endline
  let str := trim v.str
  let isHeader0 : Bool :=
    decide (str.length < 4) || (decide (q.paraCount < 2) && decide (str.length < 50))
  let hlevel := DetectHeadingLevelByText lower str
  let isHeader : Bool := if hlevel > 0 then true else isHeader0
  if str ≠ [] then
    ((if isHeader then [Event.tagOpen none (codes "title")] else []) ++
      [Event.tagOpen none (codes "p"),
       Event.text { text := str, len := str.length, fpos := v.pos, fsize := v.sz,
                    flags := TXTFLG_TRIM ||| TXTFLG_TRIM_REMOVE_EOL_HYPHENS },
       Event.tagClose none (codes "p")] ++
      (if isHeader then [Event.tagClose none (codes "title")] else []),
     { q with paraCount := q.paraCount + 1 })
  else
    (if q.formatFlags &&& tftEmptyLineDelimPara = 0 then
       [Event.tagOpen none (codes "empty-line"), Event.tagClose none (codes "empty-line")]
     else [],
     q)

/-- The first statement of the loops of `DoIdentParaImport` and
`DoEmptyLineParaImport`: when at most `MAX_PARA_LINES` lines are left behind
`pos`, drop the lines before `pos` and read `MAX_BUF_LINES` more.  The queue
and `pos` afterwards. -/
def refillQueue (eof : LVTextFileBase → Bool) (q : LVTextLineQueue) (pos : Int) :
    Option (LVTextLineQueue × Int) :=
  if q.length - pos ≤ MAX_PARA_LINES then
    (ReadLines eof (if pos ≠ 0 then RemoveLines q pos else q) MAX_BUF_LINES).map
      (fun r => (r.2, 0))
  else some (q, pos)

/-- The inner loop of `DoEmptyLineParaImport`,
`for ( ; i<length() && i<pos+MAX_PARA_LINES; i++ ) { if ( item->lpos==item->lpos ) break; }`:
the value of `i` behind it. -/
def emptyLineScan (q : LVTextLineQueue) (pos : Int) : Nat → Int → Int
  | 0, i => i
  | fuel + 1, i =>
    if i < q.length ∧ i < pos + MAX_PARA_LINES then
      if (q.get i).lpos = (q.get i).lpos then i
      else emptyLineScan q pos fuel (i + 1)
    else i

/-- The state of the loop of a paragraph import: the queue, `pos`, and the
events sent so far. -/
structure ImportVars where
  q : LVTextLineQueue
  pos : Int
  events : List Event

/-- The loop `for ( ;; ) { … }` of `DoEmptyLineParaImport`, run for at most
`fuel` turns; `none` when the turns do not suffice. -/
def DoEmptyLineParaImportLoop (eof : LVTextFileBase → Bool) (trim : List Nat → List Nat)
    (lower : Nat → Nat) : Nat → ImportVars → Option ImportVars
  | 0, _ => none
  | fuel + 1, s =>
    match refillQueue eof s.q s.pos with
    | none => none
    | some (q, pos) =>
      if pos ≥ q.length then some { s with q := q, pos := pos }
      else
        let i :=
          if pos ≥ q.length ∨ DetectHeadingLevelByText lower (q.get pos).text = 0 then
            emptyLineScan q pos (MAX_PARA_LINES.toNat + 1) pos
          else pos
        let r := AddPara trim lower q pos i
        DoEmptyLineParaImportLoop eof trim lower fuel
          { q := r.2, pos := i + 1, events := s.events ++ r.1 }

/-- The method `DoEmptyLineParaImport( callback )` (it always returns true):
the events sent and the queue afterwards. -/
def DoEmptyLineParaImport (eof : LVTextFileBase → Bool) (trim : List Nat → List Nat)
    (lower : Nat → Nat) (fuel : Nat) (q : LVTextLineQueue) :
    Option (List Event × LVTextLineQueue) :=
  (DoEmptyLineParaImportLoop eof trim lower fuel { q := q, pos := 0, events := [] }).map
    (fun s => (s.events, s.q))

/-! ## Text importer: reference definitions -/

/-- The number of empty lines (`lpos == rpos`) of a window. -/
def emptyCount (lines : List LVTextFileLine) : Nat :=
  lines.countP (fun l => decide (l.lpos = l.rpos))

/-- The sum of `rpos` over the non-empty lines of a window. -/
def rposSum (lines : List LVTextFileLine) : Int :=
  ((lines.filter (fun l => decide (l.lpos ≠ l.rpos))).map (fun l => (l.rpos : Int))).sum

/-- The default format flags `ParaPerLine | EmptyLineDelimHeaders`. -/
def defaultFormatFlags : Nat := tftParaPerLine ||| tftEmptyLineDelimHeaders

/-- The lines `startline .. endline` of the queue. -/
def paraLines (q : LVTextLineQueue) (startline endline : Int) : List LVTextFileLine :=
  (q.lines.drop startline.toNat).take (endline + 1 - startline).toNat

/-- The texts of lines, each followed by U+000A. -/
def paraJoin (lines : List LVTextFileLine) : List Nat :=
  lines.flatMap (fun l => l.text ++ [10])

/-- The events of a paragraph with text `s` and byte range `pos`, `sz`:
`p` with one text inside, wrapped in `title` if `isHeader`. -/
def paraEvents (isHeader : Bool) (s : List Nat) (pos sz : Int) : List Event :=
  (if isHeader then [Event.tagOpen none (codes "title")] else []) ++
    [Event.tagOpen none (codes "p"),
     Event.text { text := s, len := s.length, fpos := pos, fsize := sz, flags := 9 },
     Event.tagClose none (codes "p")] ++
    (if isHeader then [Event.tagClose none (codes "title")] else [])

/-- The record the constructor of `LVTextFileLine` builds for a line with the
characters `text` that starts at `fpos` and ends with one line-feed byte. -/
def lineOfText (fpos : Int) (text : List Nat) : LVTextFileLine :=
  { fpos := fpos, fsize := text.length + 1, flags := 1, text := text,
    lpos := ((c_str text).foldl linePosStep ⟨0, 0, 0⟩).lpos,
    rpos := ((c_str text).foldl linePosStep ⟨0, 0, 0⟩).rpos }

/-- A window of `n` empty line records. -/
def blankWindow (n : Nat) : List LVTextFileLine :=
  List.replicate n { fpos := 0, fsize := 0, flags := 1, text := [], lpos := 0, rpos := 0 }

/-- A queue over a reader at the end of its (empty) stream that holds `lines`
and has the format flags `flags`. -/
def queueOf (lines : List LVTextFileLine) (flags : Nat) : LVTextLineQueue :=
  { LVTextLineQueue.create (LVTextFileBase.create []) 1000 flags with lines := lines }

/-- Ten lines "aaaa", one empty line, ten lines "bbbb": two blocks of ten
non-empty lines separated by one blank line. -/
def twoBlocks : List LVTextFileLine :=
  (List.range 10).map (fun (i : Nat) => lineOfText (5 * (i : Int)) (codes "aaaa")) ++
    [lineOfText 50 []] ++
    (List.range 10).map (fun (i : Nat) => lineOfText (51 + 5 * (i : Int)) (codes "bbbb"))

/-- The number of calls `OnTagOpen( NULL, name )` among the events. -/
def countOpen (name : String) (events : List Event) : Nat :=
  events.countP (fun e => decide (e = Event.tagOpen none (codes name)))

/-! ## Format detection: reference definitions -/

/-- The sum of `lpos` over the non-empty lines of a window. -/
def lposSum (lines : List LVTextFileLine) : Int :=
  ((lines.filter (fun l => decide (l.lpos ≠ l.rpos))).map (fun l => (l.lpos : Int))).sum

/-- The minimum of `lpos` over the non-empty lines of a window (`none` when
all lines are empty). -/
def minLpos (lines : List LVTextFileLine) : Option Nat :=
  ((lines.filter (fun l => decide (l.lpos ≠ l.rpos))).map (fun l => l.lpos)).min?

/-- The maximum of `rpos` over the non-empty lines of a window. -/
def maxRpos (lines : List LVTextFileLine) : Option Nat :=
  ((lines.filter (fun l => decide (l.lpos ≠ l.rpos))).map (fun l => l.rpos)).max?

/-- The number of lines of a window (empty ones included) with
`lpos > min_left`. -/
def identCount (lines : List LVTextFileLine) (min_left : Int) : Nat :=
  lines.countP (fun l => decide ((l.lpos : Int) > min_left))

/-- A line record with the given `lpos` and `rpos` (text and file range left
empty). -/
def lineAt (lpos rpos : Nat) : LVTextFileLine :=
  { fpos := 0, fsize := 0, flags := 1, text := [], lpos := lpos, rpos := rpos }

/-! ## Paragraph import by indentation and by line; book description -/

/-- The inner loop of `DoIdentParaImport`,
`for ( ; i<length() && i<pos+MAX_PARA_LINES; i++ ) { if ( item->lpos>min_left ) break; }`:
the value of `i` behind it. -/
def identScan (q : LVTextLineQueue) (pos : Int) : Nat → Int → Int
  | 0, i => i
  | fuel + 1, i =>
    if i < q.length ∧ i < pos + MAX_PARA_LINES then
      if ((q.get i).lpos : Int) > q.min_left then i
      else identScan q pos fuel (i + 1)
    else i

/-- The value of `i` in `DoIdentParaImport` when `AddPara( pos, i-1 )` is
called: `pos+1`, moved on by the inner loop unless the line `pos` is a
heading by its text. -/
def identParaEnd (lower : Nat → Nat) (q : LVTextLineQueue) (pos : Int) : Int :=
  if pos ≥ q.length ∨ DetectHeadingLevelByText lower (q.get pos).text = 0 then
    identScan q pos MAX_PARA_LINES.toNat (pos + 1)
  else pos + 1

/-- The loop `for ( ;; ) { … }` of `DoIdentParaImport`, run for at most `fuel`
turns; `none` when the turns do not suffice. -/
def DoIdentParaImportLoop (eof : LVTextFileBase → Bool) (trim : List Nat → List Nat)
    (lower : Nat → Nat) : Nat → ImportVars → Option ImportVars
  | 0, _ => none
  | fuel + 1, s =>
    match refillQueue eof s.q s.pos with
    | none => none
    | some (q, pos) =>
      if pos ≥ q.length then some { s with q := q, pos := pos }
      else
        let i := identParaEnd lower q pos
        let r := AddPara trim lower q pos (i - 1)
        DoIdentParaImportLoop eof trim lower fuel
          { q := r.2, pos := i, events := s.events ++ r.1 }

/-- The method `DoIdentParaImport( callback )` (it always returns true): the
events sent and the queue afterwards. -/
def DoIdentParaImport (eof : LVTextFileBase → Bool) (trim : List Nat → List Nat)
    (lower : Nat → Nat) (fuel : Nat) (q : LVTextLineQueue) :
    Option (List Event × LVTextLineQueue) :=
  (DoIdentParaImportLoop eof trim lower fuel { q := q, pos := 0, events := [] }).map
    (fun s => (s.events, s.q))

/-- The loop `for ( int i=0; i<length(); i++ ) AddPara( i, i, callback );` of
`DoParaPerLineImport` from the index `i` on, with `n` turns left. -/
def addParaEach (trim : List Nat → List Nat) (lower : Nat → Nat) :
    Nat → Int → LVTextLineQueue → List Event → List Event × LVTextLineQueue
  | 0, _, q, events => (events, q)
  | n + 1, i, q, events =>
    addParaEach trim lower n (i + 1) (AddPara trim lower q i i).2
      (events ++ (AddPara trim lower q i i).1)

/-- The loop `do { … } while ( ReadLines( 100 ) );` of `DoParaPerLineImport`,
run for at most `fuel` turns. -/
def DoParaPerLineImportLoop (eof : LVTextFileBase → Bool) (trim : List Nat → List Nat)
    (lower : Nat → Nat) : Nat → LVTextLineQueue → List Event →
    Option (List Event × LVTextLineQueue)
  | 0, _, _ => none
  | fuel + 1, q, events =>
    let r := addParaEach trim lower q.lines.length 0 q events
    match ReadLines eof (RemoveLines r.2 r.2.length) 100 with
    | none => none
    | some (again, q1) =>
      if again then DoParaPerLineImportLoop eof trim lower fuel q1 r.1
      else some (r.1, q1)

/-- The method `DoParaPerLineImport( callback )` (it always returns true). -/
def DoParaPerLineImport (eof : LVTextFileBase → Bool) (trim : List Nat → List Nat)
    (lower : Nat → Nat) (fuel : Nat) (q : LVTextLineQueue) :
    Option (List Event × LVTextLineQueue) :=
  DoParaPerLineImportLoop eof trim lower fuel q []

/-- The method `DoTextImport( callback )`. -/
def DoTextImport (eof : LVTextFileBase → Bool) (trim : List Nat → List Nat)
    (lower : Nat → Nat) (fuel : Nat) (q : LVTextLineQueue) :
    Option (List Event × LVTextLineQueue) :=
  if q.formatFlags &&& tftParaIdents ≠ 0 then DoIdentParaImport eof trim lower fuel q
  else if q.formatFlags &&& tftEmptyLineDelimPara ≠ 0 then
    DoEmptyLineParaImport eof trim lower fuel q
  else DoParaPerLineImport eof trim lower fuel q

/-- The locals `necount` and `s[0]`, `s[1]` of `DetectBookDescription`. -/
structure DescVars where
  necount : Int
  s0 : List Nat
  s1 : List Nat

/-- The first loop of `DetectBookDescription`,
`for ( i=0; i<(unsigned)length() && necount<2; i++ ) { … }`, over the lines
from index `i` on: the value of `i` behind the loop and the locals. -/
def descScan (trim : List Nat → List Nat) :
    List LVTextFileLine → Int → DescVars → Int × DescVars
  | [], i, v => (i, v)
  | item :: rest, i, v =>
    if v.necount < 2 then
      descScan trim rest (i + 1)
        (if item.rpos > item.lpos then
          (if trim item.text ≠ [] then
            { necount := v.necount + 1,
              s0 := if v.necount = 0 then trim item.text else v.s0,
              s1 := if v.necount = 1 then trim item.text else v.s1 }
           else v)
         else v)
    else (i, v)

/-- An element `<name>text</name>` of the description: the text is sent only
if it is not empty. -/
def nameEvents (tag : String) (text : List Nat) : List Event :=
  [Event.tagOpen none (codes tag)] ++
    (if text ≠ [] then
      [Event.text { text := text, len := text.length, fpos := 0, fsize := 0,
                    flags := TXTFLG_TRIM ||| TXTFLG_TRIM_REMOVE_EOL_HYPHENS }]
     else []) ++
    [Event.tagClose none (codes tag)]

/-- The body of the loop over `author_list` in `DetectBookDescription` for
the words `name_list` of one author. -/
def authorEvents (name_list : List (List Nat)) : List Event :=
  if name_list.length > 0 then
    let firstName := name_list.getD 0 []
    let lastName :=
      if name_list.length = 2 then name_list.getD 1 []
      else if name_list.length > 2 then name_list.getD 2 []
      else []
    let middleName := if name_list.length > 2 then name_list.getD 1 [] else []
    [Event.tagOpen none (codes "author")] ++ nameEvents "first-name" firstName ++
      nameEvents "middle-name" middleName ++ nameEvents "last-name" lastName ++
      [Event.tagClose none (codes "author")]
  else []

/-- The method `DetectBookDescription( callback )` (it always returns true):
the events sent and the queue afterwards.  `trim` is
`lString16::trimDoubleSpaces( false, false, true )` and `parse s delimiter`
is `lString16Collection::parse( s, delimiter, true )`, both defined outside
`lvxml.cpp`. -/
def DetectBookDescription (trim : List Nat → List Nat)
    (parse : List Nat → Nat → List (List Nat)) (q : LVTextLineQueue) :
    List Event × LVTextLineQueue :=
  let r := descScan trim q.lines 0 { necount := 0, s0 := [], s1 := [] }
  let bookTitle := if r.1 = 0 then codes "no name" else r.2.s1
  ((parse r.2.s0 44).flatMap (fun author => authorEvents (parse author 32)) ++
    [Event.tagOpen none (codes "book-title")] ++
    (if bookTitle ≠ [] then
      [Event.text { text := bookTitle, len := bookTitle.length, fpos := 0, fsize := 0,
                    flags := 0 }]
     else []) ++
    [Event.tagClose none (codes "book-title")] ++
    (if q.seriesName ≠ [] ∨ q.seriesNumber ≠ [] then
      [Event.tagOpen none (codes "sequence")] ++
        (if q.seriesName ≠ [] then [Event.attribute none (codes "name") q.seriesName]
         else []) ++
        (if q.seriesNumber ≠ [] then [Event.attribute none (codes "number") q.seriesNumber]
         else []) ++
        [Event.tagClose none (codes "sequence")]
     else []),
   { q with bookTitle := bookTitle })

/-- The events `LVTextParser::Parse` sends before it calls
`DetectBookDescription`. -/
def textParseHead : List Event :=
  [Event.tagOpen none (codes "?xml"),
   Event.attribute none (codes "version") (codes "1.0"),
   Event.tagClose none (codes "?xml"),
   Event.tagOpen none (codes "FictionBook"),
   Event.tagOpen none (codes "description"),
   Event.tagOpen none (codes "title-info")]

/-- The events `LVTextParser::Parse` sends between `DetectBookDescription` and
`DoTextImport`. -/
def textParseMiddle : List Event :=
  [Event.tagOpen none (codes "title-info"),
   Event.tagClose none (codes "description"),
   Event.tagOpen none (codes "body"),
   Event.tagOpen none (codes "section")]

/-- The events `LVTextParser::Parse` sends after `DoTextImport`. -/
def textParseTail : List Event :=
  [Event.tagClose none (codes "section"),
   Event.tagClose none (codes "body"),
   Event.tagClose none (codes "FictionBook")]

/-- The method `LVTextParser::Parse()` (it always returns true): the events
sent and the queue at the end.  `formatFlags` is the value the uninitialised
member of the queue holds, `fuel` bounds the turns of the import loops. -/
def LVTextParser.Parse (eof : LVTextFileBase → Bool) (trim : List Nat → List Nat)
    (lower : Nat → Nat) (parse : List Nat → Nat → List (List Nat)) (fuel : Nat)
    (formatFlags : Nat) (f : LVTextFileBase) : Option (List Event × LVTextLineQueue) :=
  match ReadLines eof (LVTextLineQueue.create f 1000 formatFlags) 200 with
  | none => none
  | some (_, q0) =>
    match DoTextImport eof trim lower fuel
        (DetectBookDescription trim parse (detectFormatFlags q0)).2 with
    | none => none
    | some (body, q2) =>
      some (textParseHead ++ (DetectBookDescription trim parse (detectFormatFlags q0)).1 ++
        textParseMiddle ++ body ++ textParseTail, q2)

/-! ## Well-nested event sequences -/

/-- One step of the nesting check: the stack of open elements after the event
`e`, or `none` once a tag-close has met no open element of its name on top of
the stack. -/
def nestStep (st : Option (List (Option (List Nat) × List Nat))) (e : Event) :
    Option (List (Option (List Nat) × List Nat)) :=
  match st, e with
  | none, _ => none
  | some stack, Event.tagOpen ns name => some ((ns, name) :: stack)
  | some stack, Event.tagClose ns name =>
    match stack with
    | top :: rest => if top = (ns, name) then some rest else none
    | [] => none
  | some stack, _ => some stack

/-- An event sequence is well nested: every tag-close closes the element
opened last and not yet closed, and no element is left open. -/
def wellNested (events : List Event) : Bool :=
  events.foldl nestStep (some []) == some []

/-- Modelled from the spec: `lString16Collection::parse( s, delimiter, true )`
is defined outside `lvxml.cpp`, and `DetectBookDescription` takes it as the
parameter `parse`.  The spec has the author line "parsed as a
comma-separated author list; each entry is split on whitespace": this
instance splits at the delimiter, normalises each part with
`trimDoubleSpaces` and drops the empty ones. -/
def parseList (s : List Nat) (delimiter : Nat) : List (List Nat) :=
  ((s.splitOn delimiter).map trimDoubleSpaces).filter (fun w => decide (w ≠ []))

/-- Three lines: "Chapter 1" and two lines of text, none of them indented. -/
def chapterLines : List LVTextFileLine :=
  [lineOfText 0 (codes "Chapter 1"), lineOfText 10 (codes "first line"),
   lineOfText 21 (codes "second line")]

/-- The number of calls `OnTagClose( NULL, name )` among the events. -/
def countClose (name : String) (events : List Event) : Nat :=
  events.countP (fun e => decide (e = Event.tagClose none (codes name)))

/-! ## Text chunks of `ReadText`: invariant -/

/-- A character after which `ReadText` may record a split point: a space, a
CR or a LF. -/
def isSplitChar (c : Nat) : Bool := c == 32 || c == 13 || c == 10

/-- Loop invariant of `ReadText` about the size of its chunks: every event
sent reports at most `splitSize + 1` characters; and while the loop runs the
buffer holds `tlen ≤ splitSize` characters and a recorded split point lies
inside the buffer, right behind a space, CR or LF. -/
def ChunkInv (splitSize : Int) (s : TextVars) : Prop :=
  (∀ e ∈ s.events, (e.len : Int) ≤ splitSize + 1) ∧
  (s.done = false →
    s.tlen = s.txt_buf.length ∧ s.tlen ≤ splitSize ∧
    (s.last_split_fpos ≠ 0 →
      1 ≤ s.last_split_txtlen ∧ s.last_split_txtlen ≤ s.tlen ∧
      isSplitChar (s.txt_buf.getD (s.last_split_txtlen.toNat - 1) 0) = true))

/-- The reader has a genuine window, in the single-byte mode without a
table. -/
def Ready (f : LVTextFileBase) : Prop :=
  Valid f ∧ WindowInv f ∧ f.enc_type = char_encoding_type.ce_8bit_cp ∧ f.conv_table = none

/-- A text node of `n` letters `a`, closed by '<'. -/
def letterRun (n : Nat) : List Nat := List.replicate n 97 ++ [60]

/-- The state of the loop of `ReadText` after `k` letters of a text node
without split point: nothing sent, `k` letters in the buffer. -/
def LettersRead (stream : List Nat) (k : Nat) (s : TextVars) : Prop :=
  s.done = false ∧ s.events = [] ∧ s.txt_buf = List.replicate k 97 ∧ s.tlen = k ∧
  s.last_split_fpos = 0 ∧ s.last_split_txtlen = 0 ∧ s.text_start_pos = 0 ∧
  Ready s.file ∧ cursor s.file = k ∧ s.file.stream = stream ∧
  s.file.stream_size = stream.length

/-! ## XML parser (`LVXMLParser`) -/

/-- The states of the XML parser. -/
inductive parser_state_t where
  | ps_bof
  | ps_lt
  | ps_attr
  | ps_text
deriving DecidableEq

/-- The function `IsSpaceChar( lChar16 ch )`. -/
def IsSpaceChar (ch : Nat) : Bool := ch == 32 || ch == 9 || ch == 13 || ch == 10

/-- The function `isValidIdentChar( char ch )`. -/
def isValidIdentChar (ch : Nat) : Bool :=
  (decide (97 ≤ ch) && decide (ch ≤ 122)) || (decide (65 ≤ ch) && decide (ch ≤ 90)) ||
    (decide (48 ≤ ch) && decide (ch ≤ 57)) || ch == 45 || ch == 95 || ch == 46 || ch == 58

/-- The function `isValidFirstIdentChar( char ch )`. -/
def isValidFirstIdentChar (ch : Nat) : Bool :=
  (decide (97 ≤ ch) && decide (ch ≤ 122)) || (decide (65 ≤ ch) && decide (ch ≤ 90))

/-- The loop `for ( ; m_buf_pos<m_buf_len && p(m_buf[m_buf_pos]); m_buf_pos++ ) ;`
with `n` turns left. -/
def scanWhileLoop (p : Nat → Bool) : Nat → LVTextFileBase → LVTextFileBase
  | 0, f => f
  | n + 1, f =>
    if f.buf_pos < f.buf_len ∧ p (bufAt f f.buf_pos) = true then
      scanWhileLoop p n { f with buf_pos := f.buf_pos + 1 }
    else f

/-- The loop `for ( ; m_buf_pos<m_buf_len && p(m_buf[m_buf_pos]); m_buf_pos++ ) ;`:
it has at most `m_buf_len - m_buf_pos` turns. -/
def scanWhile (p : Nat → Bool) (f : LVTextFileBase) : LVTextFileBase :=
  scanWhileLoop p (f.buf_len - f.buf_pos).toNat f

/-- The loop of `SkipSpaces`, run for at most `fuel` turns. -/
def SkipSpacesLoop (eof : LVTextFileBase → Bool) : Nat → LVTextFileBase →
    Option (Bool × LVTextFileBase)
  | 0, _ => none
  | fuel + 1, f =>
    if eof f then some (false, f)
    else if (refill (scanWhile IsSpaceChar f)).buf_pos < (refill (scanWhile IsSpaceChar f)).buf_len
    then some (true, refill (scanWhile IsSpaceChar f))
    else SkipSpacesLoop eof fuel (refill (scanWhile IsSpaceChar f))

/-- The method `LVXMLParser::SkipSpaces()`: the returned flag and the reader
afterwards. -/
def SkipSpaces (eof : LVTextFileBase → Bool) (fuel : Nat) (f : LVTextFileBase) :
    Option (Bool × LVTextFileBase) :=
  SkipSpacesLoop eof fuel f

/-- The loop of `SkipTillChar( ch )`, run for at most `fuel` turns.  The test
behind the refill reads `m_buf[m_buf_pos]` without comparing `m_buf_pos` with
`m_buf_len`. -/
def SkipTillCharLoop (eof : LVTextFileBase → Bool) (ch : Nat) : Nat → LVTextFileBase →
    Option (Bool × LVTextFileBase)
  | 0, _ => none
  | fuel + 1, f =>
    if eof f then some (false, f)
    else if bufAt (refill (scanWhile (fun c => c != ch) f))
        (refill (scanWhile (fun c => c != ch) f)).buf_pos = ch
    then some (true, refill (scanWhile (fun c => c != ch) f))
    else SkipTillCharLoop eof ch fuel (refill (scanWhile (fun c => c != ch) f))

/-- The method `LVXMLParser::SkipTillChar( char ch )`. -/
def SkipTillChar (eof : LVTextFileBase → Bool) (fuel : Nat) (f : LVTextFileBase) (ch : Nat) :
    Option (Bool × LVTextFileBase) :=
  SkipTillCharLoop eof ch fuel f

/-- The reader and the two strings `ReadIdent` fills. -/
structure IdentVars where
  file : LVTextFileBase
  ns : List Nat
  name : List Nat
deriving DecidableEq

/-- The loop `for ( ; m_buf_pos<m_buf_len; m_buf_pos++ ) { … }` of `ReadIdent`
with `n` turns left. -/
def ReadIdentScan : Nat → IdentVars → IdentVars
  | 0, v => v
  | n + 1, v =>
    if v.file.buf_pos < v.file.buf_len then
      if isValidIdentChar (bufAt v.file v.file.buf_pos) = false then v
      else if bufAt v.file v.file.buf_pos = 58 then
        if v.ns = [] then
          ReadIdentScan n { file := { v.file with buf_pos := v.file.buf_pos + 1 },
                            ns := v.name, name := v.ns }
        else v
      else
        ReadIdentScan n { file := { v.file with buf_pos := v.file.buf_pos + 1 },
                          ns := v.ns, name := v.name ++ [bufAt v.file v.file.buf_pos] }
    else v

/-- The loop `while (!Eof()) { … }` of `ReadIdent`, run for at most `fuel`
turns: the returned flag, the reader and the strings. -/
def ReadIdentLoop (eof : LVTextFileBase → Bool) : Nat → IdentVars → Option (Bool × IdentVars)
  | 0, _ => none
  | fuel + 1, v =>
    if eof v.file then some (true, v)
    else
      let v1 := ReadIdentScan ((refill v.file).buf_len - (refill v.file).buf_pos).toNat
        { v with file := refill v.file }
      if v1.file.buf_pos < v1.file.buf_len then
        some (decide (v1.name ≠ []) &&
            (bufAt v1.file v1.file.buf_pos == 32 || bufAt v1.file v1.file.buf_pos == 47 ||
             bufAt v1.file v1.file.buf_pos == 62 || bufAt v1.file v1.file.buf_pos == 63 ||
             bufAt v1.file v1.file.buf_pos == 61), v1)
      else ReadIdentLoop eof fuel v1

/-- The method `LVXMLParser::ReadIdent( ns, name )`: the returned flag, the
reader afterwards and the two strings. -/
def ReadIdent (eof : LVTextFileBase → Bool) (fuel : Nat) (f : LVTextFileBase) :
    Option (Bool × IdentVars) :=
  if isValidFirstIdentChar (bufAt f f.buf_pos) = false then
    some (false, { file := f, ns := [], name := [] })
  else
    ReadIdentLoop eof fuel
      { file := { f with buf_pos := f.buf_pos + 1 }, ns := [], name := [bufAt f f.buf_pos] }

/-- The loop `for ( ;!Eof(); ) { … }` that reads an attribute value, run for
at most `fuel` turns; `qChar` is the opening quote, or 0 for a value without
quotes.  The reader and the value afterwards. -/
def ReadValueLoop (eof : LVTextFileBase → Bool) (qChar : Nat) :
    Nat → LVTextFileBase → List Nat → Option (LVTextFileBase × List Nat)
  | 0, _, _ => none
  | fuel + 1, f, attrvalue =>
    if eof f then some (f, attrvalue)
    else if bufAt (refill f) (refill f).buf_pos = 62 then some (refill f, attrvalue)
    else if qChar = 0 ∧ IsSpaceChar (bufAt (refill f) (refill f).buf_pos) = true then
      some (refill f, attrvalue)
    else if qChar ≠ 0 ∧ bufAt (refill f) (refill f).buf_pos = qChar then
      some ({ refill f with buf_pos := (refill f).buf_pos + 1 }, attrvalue)
    else if (ReadChar (refill f)).1 ≠ 0 then
      ReadValueLoop eof qChar fuel (ReadChar (refill f)).2
        (attrvalue ++ [(ReadChar (refill f)).1])
    else some ((ReadChar (refill f)).2, attrvalue)

/-- The part of `Parse` between `attrvalue.reset(16)` and the call of
`OnAttribute`: the reader and `attrvalue` afterwards. -/
def ReadAttrValue (eof : LVTextFileBase → Bool) (fuel : Nat) (f : LVTextFileBase) :
    Option (LVTextFileBase × List Nat) :=
  if bufAt f f.buf_pos = 61 then
    match SkipSpaces eof fuel { f with buf_pos := f.buf_pos + 1 } with
    | none => none
    | some r =>
      if bufAt r.2 r.2.buf_pos = 34 ∨ bufAt r.2 r.2.buf_pos = 39 then
        ReadValueLoop eof (bufAt r.2 r.2.buf_pos) fuel { r.2 with buf_pos := r.2.buf_pos + 1 } []
      else ReadValueLoop eof 0 fuel r.2 []
  else some (f, [])

/-- The table `SetCharsetTable( table )` installs: a copy of 128 entries. -/
def copyTable (table : List Nat) : List Nat :=
  (List.range 128).map (fun i => table.getD i 0)

/-- The method `LVTextFileBase::SetCharset( const lChar16 * name )`.  Its
tests `name == L"utf-8"`, … compare the pointer `name` with the address of a
string literal: `isLiteral s` tells whether `name` is that address.
`charsetTable` is `GetCharsetByte2UnicodeTable`, defined outside
`lvxml.cpp`. -/
def LVTextFileBase.SetCharset (isLiteral : String → Bool)
    (charsetTable : List Nat → Option (List Nat)) (f : LVTextFileBase) (name : List Nat) :
    LVTextFileBase :=
  if isLiteral "utf-8" then
    { f with enc_type := char_encoding_type.ce_utf8, conv_table := none }
  else if isLiteral "utf-16" then
    { f with enc_type := char_encoding_type.ce_utf16_le, conv_table := none }
  else if isLiteral "utf-16le" then
    { f with enc_type := char_encoding_type.ce_utf16_le, conv_table := none }
  else if isLiteral "utf-16be" then
    { f with enc_type := char_encoding_type.ce_utf16_be, conv_table := none }
  else if isLiteral "utf-32" then
    { f with enc_type := char_encoding_type.ce_utf32_le, conv_table := none }
  else if isLiteral "utf-32le" then
    { f with enc_type := char_encoding_type.ce_utf32_le, conv_table := none }
  else if isLiteral "utf-32be" then
    { f with enc_type := char_encoding_type.ce_utf32_be, conv_table := none }
  else
    match charsetTable name with
    | some table =>
      { f with enc_type := char_encoding_type.ce_8bit_cp, conv_table := some (copyTable table) }
    | none => { f with enc_type := char_encoding_type.ce_8bit_cp }

/-- The reader, the member `m_state`, the locals of `LVXMLParser::Parse` and
the events sent so far. -/
structure XmlVars where
  file : LVTextFileBase
  m_state : parser_state_t
  inXmlTag : Bool
  closeFlag : Bool
  qFlag : Bool
  tagname : List Nat
  tagns : List Nat
  attrname : List Nat
  attrns : List Nat
  attrvalue : List Nat
  events : List Event

/-- The case `ps_bof` of `Parse`. -/
def ParseBof (s : XmlVars) : XmlVars :=
  if (scanWhile (fun c => c != 60) s.file).buf_pos < (scanWhile (fun c => c != 60) s.file).buf_len
  then
    { s with file := { scanWhile (fun c => c != 60) s.file with
                       buf_pos := (scanWhile (fun c => c != 60) s.file).buf_pos + 1 },
             m_state := parser_state_t.ps_lt }
  else { s with file := scanWhile (fun c => c != 60) s.file }

/-- The statement `if (SkipTillChar('>')) { m_state = ps_text; ++m_buf_pos; }`
of the case `ps_lt`, from the reader `f`. -/
def skipRestOfTag (eof : LVTextFileBase → Bool) (fuel : Nat) (s : XmlVars)
    (f : LVTextFileBase) : Option XmlVars :=
  (SkipTillChar eof fuel f 62).map (fun r =>
    if r.1 then
      { s with file := { r.2 with buf_pos := r.2.buf_pos + 1 }, m_state := parser_state_t.ps_text }
    else { s with file := r.2 })

/-- The case `ps_lt` of `Parse`. -/
def ParseLt (eof : LVTextFileBase → Bool) (fuel : Nat) (s : XmlVars) : Option XmlVars :=
  match SkipSpaces eof fuel s.file with
  | none => none
  | some (false, f1) => some { s with file := f1 }
  | some (true, f1) =>
    let closeFlag : Bool := decide (bufAt f1 f1.buf_pos = 47)
    let qFlag : Bool := !closeFlag && decide (bufAt f1 f1.buf_pos = 63)
    match ReadIdent eof fuel
        (if closeFlag || qFlag then { f1 with buf_pos := f1.buf_pos + 1 } else f1) with
    | none => none
    | some (ok, v) =>
      if ok = false ∨ bufAt v.file v.file.buf_pos = 61 then
        skipRestOfTag eof fuel
          { s with closeFlag := closeFlag, qFlag := qFlag, tagns := v.ns, tagname := v.name }
          v.file
      else if closeFlag then
        skipRestOfTag eof fuel
          { s with closeFlag := closeFlag, qFlag := qFlag, tagns := v.ns, tagname := v.name,
                   events := s.events ++ [Event.tagClose (some (c_str v.ns)) (c_str v.name)] }
          v.file
      else
        some { s with file := v.file, closeFlag := closeFlag, qFlag := qFlag, tagns := v.ns,
                      tagname := if qFlag then 63 :: v.name else v.name,
                      events := s.events ++
                        [Event.tagOpen (some (c_str v.ns))
                          (c_str (if qFlag then 63 :: v.name else v.name))],
                      inXmlTag := decide ((if qFlag then 63 :: v.name else v.name) = codes "?xml"),
                      m_state := parser_state_t.ps_attr }

/-- The end of the case `ps_attr` of `Parse`: `OnAttribute`, and `SetCharset`
with `OnEncoding` for the attribute `encoding` of `<?xml … ?>`.  The name
handed to `SetCharset` is `attrvalue.c_str()`, a pointer into the string
`attrvalue`, which is the address of no literal. -/
def ParseAttrEnd (charsetTable : List Nat → Option (List Nat)) (s : XmlVars)
    (v : IdentVars) (f : LVTextFileBase) (attrvalue : List Nat) : XmlVars :=
  if s.inXmlTag = true ∧ v.name = codes "encoding" then
    { s with attrns := v.ns, attrname := v.name, attrvalue := attrvalue,
             file := LVTextFileBase.SetCharset (fun _ => false) charsetTable f (c_str attrvalue),
             events := s.events ++
               [Event.attribute (some (c_str v.ns)) (c_str v.name) (c_str attrvalue),
                Event.encoding (c_str attrvalue)
                  (LVTextFileBase.SetCharset (fun _ => false) charsetTable f
                    (c_str attrvalue)).conv_table] }
  else
    { s with attrns := v.ns, attrname := v.name, attrvalue := attrvalue, file := f,
             events := s.events ++
               [Event.attribute (some (c_str v.ns)) (c_str v.name) (c_str attrvalue)] }

/-- The case `ps_attr` of `Parse`. -/
def ParseAttr (eof : LVTextFileBase → Bool) (charsetTable : List Nat → Option (List Nat))
    (fuel : Nat) (s : XmlVars) : Option XmlVars :=
  match SkipSpaces eof fuel s.file with
  | none => none
  | some (false, f1) => some { s with file := f1 }
  | some (true, f1) =>
    if bufAt f1 f1.buf_pos = 62 ∨
        (bufAt f1 (f1.buf_pos + 1) = 62 ∧ (bufAt f1 f1.buf_pos = 47 ∨ bufAt f1 f1.buf_pos = 63))
    then
      some { s with
        file := { f1 with buf_pos := f1.buf_pos + (if bufAt f1 f1.buf_pos = 62 then 1 else 2) },
        events := s.events ++
          (if bufAt f1 f1.buf_pos ≠ 62 then
            [Event.tagClose (some (c_str s.tagns)) (c_str s.tagname)]
           else []),
        m_state := parser_state_t.ps_text }
    else
      match ReadIdent eof fuel f1 with
      | none => none
      | some (false, v) =>
        (SkipTillChar eof fuel v.file 60).map (fun r =>
          { s with attrns := v.ns, attrname := v.name,
                   file := { r.2 with buf_pos := r.2.buf_pos + 1 },
                   m_state := parser_state_t.ps_lt })
      | some (true, v) =>
        match SkipSpaces eof fuel v.file with
        | none => none
        | some r =>
          (ReadAttrValue eof fuel r.2).map (fun a => ParseAttrEnd charsetTable s v a.1 a.2)

/-- The case `ps_text` of `Parse`. -/
def ParseText (eof : LVTextFileBase → Bool) (fuel : Nat) (s : XmlVars) : Option XmlVars :=
  (ReadText eof fuel s.file).map (fun r =>
    { s with file := r.file, events := s.events ++ r.events.map Event.text,
             m_state := parser_state_t.ps_lt })

/-- The `switch (m_state)` of `Parse`. -/
def ParseSwitch (eof : LVTextFileBase → Bool) (charsetTable : List Nat → Option (List Nat))
    (fuel : Nat) (s : XmlVars) : Option XmlVars :=
  match s.m_state with
  | parser_state_t.ps_bof => some (ParseBof s)
  | parser_state_t.ps_lt => ParseLt eof fuel s
  | parser_state_t.ps_attr => ParseAttr eof charsetTable fuel s
  | parser_state_t.ps_text => ParseText eof fuel s

/-- The loop `for (;!Eof();) { … }` of `Parse`, run for at most `n` turns. -/
def ParseLoop (eof : LVTextFileBase → Bool) (charsetTable : List Nat → Option (List Nat))
    (fuel : Nat) : Nat → XmlVars → Option XmlVars
  | 0, _ => none
  | n + 1, s =>
    if eof s.file then some s
    else if (refill s.file).buf_len - (refill s.file).buf_pos ≤ 0 then
      some { s with file := refill s.file }
    else
      match ParseSwitch eof charsetTable fuel { s with file := refill s.file } with
      | none => none
      | some s1 => ParseLoop eof charsetTable fuel n s1

/-- The method `LVXMLParser::Parse()` (it always returns true): the events
sent and the reader afterwards.  `fuel` bounds the turns of every loop;
`none` when a loop needs more. -/
def LVXMLParser.Parse (eof : LVTextFileBase → Bool)
    (charsetTable : List Nat → Option (List Nat)) (fuel : Nat) (f : LVTextFileBase) :
    Option (List Event × LVTextFileBase) :=
  (ParseLoop eof charsetTable fuel fuel
    { file := Reset f, m_state := parser_state_t.ps_bof, inXmlTag := false, closeFlag := false,
      qFlag := false, tagname := [], tagns := [], attrname := [], attrns := [], attrvalue := [],
      events := [Event.start] }).map
    (fun s => (s.events ++ [Event.stop], s.file))

/-! ## Identifiers: reference definitions -/

/-- A character of an identifier other than the colon. -/
def isNameChar (ch : Nat) : Bool := isValidIdentChar ch && ch != 58

/-- The identifier at the head of the characters `w`, as the specification
describes it: the namespace, the local name, and the number of characters
the identifier takes.  The identifier is the first character and the
maximal run of identifier characters behind it, up to but not including a
second colon; a first colon splits it into namespace and local name. -/
def identOf (w : List Nat) : List Nat × List Nat × Nat :=
  match w with
  | [] => ([], [], 0)
  | c :: rest =>
    match rest.dropWhile isNameChar with
    | 58 :: rest2 =>
      (c :: rest.takeWhile isNameChar, rest2.takeWhile isNameChar,
        (rest.takeWhile isNameChar).length + 2 + (rest2.takeWhile isNameChar).length)
    | _ => ([], c :: rest.takeWhile isNameChar, (rest.takeWhile isNameChar).length + 1)

/-- The characters after which `ReadIdent` accepts an identifier. -/
def endsIdent (ch : Nat) : Bool := ch == 32 || ch == 47 || ch == 62 || ch == 63 || ch == 61

/-- The text events among the events. -/
def textEvents (events : List Event) : List TextEvent :=
  events.filterMap (fun e => match e with
    | Event.text t => some t
    | _ => none)

/-- The document of the example: an XML declaration with an encoding and a
paragraph with a character reference. -/
def sampleDocument : List Nat :=
  codes ("<?xml version=\"1.0\" encoding=\"utf-8\"?>" ++
    "<FictionBook><body><p>hi &#38; bye</p></body></FictionBook>")

/-! ## `ReadLines`: reference definitions -/

/-- The record the constructor of `LVTextFileLine` builds at the end of the
stream: empty text, `fsize = 0`, the end-of-line flag, `lpos = rpos = 0`. -/
def paddingLine (fpos : Int) : LVTextFileLine :=
  { fpos := fpos, fsize := 0, flags := 1, text := [], lpos := 0, rpos := 0 }

/-- The bytes of a file of the lines `ls`, each closed by a line feed. -/
def fileOfLines : List (List Nat) → List Nat
  | [] => []
  | l :: ls => l ++ [10] ++ fileOfLines ls

/-- The records of the lines `ls` of a file whose first line starts at
`fpos`. -/
def lineRecords (fpos : Int) : List (List Nat) → List LVTextFileLine
  | [] => []
  | l :: ls => lineOfText fpos l :: lineRecords (fpos + l.length + 1) ls

/-- A character of a line of a plain file: a 7-bit character other than CR
and LF. -/
def isLineChar (c : Nat) : Bool := decide (c < 128) && c != 10 && c != 13

/-! ## Pre-processor for a character type of any width -/

/-- Body of the `for` loop of `PreProcessXmlString` when an `lChar16` variable
holds the values `0 … M - 1`: the locals `nsp` and `nch` are reduced modulo
`M` (`M = 2 ^ 16` for a 16-bit character type, `M = 2 ^ 32` where `lChar16`
is a 32-bit `wchar_t`).  The arguments are those of `ppChar`. -/
def ppCharW (M : Nat) (pre : Bool) (atStart atEnd : Bool) (next : Nat) (v : PPVars)
    (ch0 : Nat) : Option Nat × PPVars :=
  let ch := if pre = false ∧ (ch0 = 13 ∨ ch0 = 10 ∨ ch0 = 9) then 32 else ch0
  if ch = 13 then
    if (atStart = true ∨ v.lch ≠ 10) ∧ (atEnd = true ∨ next ≠ 10) then
      (some 10, { v with lch := ch })
    else (none, { v with lch := ch })
  else if ch = 10 then (some 10, { v with lch := ch })
  else if ch = 38 then (none, { v with state := 1, nch := 0, lch := ch })
  else if v.state = 0 then
    if ch = 32 then
      (if pre = true ∨ v.nsp = 0 then some ch else none,
        { v with nsp := (v.nsp + 1) % M, lch := ch })
    else (some ch, { v with nsp := 0, lch := ch })
  else
    if v.state = 2 ∧ 48 ≤ ch ∧ ch ≤ 57 then
      (none, { v with nch := (v.nch * 10 + (ch - 48)) % M, lch := ch })
    else if ch = 35 ∧ v.state = 1 then (none, { v with state := 2, lch := ch })
    else if ch = 59 then
      (if v.nch ≠ 0 then some v.nch else none, { v with state := 0, nsp := 0, lch := ch })
    else (none, { v with state := 0, lch := ch })

/-- One iteration of the loop, in place, at read index `i`, for a character
type with `M` values. -/
def ppStepW (M : Nat) (pre : Bool) (len : Nat) (i : Nat) (s : PPState) : PPState :=
  ppApply s
    (ppCharW M pre (i == 0) (i + 1 == len) (s.str.getD (i + 1) 0) s.vars (s.str.getD i 0))

/-- The state after the iterations `i = 0, …, k-1`, for a character type with
`M` values. -/
def ppRunW (M : Nat) (pre : Bool) (len : Nat) : Nat → PPState → PPState
  | 0, s => s
  | k + 1, s => ppStepW M pre len k (ppRunW M pre len k s)

/-- The function `PreProcessXmlString( lChar16 * str, int len, lUInt32 flags )`
for `len ≥ 0` and a character type with `M` values: the returned length `j`
and the array after the call. -/
def PreProcessXmlStringW (M : Nat) (str : List Nat) (len : Nat) (flags : Nat) :
    Nat × List Nat :=
  let pre : Bool := decide (flags &&& TXTFLG_PRE ≠ 0)
  let s := ppRunW M pre len len ⟨str, 0, PPVars.init⟩
  (s.j, s.str)

/-- The text a caller sees after the call: the first `j` cells of the array. -/
def preProcessedW (M : Nat) (str : List Nat) (flags : Nat) : List Nat :=
  (PreProcessXmlStringW M str str.length flags).2.take
    (PreProcessXmlStringW M str str.length flags).1

/-- The loop of `PreProcessXmlString` for a character type with `M` values as
a function from the input characters to the output characters. -/
def ppListW (M : Nat) (pre : Bool) : Bool → PPVars → List Nat → List Nat
  | _, _, [] => []
  | atStart, v, ch0 :: rest =>
    (ppCharW M pre atStart rest.isEmpty (rest.headD 0) v ch0).1.toList ++
      ppListW M pre false (ppCharW M pre atStart rest.isEmpty (rest.headD 0) v ch0).2 rest

/-! # Theorems -/

/-! ## Heading classifier: theorems -/

theorem c_str_isPref (s : List Nat) : c_str s <+: s := by
  unfold c_str
  exact List.takeWhile_prefix _

theorem scanKeyword_true (q : List Nat) (hq : ∀ c ∈ q, c ≠ 0 ∧ c ≠ 32) :
    ∀ p : List Nat, scanKeyword p q = some true → q <+: p := by
  induction q with
  | nil => intro p _; exact List.nil_prefix
  | cons qc q ih =>
    intro p h
    cases p with
    | nil =>
      have h0 := hq qc (List.mem_cons_self _ _)
      simp [scanKeyword, h0.1, h0.2] at h
    | cons pc p =>
      by_cases hc : pc = qc
      · subst hc
        simp only [scanKeyword, bne_self_eq_false, Bool.false_eq_true, if_false] at h
        have := ih (fun c hc => hq c (List.mem_cons_of_mem _ hc)) p h
        exact (List.cons_prefix_cons).2 ⟨rfl, this⟩
      · simp [scanKeyword, hc] at h

theorem startsWithOneOfLoop_true (p : List Nat) :
    ∀ list : List (List Nat), (∀ q ∈ list, ∀ c ∈ q, c ≠ 0 ∧ c ≠ 32) →
      startsWithOneOfLoop p list = true → ∃ kw ∈ list, kw <+: p := by
  intro list
  induction list with
  | nil => intro _ h; simp [startsWithOneOfLoop] at h
  | cons q list ih =>
    intro hq h
    unfold startsWithOneOfLoop at h
    cases hs : scanKeyword p q with
    | none =>
      rw [hs] at h
      obtain ⟨kw, hkw, hp⟩ := ih (fun q' hq' => hq q' (List.mem_cons_of_mem _ hq')) h
      exact ⟨kw, List.mem_cons_of_mem _ hkw, hp⟩
    | some b =>
      rw [hs] at h
      simp only at h
      subst h
      exact ⟨q, List.mem_cons_self _ _, scanKeyword_true q (hq q (List.mem_cons_self _ _)) p hs⟩

theorem startsWithOneOf_true (lower : Nat → Nat) (str : List Nat) (list : List (List Nat))
    (hq : ∀ q ∈ list, ∀ c ∈ q, c ≠ 0 ∧ c ≠ 32)
    (h : startsWithOneOf lower str list = true) : ∃ kw ∈ list, kw <+: str.map lower := by
  obtain ⟨kw, hkw, hp⟩ := startsWithOneOfLoop_true _ list hq h
  exact ⟨kw, hkw, hp.trans (c_str_isPref _)⟩

theorem heading_volume_clean : ∀ q ∈ heading_volume, ∀ c ∈ q, c ≠ 0 ∧ c ≠ 32 := by decide

theorem heading_part_clean : ∀ q ∈ heading_part, ∀ c ∈ q, c ≠ 0 ∧ c ≠ 32 := by decide

theorem heading_chapter_clean : ∀ q ∈ heading_chapter, ∀ c ∈ q, c ≠ 0 ∧ c ≠ 32 := by decide

theorem countPoints_ge (rest : List Nat) :
    ∀ n, ∀ m, countPoints rest n = some m → n ≤ m := by
  induction rest with
  | nil => intro n m h; simp [countPoints] at h; omega
  | cons c rest ih =>
    intro n m h
    unfold countPoints at h
    split_ifs at h with h1 h2
    · exact ih n m h
    · have := ih (n + 1) m h
      omega

/-- The numeric branch never yields 1, 2 or 3. -/
theorem DetectHeadingLevelByText_cases (lower : Nat → Nat) (str : List Nat) :
    (DetectHeadingLevelByText lower str = 1 ∧ startsWithOneOf lower str heading_volume = true) ∨
    (DetectHeadingLevelByText lower str = 2 ∧ startsWithOneOf lower str heading_part = true) ∨
    (DetectHeadingLevelByText lower str = 3 ∧ startsWithOneOf lower str heading_chapter = true) ∨
    (DetectHeadingLevelByText lower str = 0) ∨
    (4 ≤ DetectHeadingLevelByText lower str ∧ 48 ≤ str.headD 0 ∧ str.headD 0 ≤ 57) := by
  unfold DetectHeadingLevelByText
  by_cases h0 : str.isEmpty = true
  · simp [h0]
  by_cases h1 : startsWithOneOf lower str heading_volume = true
  · simp [h0, h1]
  by_cases h2 : startsWithOneOf lower str heading_part = true
  · simp [h0, h1, h2]
  by_cases h3 : startsWithOneOf lower str heading_chapter = true
  · simp [h0, h1, h2, h3]
  rw [if_neg h0, if_neg h1, if_neg h2, if_neg h3]
  simp only
  by_cases h4 : 48 ≤ str.headD 0 ∧ str.headD 0 ≤ 57
  · rw [if_pos h4]
    cases hc : countPoints (List.drop 1 str) 0 with
    | none => simp
    | some pc =>
      simp only
      by_cases h5 : str.length < 80
      · rw [if_pos h5]
        right; right; right; right
        exact ⟨by omega, h4⟩
      · rw [if_neg h5]; simp
  · rw [if_neg h4]; simp

/-- C9: the line "vol", a keyword of `heading_volume`, is classified 0, not 1:
`startsWithOneOf` returns false as soon as the line ends inside the earlier
keyword "volume".  The other two examples of the claim hold. -/
theorem heading_vol_is_not_detected :
    DetectHeadingLevelByText lowerChar (codes "vol") = 0 ∧
    anyKeywordWithSeparator heading_volume ((codes "vol").map lowerChar) = true ∧
    DetectHeadingLevelByText lowerChar (codes "Chapter") = 3 ∧
    DetectHeadingLevelByText lowerChar (codes "Vol 2") = 1 := by
  decide

theorem countPoints_all (rest : List Nat) :
    ∀ n, (∀ c ∈ rest, (48 ≤ c ∧ c ≤ 57) ∨ c = 46) →
      countPoints rest n = some (n + rest.count 46) := by
  induction rest with
  | nil => intro n _; simp [countPoints]
  | cons c rest ih =>
    intro n h
    have hc := h c (List.mem_cons_self _ _)
    have hr := ih
    unfold countPoints
    split_ifs with h1 h2
    · rw [ih n (fun c' hc' => h c' (List.mem_cons_of_mem _ hc'))]
      have : c ≠ 46 := by omega
      simp [List.count_cons, this]
    · omega
    · have h46 : c = 46 := by omega
      subst h46
      rw [ih (n + 1) (fun c' hc' => h c' (List.mem_cons_of_mem _ hc'))]
      simp [List.count_cons]
      omega

theorem countPoints_bad (rest : List Nat) :
    ∀ n, (∃ c ∈ rest, ¬ (48 ≤ c ∧ c ≤ 57) ∧ c ≠ 46) → countPoints rest n = none := by
  induction rest with
  | nil => intro n h; simp at h
  | cons c rest ih =>
    intro n h
    unfold countPoints
    split_ifs with h1 h2
    · apply ih
      obtain ⟨c', hc', hb⟩ := h
      rcases List.mem_cons.1 hc' with rfl | hm
      · exact absurd h1 hb.1
      · exact ⟨c', hm, hb⟩
    · rfl
    · apply ih
      obtain ⟨c', hc', hb⟩ := h
      rcases List.mem_cons.1 hc' with rfl | hm
      · exact absurd (not_not.1 h2) hb.2
      · exact ⟨c', hm, hb⟩

theorem startsWithOneOfLoop_head_differs (d : Nat) (p : List Nat) :
    ∀ list : List (List Nat), (∀ q ∈ list, q ≠ [] ∧ q.headD 0 ≠ d) →
      startsWithOneOfLoop (d :: p) list = false := by
  intro list
  induction list with
  | nil => intro _; rfl
  | cons q list ih =>
    intro h
    have hq := h q (List.mem_cons_self _ _)
    cases q with
    | nil => exact absurd rfl hq.1
    | cons qc q =>
      have hne : d ≠ qc := fun e => hq.2 (by simp [e])
      unfold startsWithOneOfLoop
      simp only [scanKeyword, bne_iff_ne, ne_eq, hne, not_false_eq_true, if_true]
      exact ih (fun q' hq' => h q' (List.mem_cons_of_mem _ hq'))

theorem startsWithOneOf_digit (lower : Nat → Nat) (hl : ∀ c, 48 ≤ c → c ≤ 57 → lower c = c)
    (d : Nat) (rest : List Nat) (hd : 48 ≤ d ∧ d ≤ 57) (list : List (List Nat))
    (hlist : ∀ q ∈ list, q ≠ [] ∧ ¬ (48 ≤ q.headD 0 ∧ q.headD 0 ≤ 57)) :
    startsWithOneOf lower (d :: rest) list = false := by
  unfold startsWithOneOf c_str
  have hd0 : (d != 0) = true := by
    simp; omega
  rw [List.map_cons, List.takeWhile_cons, hl d hd.1 hd.2, if_pos hd0]
  apply startsWithOneOfLoop_head_differs
  intro q hq
  refine ⟨(hlist q hq).1, fun e => (hlist q hq).2 ?_⟩
  rw [e]; exact hd

/-- C10: for a non-empty line whose first character is an ASCII digit (and a
lowercasing that leaves digits alone), the level is 4 plus the number of '.'
when all further characters are digits or '.' and the length is below 80, and
0 when a further character is neither or when the length is 80 or more. -/
theorem numeric_heading_level (lower : Nat → Nat)
    (hl : ∀ c, 48 ≤ c → c ≤ 57 → lower c = c)
    (line : List Nat) (hne : line ≠ []) (hd : 48 ≤ line.headD 0 ∧ line.headD 0 ≤ 57) :
    ((∀ c ∈ line.tail, (48 ≤ c ∧ c ≤ 57) ∨ c = 46) → line.length < 80 →
      DetectHeadingLevelByText lower line = 4 + line.count 46) ∧
    ((∃ c ∈ line.tail, ¬ (48 ≤ c ∧ c ≤ 57) ∧ c ≠ 46) →
      DetectHeadingLevelByText lower line = 0) ∧
    (80 ≤ line.length → DetectHeadingLevelByText lower line = 0) := by
  cases line with
  | nil => exact absurd rfl hne
  | cons d rest =>
    simp only [List.headD_cons] at hd
    have hv := startsWithOneOf_digit lower hl d rest hd heading_volume (by decide)
    have hp := startsWithOneOf_digit lower hl d rest hd heading_part (by decide)
    have hc := startsWithOneOf_digit lower hl d rest hd heading_chapter (by decide)
    have hD : DetectHeadingLevelByText lower (d :: rest) =
        match countPoints rest 0 with
        | none => 0
        | some point_count => if (d :: rest).length < 80 then 4 + point_count else 0 := by
      unfold DetectHeadingLevelByText
      simp [hv, hp, hc, hd]
    have h46 : d ≠ 46 := by omega
    refine ⟨fun hall hlen => ?_, fun hbad => ?_, fun hlen => ?_⟩
    · rw [hD, countPoints_all rest 0 hall]
      simp only [hlen, if_true]
      simp [List.count_cons, h46]
    · rw [hD, countPoints_bad rest 0 hbad]
    · rw [hD]
      cases countPoints rest 0 with
      | none => rfl
      | some pc =>
        simp only
        rw [if_neg (by omega)]

/-- C10 at concrete lines: "123" gets level 4 and a line of 80 digits gets 0. -/
theorem numeric_heading_level_witness :
    DetectHeadingLevelByText lowerChar (codes "123") = 4 ∧
    DetectHeadingLevelByText lowerChar (List.replicate 80 49) = 0 :=
  ⟨(numeric_heading_level lowerChar (by intro c h1 h2; unfold lowerChar; rw [if_neg (by omega), if_neg (by omega)])
      (codes "123") (by decide) (by decide)).1 (by decide) (by decide),
   (numeric_heading_level lowerChar (by intro c h1 h2; unfold lowerChar; rw [if_neg (by omega), if_neg (by omega)])
      (List.replicate 80 49) (by decide) (by decide)).2.2 (by decide)⟩


/-! ## Pre-processor: the in-place loop -/

theorem ppApply_j_le (s : PPState) (r : Option Nat × PPVars) :
    s.j ≤ (ppApply s r).j ∧ (ppApply s r).j ≤ s.j + 1 := by
  obtain ⟨o, v⟩ := r
  cases o <;> simp [ppApply]

theorem ppApply_length (s : PPState) (r : Option Nat × PPVars) :
    (ppApply s r).str.length = s.str.length := by
  obtain ⟨o, v⟩ := r
  cases o <;> simp [ppApply]

theorem ppApply_getD (s : PPState) (r : Option Nat × PPVars) (m : Nat)
    (hm : (ppApply s r).j ≤ m) : (ppApply s r).str.getD m 0 = s.str.getD m 0 := by
  obtain ⟨o, v⟩ := r
  cases o with
  | none => simp [ppApply]
  | some c =>
    simp only [ppApply] at hm ⊢
    have hne : s.j ≠ m := by omega
    simp [List.getD_eq_getElem?_getD, List.getElem?_set_ne hne]

theorem ppStep_j_le (pre : Bool) (len i : Nat) (s : PPState) :
    s.j ≤ (ppStep pre len i s).j ∧ (ppStep pre len i s).j ≤ s.j + 1 :=
  ppApply_j_le _ _

theorem ppStep_length (pre : Bool) (len i : Nat) (s : PPState) :
    (ppStep pre len i s).str.length = s.str.length :=
  ppApply_length _ _

theorem ppStep_getD (pre : Bool) (len i : Nat) (s : PPState) (m : Nat)
    (hm : (ppStep pre len i s).j ≤ m) :
    (ppStep pre len i s).str.getD m 0 = s.str.getD m 0 :=
  ppApply_getD _ _ m hm

theorem ppRun_inv (pre : Bool) (len : Nat) (str : List Nat) :
    ∀ k, (ppRun pre len k ⟨str, 0, PPVars.init⟩).j ≤ k ∧
      (ppRun pre len k ⟨str, 0, PPVars.init⟩).str.length = str.length ∧
      ∀ m, (ppRun pre len k ⟨str, 0, PPVars.init⟩).j ≤ m →
        (ppRun pre len k ⟨str, 0, PPVars.init⟩).str.getD m 0 = str.getD m 0 := by
  intro k
  induction k with
  | zero => simp [ppRun]
  | succ k ih =>
    obtain ⟨h1, h2, h3⟩ := ih
    have hj := ppStep_j_le pre len k (ppRun pre len k ⟨str, 0, PPVars.init⟩)
    refine ⟨?_, ?_, ?_⟩
    · show (ppStep pre len k _).j ≤ k + 1
      omega
    · show (ppStep pre len k _).str.length = _
      rw [ppStep_length, h2]
    · intro m hm
      show (ppStep pre len k _).str.getD m 0 = _
      have hm' : (ppStep pre len k (ppRun pre len k ⟨str, 0, PPVars.init⟩)).j ≤ m := hm
      rw [ppStep_getD pre len k _ m hm']
      exact h3 m (by omega)

/-- C7: `PreProcessXmlString` is safe to run in place.  Before the iteration
with read index `k` the write index `j` is at most `k`, every cell from `j` on
(in particular the cell `k` read now and the lookahead cell `k+1`) still holds
the caller's character, and the returned length is at most `len`. -/
theorem preprocess_in_place_safe (str : List Nat) (len flags k : Nat) (hk : k ≤ len) :
    (ppRun (decide (flags &&& TXTFLG_PRE ≠ 0)) len k ⟨str, 0, PPVars.init⟩).j ≤ k ∧
    (∀ m, (ppRun (decide (flags &&& TXTFLG_PRE ≠ 0)) len k ⟨str, 0, PPVars.init⟩).j ≤ m →
      (ppRun (decide (flags &&& TXTFLG_PRE ≠ 0)) len k ⟨str, 0, PPVars.init⟩).str.getD m 0
        = str.getD m 0) ∧
    (ppRun (decide (flags &&& TXTFLG_PRE ≠ 0)) len k ⟨str, 0, PPVars.init⟩).str.getD (k + 1) 0
      = str.getD (k + 1) 0 ∧
    (PreProcessXmlString str len flags).1 ≤ len ∧
    (PreProcessXmlString str len flags).1 =
      (ppRun (decide (flags &&& TXTFLG_PRE ≠ 0)) len len ⟨str, 0, PPVars.init⟩).j := by
  have _hk := hk
  obtain ⟨h1, _, h3⟩ := ppRun_inv (decide (flags &&& TXTFLG_PRE ≠ 0)) len str k
  refine ⟨h1, h3, h3 (k + 1) (by omega), ?_, rfl⟩
  exact (ppRun_inv (decide (flags &&& TXTFLG_PRE ≠ 0)) len str len).1

/-- C7 at a concrete call: the array "a&#66;  c" with `len = 9`, before the
iteration that reads index 7. -/
theorem preprocess_in_place_safe_witness :
    (ppRun (decide (0 &&& TXTFLG_PRE ≠ 0)) 9 7 ⟨codes "a&#66;  c", 0, PPVars.init⟩).j ≤ 7 ∧
    (PreProcessXmlString (codes "a&#66;  c") 9 0).1 ≤ 9 :=
  ⟨(preprocess_in_place_safe (codes "a&#66;  c") 9 0 7 (by decide)).1,
   (preprocess_in_place_safe (codes "a&#66;  c") 9 0 7 (by decide)).2.2.2.1⟩

/-! ## Pre-processor: the loop as a list function -/

theorem take_set_same (l : List Nat) (j c : Nat) : (l.set j c).take j = l.take j := by
  apply List.ext_getElem?
  intro i
  rw [List.getElem?_take, List.getElem?_take]
  split
  · rw [List.getElem?_set_ne (by omega)]
  · rfl

theorem ppChar_atEnd (pre atStart : Bool) (n n' : Nat) (v : PPVars) (c : Nat) :
    ppChar pre atStart true n v c = ppChar pre atStart true n' v c := by
  unfold ppChar
  simp

theorem ppRun_refines (pre : Bool) (str : List Nat) (len : Nat) (hlen : len ≤ str.length) :
    ∀ k, k ≤ len →
      (ppRun pre len k ⟨str, 0, PPVars.init⟩).str.take (ppRun pre len k ⟨str, 0, PPVars.init⟩).j ++
        ppList pre (k == 0) (ppRun pre len k ⟨str, 0, PPVars.init⟩).vars ((str.take len).drop k)
      = ppList pre true PPVars.init (str.take len) := by
  intro k
  induction k with
  | zero => intro _; simp [ppRun]
  | succ k ih =>
    intro hk
    have ih' := ih (by omega)
    obtain ⟨h1, h2, h3⟩ := ppRun_inv pre len str k
    rw [← ih']
    have hrun : ppRun pre len (k + 1) ⟨str, 0, PPVars.init⟩ =
        ppStep pre len k (ppRun pre len k ⟨str, 0, PPVars.init⟩) := rfl
    rw [hrun]
    generalize ppRun pre len k ⟨str, 0, PPVars.init⟩ = s at h1 h2 h3 ih' ⊢
    have hkl : k < (str.take len).length := by simp; omega
    have hks : k < str.length := by omega
    rw [List.drop_eq_getElem_cons hkl]
    have hgk : (str.take len)[k] = s.str.getD k 0 := by
      rw [h3 k h1, List.getElem_take]
      simp [List.getD_eq_getElem?_getD, List.getElem?_eq_getElem hks]
    rw [hgk]
    have hchar : ppChar pre (k == 0) (List.drop (k + 1) (List.take len str)).isEmpty
          ((List.drop (k + 1) (List.take len str)).headD 0) s.vars (s.str.getD k 0)
        = ppChar pre (k == 0) (k + 1 == len) (s.str.getD (k + 1) 0) s.vars (s.str.getD k 0) := by
      by_cases hend : k + 1 = len
      · have he : (List.drop (k + 1) (List.take len str)) = [] := by
          apply List.drop_eq_nil_of_le; simp; omega
        rw [he]
        simp only [List.isEmpty_nil, hend, beq_self_eq_true]
        exact ppChar_atEnd _ _ _ _ _ _
      · have hk1 : k + 1 < (str.take len).length := by simp; omega
        rw [List.drop_eq_getElem_cons hk1]
        have : (k + 1 == len) = false := by simp [hend]
        rw [this]
        simp only [List.isEmpty_cons, List.headD_cons]
        congr 1
        rw [h3 (k + 1) (by omega), List.getElem_take]
        have hk1s : k + 1 < str.length := by omega
        simp [List.getD_eq_getElem?_getD, List.getElem?_eq_getElem hk1s]
    rw [ppList, hchar]
    unfold ppStep
    have hfalse : (k + 1 == 0) = false := by simp
    rw [hfalse]
    generalize ppChar pre (k == 0) (k + 1 == len) (s.str.getD (k + 1) 0) s.vars (s.str.getD k 0) = r
    obtain ⟨o, v⟩ := r
    cases o with
    | none => simp [ppApply]
    | some c =>
      have hjl : s.j < s.str.length := by omega
      simp only [ppApply, Option.toList_some, List.singleton_append]
      rw [List.take_succ]
      simp [take_set_same, List.getElem?_set_self hjl]

/-- The in-place function computes the list function `ppList`: the first `j`
cells after the call are `ppList` of the first `len` cells before it. -/
theorem PreProcessXmlString_eq_ppList (str : List Nat) (len flags : Nat) (hlen : len ≤ str.length) :
    (PreProcessXmlString str len flags).2.take (PreProcessXmlString str len flags).1 =
      ppList (decide (flags &&& TXTFLG_PRE ≠ 0)) true PPVars.init (str.take len) := by
  have h := ppRun_refines (decide (flags &&& TXTFLG_PRE ≠ 0)) str len hlen len (le_refl _)
  have hd : List.drop len (List.take len str) = [] := by
    apply List.drop_eq_nil_of_le; simp
  rw [hd] at h
  simpa [PreProcessXmlString, ppList] using h

theorem preProcessed_eq_ppList (str : List Nat) (flags : Nat) :
    preProcessed str flags = ppList (decide (flags &&& TXTFLG_PRE ≠ 0)) true PPVars.init str := by
  unfold preProcessed
  rw [PreProcessXmlString_eq_ppList str str.length flags (le_refl _), List.take_length]


/-! ## Pre-processor: single steps of the list function -/

theorem ppChar_atStart (pre e : Bool) (n : Nat) (v : PPVars) (c : Nat) (h : v.lch ≠ 10) :
    ppChar pre true e n v c = ppChar pre false e n v c := by
  unfold ppChar
  simp [h]

theorem ppList_atStart (pre : Bool) (v : PPVars) (l : List Nat) (h : v.lch ≠ 10) :
    ppList pre true v l = ppList pre false v l := by
  cases l with
  | nil => rfl
  | cons c rest => rw [ppList, ppList, ppChar_atStart pre _ _ v c h]

theorem ppList_amp (pre a : Bool) (v : PPVars) (rest : List Nat) :
    ppList pre a v (38 :: rest) = ppList pre false ⟨1, 0, 38, v.nsp⟩ rest := by
  rw [ppList]
  simp [ppChar]

theorem ppList_hash (pre a : Bool) (v : PPVars) (rest : List Nat) (h : v.state = 1) :
    ppList pre a v (35 :: rest) = ppList pre false ⟨2, v.nch, 35, v.nsp⟩ rest := by
  rw [ppList]
  simp [ppChar, h]

theorem ppList_digit (pre a : Bool) (v : PPVars) (d : Nat) (rest : List Nat) (h : v.state = 2)
    (hd : 48 ≤ d ∧ d ≤ 57) :
    ppList pre a v (d :: rest) =
      ppList pre false ⟨2, toChar16 (v.nch * 10 + (d - 48)), d, v.nsp⟩ rest := by
  rw [ppList]
  have h1 : d ≠ 13 := by omega
  have h2 : d ≠ 10 := by omega
  have h3 : d ≠ 9 := by omega
  have h4 : d ≠ 38 := by omega
  simp [ppChar, h, h1, h2, h3, h4, hd.1, hd.2]

theorem ppList_semicolon (pre a : Bool) (v : PPVars) (rest : List Nat) (h : v.state ≠ 0)
    (hn : v.nch ≠ 0) :
    ppList pre a v (59 :: rest) = v.nch :: ppList pre false ⟨0, v.nch, 59, 0⟩ rest := by
  rw [ppList]
  simp [ppChar, h, hn]

theorem ppList_digits (pre : Bool) (rest : List Nat) :
    ∀ (ds : List Nat), (∀ d ∈ ds, 48 ≤ d ∧ d ≤ 57) → ∀ (a : Bool) (v : PPVars), v.state = 2 →
      ∃ a' l, ppList pre a v (ds ++ rest) =
        ppList pre a' ⟨2, parseDigits v.nch ds, l, v.nsp⟩ rest := by
  intro ds
  induction ds with
  | nil =>
    intro _ a v hv
    exact ⟨a, v.lch, by cases v; simp_all [parseDigits]⟩
  | cons d ds ih =>
    intro hds a v hv
    have hd := hds d (List.mem_cons_self _ _)
    rw [List.cons_append, ppList_digit pre a v d _ hv hd]
    obtain ⟨a', l, h⟩ := ih (fun d' hd' => hds d' (List.mem_cons_of_mem _ hd')) false
      ⟨2, toChar16 (v.nch * 10 + (d - 48)), d, v.nsp⟩ rfl
    exact ⟨a', l, by rw [h]; simp [parseDigits]⟩

theorem parseDigits_reverse (L : List Nat) (hL : ∀ d ∈ L, d < 10) :
    parseDigits 0 ((L.reverse).map (fun d => d + 48)) = Nat.ofDigits 10 L % 65536 := by
  induction L with
  | nil => simp [parseDigits]
  | cons d L ih =>
    have ih' := ih (fun d' hd' => hL d' (List.mem_cons_of_mem _ hd'))
    unfold parseDigits at ih' ⊢
    rw [List.reverse_cons, List.map_append, List.foldl_append, ih']
    simp only [List.map_cons, List.map_nil, List.foldl_cons, List.foldl_nil, toChar16,
      Nat.add_sub_cancel, Nat.ofDigits_cons]
    omega

theorem parseDigits_decimal (c : Nat) (hc : c ≤ 65535) : parseDigits 0 (decimal c) = c := by
  unfold decimal
  rw [parseDigits_reverse _ (fun d hd => Nat.digits_lt_base (by norm_num) hd), Nat.ofDigits_digits]
  omega

theorem decimal_digits (c : Nat) : ∀ d ∈ decimal c, 48 ≤ d ∧ d ≤ 57 := by
  intro d hd
  unfold decimal at hd
  simp only [List.mem_map, List.mem_reverse] at hd
  obtain ⟨e, he, rfl⟩ := hd
  have : e < 10 := Nat.digits_lt_base (by norm_num) he
  omega

theorem ppList_charRef (pre a : Bool) (v : PPVars) (c : Nat) (h1 : 1 ≤ c) (h2 : c ≤ 65535)
    (rest : List Nat) :
    ∃ a' v', v'.state = 0 ∧ v'.nsp = 0 ∧
      ppList pre a v (charRef c ++ rest) = c :: ppList pre a' v' rest := by
  unfold charRef
  simp only [List.cons_append, List.nil_append, List.append_assoc]
  rw [ppList_amp, ppList_hash _ _ _ _ rfl]
  obtain ⟨a', l, h⟩ := ppList_digits pre (59 :: rest) (decimal c) (decimal_digits c) false
    ⟨2, 0, 35, v.nsp⟩ rfl
  rw [h]
  simp only [parseDigits_decimal c h2]
  rw [ppList_semicolon pre a' _ rest (by simp) (by simp; omega)]
  exact ⟨false, _, rfl, rfl, rfl⟩

theorem ppList_charRefs (pre : Bool) :
    ∀ (cs : List Nat), (∀ c ∈ cs, 1 ≤ c ∧ c ≤ 65535) → ∀ (a : Bool) (v : PPVars),
      ppList pre a v ((cs.map charRef).flatten) = cs := by
  intro cs
  induction cs with
  | nil => intro _ a v; simp [ppList]
  | cons c cs ih =>
    intro hcs a v
    have hc := hcs c (List.mem_cons_self _ _)
    rw [List.map_cons, List.flatten_cons]
    obtain ⟨a', v', _, _, h⟩ := ppList_charRef pre a v c hc.1 hc.2 ((cs.map charRef).flatten)
    rw [h, ih (fun c' hc' => hcs c' (List.mem_cons_of_mem _ hc')) a' v']

/-- C4: numeric character references decode to their code points.  For code
points `c1..cn` between 1 and 65535 and any flags, the call on the
concatenation of the references `&#ci;` returns `n` and leaves `c1..cn` in the
first `n` cells. -/
theorem numeric_references_decode (cs : List Nat) (flags : Nat)
    (hcs : ∀ c ∈ cs, 1 ≤ c ∧ c ≤ 65535) :
    (PreProcessXmlString ((cs.map charRef).flatten) ((cs.map charRef).flatten).length flags).1
      = cs.length ∧
    (PreProcessXmlString ((cs.map charRef).flatten) ((cs.map charRef).flatten).length flags).2.take
      cs.length = cs := by
  have h := preProcessed_eq_ppList ((cs.map charRef).flatten) flags
  rw [ppList_charRefs _ cs hcs] at h
  unfold preProcessed at h
  have hj := (ppRun_inv (decide (flags &&& TXTFLG_PRE ≠ 0)) ((cs.map charRef).flatten).length
    ((cs.map charRef).flatten) ((cs.map charRef).flatten).length)
  have hlen := congrArg List.length h
  rw [List.length_take] at hlen
  have hj1 : (PreProcessXmlString ((cs.map charRef).flatten) ((cs.map charRef).flatten).length flags).1
      ≤ ((cs.map charRef).flatten).length := hj.1
  have hj2 : (PreProcessXmlString ((cs.map charRef).flatten) ((cs.map charRef).flatten).length flags).2.length
      = ((cs.map charRef).flatten).length := hj.2.1
  have heq : (PreProcessXmlString ((cs.map charRef).flatten) ((cs.map charRef).flatten).length flags).1
      = cs.length := by omega
  exact ⟨heq, by rw [← heq]; exact h⟩

theorem charRefs_ABC : ([65, 66, 67].map charRef).flatten = codes "&#65;&#66;&#67;" := by
  have h : ∀ n, decimal n = ((Nat.digits 10 n).reverse).map (fun d => d + 48) := fun _ => rfl
  simp only [List.map, List.flatten, charRef, h]
  norm_num
  decide

/-- C4 at the input "&#65;&#66;&#67;": the call returns 3 and the first three
cells hold "ABC". -/
theorem numeric_references_decode_witness :
    (PreProcessXmlString (codes "&#65;&#66;&#67;") 15 0).1 = 3 ∧
    (PreProcessXmlString (codes "&#65;&#66;&#67;") 15 0).2.take 3 = codes "ABC" := by
  have h := numeric_references_decode [65, 66, 67] 0 (by decide)
  rw [charRefs_ABC] at h
  exact h

/-! ## Pre-processor: whitespace and line ends -/

theorem ppList_plain (pre a : Bool) (v : PPVars) (c : Nat) (rest : List Nat)
    (hv : v.state = 0) (hc : plainChar c = true) :
    ppList pre a v (c :: rest) = c :: ppList pre false ⟨0, v.nch, c, 0⟩ rest := by
  rw [ppList]
  simp only [plainChar, isBlank, Bool.and_eq_true, Bool.not_eq_true', Bool.or_eq_false_iff,
    beq_eq_false_iff_ne, bne_iff_ne, ne_eq] at hc
  obtain ⟨⟨⟨⟨h32, h13⟩, h10⟩, h9⟩, h38⟩ := hc
  simp [ppChar, hv, h32, h13, h10, h9, h38]

theorem ppList_blank (a : Bool) (v : PPVars) (c : Nat) (rest : List Nat)
    (hv : v.state = 0) (hc : isBlank c = true) :
    ppList false a v (c :: rest) =
      (if v.nsp = 0 then [32] else []) ++
        ppList false false ⟨0, v.nch, 32, toChar16 (v.nsp + 1)⟩ rest := by
  rw [ppList]
  simp only [isBlank, Bool.or_eq_true, beq_iff_eq] at hc
  by_cases hn : v.nsp = 0
  · rcases hc with ((rfl | rfl) | rfl) | rfl <;> simp [ppChar, hv, hn]
  · rcases hc with ((rfl | rfl) | rfl) | rfl <;> simp [ppChar, hv, hn]

theorem ppList_pre_cr (a : Bool) (v : PPVars) (rest : List Nat) (hl : v.lch ≠ 10)
    (hr : rest.headD 0 ≠ 10) :
    ppList true a v (13 :: rest) = 10 :: ppList true false ⟨v.state, v.nch, 13, v.nsp⟩ rest := by
  rw [ppList]
  have hr' : ¬ rest.head?.getD 0 = 10 := by simpa [List.headD_eq_head?_getD] using hr
  simp [ppChar, hl, hr']

theorem ppList_pre_cr_before_lf (a : Bool) (v : PPVars) (rest : List Nat) :
    ppList true a v (13 :: 10 :: rest) =
      ppList true false ⟨v.state, v.nch, 13, v.nsp⟩ (10 :: rest) := by
  rw [ppList]
  simp [ppChar]

theorem ppList_pre_cr_after_lf (v : PPVars) (rest : List Nat) (hl : v.lch = 10) :
    ppList true false v (13 :: rest) = ppList true false ⟨v.state, v.nch, 13, v.nsp⟩ rest := by
  rw [ppList]
  simp [ppChar, hl]

theorem ppList_pre_lf (a : Bool) (v : PPVars) (rest : List Nat) :
    ppList true a v (10 :: rest) = 10 :: ppList true false ⟨v.state, v.nch, 10, v.nsp⟩ rest := by
  rw [ppList]
  simp [ppChar]

/-- A word (no blank, no '&') met in text state is copied. -/
theorem ppList_word (pre : Bool) (rest : List Nat) :
    ∀ (x : List Nat), (∀ c ∈ x, plainChar c = true) → ∀ (a : Bool) (v : PPVars), v.state = 0 →
      ∃ a' v', v'.state = 0 ∧ (v.lch ≠ 10 → v'.lch ≠ 10) ∧ (v.nsp = 0 → v'.nsp = 0) ∧
        (x ≠ [] → v'.nsp = 0 ∧ v'.lch ≠ 10) ∧
        ppList pre a v (x ++ rest) = x ++ ppList pre a' v' rest := by
  intro x
  induction x with
  | nil => intro _ a v hv; exact ⟨a, v, hv, id, id, fun h => absurd rfl h, rfl⟩
  | cons c x ih =>
    intro hx a v hv
    have hc := hx c (List.mem_cons_self _ _)
    obtain ⟨a', v', h1, h2, h3, _, h5⟩ := ih (fun c' hc' => hx c' (List.mem_cons_of_mem _ hc'))
      false ⟨0, v.nch, c, 0⟩ rfl
    have hc10 : c ≠ 10 := by
      intro e; subst e; simp [plainChar, isBlank] at hc
    refine ⟨a', v', h1, fun _ => h2 hc10, fun _ => h3 rfl, fun _ => ⟨h3 rfl, h2 hc10⟩, ?_⟩
    rw [List.cons_append, ppList_plain pre a v c _ hv hc, h5, List.cons_append]

theorem ppList_word_end (pre a : Bool) (v : PPVars) (y : List Nat)
    (hy : ∀ c ∈ y, plainChar c = true) (hv : v.state = 0) : ppList pre a v y = y := by
  obtain ⟨a', v', _, _, _, _, h⟩ := ppList_word pre [] y hy a v hv
  simpa [ppList] using h

theorem headD_word_append (y rest : List Nat) (hy : ∀ c ∈ y, plainChar c = true)
    (hr : rest.headD 0 ≠ 10) : (y ++ rest).headD 0 ≠ 10 := by
  cases y with
  | nil => simpa using hr
  | cons c y =>
    have hc := hy c (List.mem_cons_self _ _)
    intro e
    simp only [List.cons_append, List.headD_cons] at e
    subst e
    simp [plainChar, isBlank] at hc

/-- C5 (as amended).  Between two words `x` and `y` (no blank, no '&'):
with `TXTFLG_PRE` set a lone CR becomes one LF, CR LF and LF CR become one LF
and CR CR becomes two LF; with `TXTFLG_PRE` not set each of these line ends
becomes one space. -/
theorem line_ends_normalised (x y : List Nat) (flags : Nat)
    (hx : ∀ c ∈ x, plainChar c = true) (hy : ∀ c ∈ y, plainChar c = true) :
    (flags &&& TXTFLG_PRE ≠ 0 →
      preProcessed (x ++ [13] ++ y) flags = x ++ [10] ++ y ∧
      preProcessed (x ++ [13, 10] ++ y) flags = x ++ [10] ++ y ∧
      preProcessed (x ++ [10, 13] ++ y) flags = x ++ [10] ++ y ∧
      preProcessed (x ++ [13, 13] ++ y) flags = x ++ [10, 10] ++ y) ∧
    (flags &&& TXTFLG_PRE = 0 →
      preProcessed (x ++ [13] ++ y) flags = x ++ [32] ++ y ∧
      preProcessed (x ++ [13, 10] ++ y) flags = x ++ [32] ++ y ∧
      preProcessed (x ++ [10, 13] ++ y) flags = x ++ [32] ++ y ∧
      preProcessed (x ++ [13, 13] ++ y) flags = x ++ [32] ++ y) := by
  have hy10 : y.headD 0 ≠ 10 := by
    have := headD_word_append y [] hy (by simp)
    simpa using this
  constructor
  · intro hpre
    have hp : decide (flags &&& TXTFLG_PRE ≠ 0) = true := by simpa using hpre
    simp only [preProcessed_eq_ppList, hp]
    rw [ppList_atStart true PPVars.init _ (by decide), ppList_atStart true PPVars.init _ (by decide),
      ppList_atStart true PPVars.init _ (by decide), ppList_atStart true PPVars.init _ (by decide)]
    simp only [List.append_assoc]
    refine ⟨?_, ?_, ?_, ?_⟩
    · obtain ⟨a', v', h1, h2, _, _, h5⟩ := ppList_word true ([13] ++ y) x hx false PPVars.init rfl
      rw [h5, List.singleton_append, ppList_pre_cr a' v' y (h2 (by decide)) hy10,
        ppList_word_end true false _ y hy]
      · rfl
      · exact h1
    · obtain ⟨a', v', h1, h2, _, _, h5⟩ := ppList_word true ([13, 10] ++ y) x hx false PPVars.init rfl
      rw [h5]
      show x ++ ppList true a' v' (13 :: 10 :: y) = _
      rw [ppList_pre_cr_before_lf, ppList_pre_lf, ppList_word_end true false _ y hy]
      · rfl
      · exact h1
    · obtain ⟨a', v', h1, h2, _, _, h5⟩ := ppList_word true ([10, 13] ++ y) x hx false PPVars.init rfl
      rw [h5]
      show x ++ ppList true a' v' (10 :: 13 :: y) = _
      rw [ppList_pre_lf, ppList_pre_cr_after_lf _ _ rfl, ppList_word_end true false _ y hy]
      · rfl
      · exact h1
    · obtain ⟨a', v', h1, h2, _, _, h5⟩ := ppList_word true ([13, 13] ++ y) x hx false PPVars.init rfl
      rw [h5]
      show x ++ ppList true a' v' (13 :: 13 :: y) = _
      rw [ppList_pre_cr a' v' (13 :: y) (h2 (by decide)) (by simp),
        ppList_pre_cr false _ y (by simp) hy10, ppList_word_end true false _ y hy]
      · rfl
      · exact h1
  · intro hpre
    have hp : decide (flags &&& TXTFLG_PRE ≠ 0) = false := by simpa using hpre
    simp only [preProcessed_eq_ppList, hp]
    rw [ppList_atStart false PPVars.init _ (by decide), ppList_atStart false PPVars.init _ (by decide),
      ppList_atStart false PPVars.init _ (by decide), ppList_atStart false PPVars.init _ (by decide)]
    simp only [List.append_assoc]
    have h1nsp : toChar16 (0 + 1) ≠ 0 := by decide
    refine ⟨?_, ?_, ?_, ?_⟩
    · obtain ⟨a', v', h1, _, h3, _, h5⟩ := ppList_word false ([13] ++ y) x hx false PPVars.init rfl
      rw [h5, List.singleton_append, ppList_blank a' v' 13 y h1 (by decide), h3 rfl,
        ppList_word_end false false _ y hy]
      · rfl
      · rfl
    · obtain ⟨a', v', h1, _, h3, _, h5⟩ := ppList_word false ([13, 10] ++ y) x hx false PPVars.init rfl
      rw [h5]
      show x ++ ppList false a' v' (13 :: 10 :: y) = _
      rw [ppList_blank a' v' 13 _ h1 (by decide), h3 rfl, ppList_blank false _ 10 _ rfl (by decide),
        if_neg h1nsp, ppList_word_end false false _ y hy]
      · rfl
      · rfl
    · obtain ⟨a', v', h1, _, h3, _, h5⟩ := ppList_word false ([10, 13] ++ y) x hx false PPVars.init rfl
      rw [h5]
      show x ++ ppList false a' v' (10 :: 13 :: y) = _
      rw [ppList_blank a' v' 10 _ h1 (by decide), h3 rfl, ppList_blank false _ 13 _ rfl (by decide),
        if_neg h1nsp, ppList_word_end false false _ y hy]
      · rfl
      · rfl
    · obtain ⟨a', v', h1, _, h3, _, h5⟩ := ppList_word false ([13, 13] ++ y) x hx false PPVars.init rfl
      rw [h5]
      show x ++ ppList false a' v' (13 :: 13 :: y) = _
      rw [ppList_blank a' v' 13 _ h1 (by decide), h3 rfl, ppList_blank false _ 13 _ rfl (by decide),
        if_neg h1nsp, ppList_word_end false false _ y hy]
      · rfl
      · rfl

/-- C5 (as amended) at the inputs of the claim: with `TXTFLG_PRE` set they
give "a\nb", "a\nb" and "a\n\nb"; with it not set each gives "a b". -/
theorem line_ends_normalised_witness :
    (preProcessed (codes "a\r\nb") 16 = codes "a\nb" ∧
     preProcessed (codes "a\rb") 16 = codes "a\nb" ∧
     preProcessed (codes "a\r\rb") 16 = codes "a\n\nb") ∧
    (preProcessed (codes "a\r\nb") 0 = codes "a b" ∧
     preProcessed (codes "a\rb") 0 = codes "a b" ∧
     preProcessed (codes "a\r\rb") 0 = codes "a b") :=
  ⟨⟨((line_ends_normalised [97] [98] 16 (by decide) (by decide)).1 (by decide)).2.1,
    ((line_ends_normalised [97] [98] 16 (by decide) (by decide)).1 (by decide)).1,
    ((line_ends_normalised [97] [98] 16 (by decide) (by decide)).1 (by decide)).2.2.2⟩,
   ⟨((line_ends_normalised [97] [98] 0 (by decide) (by decide)).2 (by decide)).2.1,
    ((line_ends_normalised [97] [98] 0 (by decide) (by decide)).2 (by decide)).1,
    ((line_ends_normalised [97] [98] 0 (by decide) (by decide)).2 (by decide)).2.2.2⟩⟩

/-- C5 (as stated) fails: with `TXTFLG_PRE` not set, "a\r\nb" becomes "a b",
not "a\nb". -/
theorem line_ends_counterexample :
    preProcessed (codes "a\r\nb") 0 = codes "a b" ∧
    preProcessed (codes "a\r\nb") 0 ≠ codes "a\nb" := by
  decide


/-! ## Pre-processor: collapsing runs of spaces -/

theorem ppList_spaces_run (rest : List Nat) :
    ∀ (n : Nat) (a : Bool) (v : PPVars), v.state = 0 → 1 ≤ v.nsp → v.nsp + n ≤ 65535 →
      ∃ a' l, ppList false a v (List.replicate n 32 ++ rest) =
        ppList false a' ⟨0, v.nch, l, v.nsp + n⟩ rest := by
  intro n
  induction n with
  | zero =>
    intro a v hv _ _
    exact ⟨a, v.lch, by cases v; simp_all⟩
  | succ n ih =>
    intro a v hv h1 h2
    rw [List.replicate_succ, List.cons_append, ppList_blank a v 32 _ hv (by decide),
      if_neg (by omega)]
    have ht : toChar16 (v.nsp + 1) = v.nsp + 1 := by unfold toChar16; omega
    rw [ht]
    obtain ⟨a', l, h⟩ := ih false ⟨0, v.nch, 32, v.nsp + 1⟩ rfl (by simp) (by simp; omega)
    refine ⟨a', l, ?_⟩
    rw [List.nil_append, h]
    simp only [Nat.add_assoc, Nat.add_comm 1 n]

theorem collapseSpaces_run (n : Nat) : collapseSpaces true (List.replicate n 32) = [] := by
  induction n with
  | zero => rfl
  | succ n ih =>
    rw [List.replicate_succ, collapseSpaces, if_pos (by decide), ih]
    rfl

theorem ppList_long_run (n : Nat) (hn : n = 65534) :
    ppList false true PPVars.init (List.replicate (n + 3) 32) = [32, 32] := by
  have hsplit : List.replicate (n + 3) 32 = 32 :: (List.replicate n 32 ++ [32, 32]) := by
    have e : n + 3 = (n + 2) + 1 := rfl
    rw [e, List.replicate_succ, List.replicate_add]
    rfl
  rw [hsplit, ppList_atStart false PPVars.init _ (by decide),
    ppList_blank false PPVars.init 32 _ rfl (by decide)]
  obtain ⟨a', l, h⟩ := ppList_spaces_run [32, 32] n false
    ⟨0, PPVars.init.nch, 32, toChar16 (PPVars.init.nsp + 1)⟩ rfl (by decide)
    (by subst hn; decide)
  rw [h, ppList_blank a' _ 32 _ rfl (by decide), ppList_blank false _ 32 _ rfl (by decide)]
  subst hn
  simp [PPVars.init, toChar16, ppList]

/-- What a caller gets when the list function yields `out`: the returned
length is the length of `out` and the first cells hold `out`. -/
theorem PreProcessXmlString_result (str : List Nat) (len flags : Nat) (out : List Nat)
    (hlen : len ≤ str.length)
    (h : ppList (decide (flags &&& TXTFLG_PRE ≠ 0)) true PPVars.init (str.take len) = out) :
    (PreProcessXmlString str len flags).1 = out.length ∧
    (PreProcessXmlString str len flags).2.take out.length = out := by
  have h' := PreProcessXmlString_eq_ppList str len flags hlen
  rw [h] at h'
  have hinv := ppRun_inv (decide (flags &&& TXTFLG_PRE ≠ 0)) len str len
  have hj1 : (PreProcessXmlString str len flags).1 ≤ len := hinv.1
  have hj2 : (PreProcessXmlString str len flags).2.length = str.length := hinv.2.1
  have hl := congrArg List.length h'
  rw [List.length_take] at hl
  have hj : (PreProcessXmlString str len flags).1 = out.length := by omega
  exact ⟨hj, by rw [← hj]; exact h'⟩

theorem collapse_long_run (n : Nat) (hn : n = 65534) :
    (PreProcessXmlString (List.replicate (n + 3) 32) (n + 3) 0).1 = 2 ∧
    (PreProcessXmlString (List.replicate (n + 3) 32) (n + 3) 0).2.take 2 = [32, 32] ∧
    collapseSpaces false (List.replicate (n + 3) 32) = [32] := by
  have hlen : (List.replicate (n + 3) 32).length = n + 3 := List.length_replicate _ _
  have hpre : decide (0 &&& TXTFLG_PRE ≠ 0) = false := by decide
  have htake : List.take (n + 3) (List.replicate (n + 3) 32) = List.replicate (n + 3) 32 := by
    rw [List.take_of_length_le (by rw [hlen])]
  have h := PreProcessXmlString_result (List.replicate (n + 3) 32) (n + 3) 0 [32, 32]
    (by rw [hlen]) (by rw [hpre, htake]; exact ppList_long_run n hn)
  refine ⟨h.1, h.2, ?_⟩
  rw [List.replicate_succ, collapseSpaces, if_pos (by decide), collapseSpaces_run]
  rfl

/-- With a 16-bit `lChar16` the bound on the length is needed: on a run of
65537 spaces the call returns 2 and leaves two adjacent spaces, where the
collapse of the run is a single space.  The counter `nsp` is an `lChar16` and
is back at 0 after 65536 spaces. -/
theorem collapse_fails_on_long_run :
    (PreProcessXmlString (List.replicate 65537 32) 65537 0).1 = 2 ∧
    (PreProcessXmlString (List.replicate 65537 32) 65537 0).2.take 2 = [32, 32] ∧
    collapseSpaces false (List.replicate 65537 32) = [32] :=
  collapse_long_run 65534 rfl

theorem ppList_collapse :
    ∀ (str : List Nat) (a : Bool) (v : PPVars) (afterSpace : Bool), v.state = 0 →
      (v.nsp = 0 ↔ afterSpace = false) → v.nsp + str.length ≤ 65535 → (∀ c ∈ str, c ≠ 38) →
      ppList false a v str = collapseSpaces afterSpace str := by
  intro str
  induction str with
  | nil => intro a v s _ _ _ _; rfl
  | cons c str ih =>
    intro a v s hv hs hlen hamp
    have hc := hamp c (List.mem_cons_self _ _)
    have hrest : ∀ c' ∈ str, c' ≠ 38 := fun c' hc' => hamp c' (List.mem_cons_of_mem _ hc')
    simp only [List.length_cons] at hlen
    by_cases hb : isBlank c = true
    · rw [ppList_blank a v c _ hv hb, collapseSpaces, if_pos hb]
      have ht : toChar16 (v.nsp + 1) = v.nsp + 1 := by unfold toChar16; omega
      rw [ih false ⟨0, v.nch, 32, toChar16 (v.nsp + 1)⟩ true rfl (by rw [ht]; simp)
        (by rw [ht]; simp; omega) hrest]
      cases s with
      | false => simp [hs.2 rfl]
      | true =>
        have : v.nsp ≠ 0 := fun e => by simpa using hs.1 e
        simp [this]
    · have hp : plainChar c = true := by simp [plainChar, hb, hc]
      rw [ppList_plain false a v c _ hv hp, collapseSpaces, if_neg hb]
      rw [ih false ⟨0, v.nch, c, 0⟩ false rfl (by simp) (by simp; omega) hrest]

/-- Whitespace collapse for inputs that cannot overflow the space counter:
with `TXTFLG_PRE` not set, an input without '&' of at most 65535 characters is
mapped to its collapse. -/
theorem preprocess_collapses_short_input (str : List Nat) (flags : Nat)
    (hpre : flags &&& TXTFLG_PRE = 0) (hamp : ∀ c ∈ str, c ≠ 38) (hlen : str.length ≤ 65535) :
    preProcessed str flags = collapseSpaces false str := by
  have hp : decide (flags &&& TXTFLG_PRE ≠ 0) = false := by simpa using hpre
  rw [preProcessed_eq_ppList, hp]
  exact ppList_collapse str true PPVars.init false rfl (by simp [PPVars.init])
    (by simp [PPVars.init]; omega) hamp


/-! ## Pre-processor: collapsing runs of spaces, for every width of `lChar16` -/

/-- With 16 bits the loop body is `ppChar`. -/
theorem ppCharW_16 (pre atStart atEnd : Bool) (next : Nat) (v : PPVars) (ch0 : Nat) :
    ppCharW 65536 pre atStart atEnd next v ch0 = ppChar pre atStart atEnd next v ch0 := rfl

theorem ppRunW_16 (pre : Bool) (len : Nat) (s : PPState) :
    ∀ k, ppRunW 65536 pre len k s = ppRun pre len k s := by
  intro k
  induction k with
  | zero => rfl
  | succ k ih =>
    rw [ppRunW, ppRun, ih]
    rfl

theorem ppRunW_inv (M : Nat) (pre : Bool) (len : Nat) (str : List Nat) :
    ∀ k, (ppRunW M pre len k ⟨str, 0, PPVars.init⟩).j ≤ k ∧
      (ppRunW M pre len k ⟨str, 0, PPVars.init⟩).str.length = str.length ∧
      ∀ m, (ppRunW M pre len k ⟨str, 0, PPVars.init⟩).j ≤ m →
        (ppRunW M pre len k ⟨str, 0, PPVars.init⟩).str.getD m 0 = str.getD m 0 := by
  intro k
  induction k with
  | zero => simp [ppRunW]
  | succ k ih =>
    obtain ⟨h1, h2, h3⟩ := ih
    have hj : (ppRunW M pre len k ⟨str, 0, PPVars.init⟩).j ≤
          (ppStepW M pre len k (ppRunW M pre len k ⟨str, 0, PPVars.init⟩)).j ∧
        (ppStepW M pre len k (ppRunW M pre len k ⟨str, 0, PPVars.init⟩)).j ≤
          (ppRunW M pre len k ⟨str, 0, PPVars.init⟩).j + 1 := ppApply_j_le _ _
    refine ⟨?_, ?_, ?_⟩
    · show (ppStepW M pre len k _).j ≤ k + 1
      omega
    · show (ppStepW M pre len k _).str.length = _
      unfold ppStepW
      rw [ppApply_length, h2]
    · intro m hm
      show (ppStepW M pre len k _).str.getD m 0 = _
      have hm' : (ppStepW M pre len k (ppRunW M pre len k ⟨str, 0, PPVars.init⟩)).j ≤ m := hm
      unfold ppStepW at hm' ⊢
      rw [ppApply_getD _ _ m hm']
      exact h3 m (by unfold ppStepW at hj; omega)

theorem ppCharW_atEnd (M : Nat) (pre atStart : Bool) (n n' : Nat) (v : PPVars) (c : Nat) :
    ppCharW M pre atStart true n v c = ppCharW M pre atStart true n' v c := by
  unfold ppCharW
  simp

theorem ppRunW_refines (M : Nat) (pre : Bool) (str : List Nat) (len : Nat)
    (hlen : len ≤ str.length) :
    ∀ k, k ≤ len →
      (ppRunW M pre len k ⟨str, 0, PPVars.init⟩).str.take
          (ppRunW M pre len k ⟨str, 0, PPVars.init⟩).j ++
        ppListW M pre (k == 0) (ppRunW M pre len k ⟨str, 0, PPVars.init⟩).vars
          ((str.take len).drop k)
      = ppListW M pre true PPVars.init (str.take len) := by
  intro k
  induction k with
  | zero => intro _; simp [ppRunW]
  | succ k ih =>
    intro hk
    have ih' := ih (by omega)
    obtain ⟨h1, h2, h3⟩ := ppRunW_inv M pre len str k
    rw [← ih']
    have hrun : ppRunW M pre len (k + 1) ⟨str, 0, PPVars.init⟩ =
        ppStepW M pre len k (ppRunW M pre len k ⟨str, 0, PPVars.init⟩) := rfl
    rw [hrun]
    generalize ppRunW M pre len k ⟨str, 0, PPVars.init⟩ = s at h1 h2 h3 ih' ⊢
    have hkl : k < (str.take len).length := by simp; omega
    have hks : k < str.length := by omega
    rw [List.drop_eq_getElem_cons hkl]
    have hgk : (str.take len)[k] = s.str.getD k 0 := by
      rw [h3 k h1, List.getElem_take]
      simp [List.getD_eq_getElem?_getD, List.getElem?_eq_getElem hks]
    rw [hgk]
    have hchar : ppCharW M pre (k == 0) (List.drop (k + 1) (List.take len str)).isEmpty
          ((List.drop (k + 1) (List.take len str)).headD 0) s.vars (s.str.getD k 0)
        = ppCharW M pre (k == 0) (k + 1 == len) (s.str.getD (k + 1) 0) s.vars
            (s.str.getD k 0) := by
      by_cases hend : k + 1 = len
      · have he : (List.drop (k + 1) (List.take len str)) = [] := by
          apply List.drop_eq_nil_of_le; simp; omega
        rw [he]
        simp only [List.isEmpty_nil, hend, beq_self_eq_true]
        exact ppCharW_atEnd _ _ _ _ _ _ _
      · have hk1 : k + 1 < (str.take len).length := by simp; omega
        rw [List.drop_eq_getElem_cons hk1]
        have : (k + 1 == len) = false := by simp [hend]
        rw [this]
        simp only [List.isEmpty_cons, List.headD_cons]
        congr 1
        rw [h3 (k + 1) (by omega), List.getElem_take]
        have hk1s : k + 1 < str.length := by omega
        simp [List.getD_eq_getElem?_getD, List.getElem?_eq_getElem hk1s]
    rw [ppListW, hchar]
    unfold ppStepW
    have hfalse : (k + 1 == 0) = false := by simp
    rw [hfalse]
    generalize ppCharW M pre (k == 0) (k + 1 == len) (s.str.getD (k + 1) 0) s.vars
      (s.str.getD k 0) = r
    obtain ⟨o, v⟩ := r
    cases o with
    | none => simp [ppApply]
    | some c =>
      have hjl : s.j < s.str.length := by omega
      simp only [ppApply, Option.toList_some, List.singleton_append]
      rw [List.take_succ]
      simp [take_set_same, List.getElem?_set_self hjl]

/-- The in-place function computes the list function, for every width. -/
theorem preProcessedW_eq_ppListW (M : Nat) (str : List Nat) (flags : Nat) :
    preProcessedW M str flags =
      ppListW M (decide (flags &&& TXTFLG_PRE ≠ 0)) true PPVars.init str := by
  have h := ppRunW_refines M (decide (flags &&& TXTFLG_PRE ≠ 0)) str str.length (le_refl _)
    str.length (le_refl _)
  have hd : List.drop str.length (List.take str.length str) = [] := by
    apply List.drop_eq_nil_of_le; simp
  rw [hd, List.take_length] at h
  unfold preProcessedW
  simpa [PreProcessXmlStringW, ppListW] using h

theorem ppListW_plain (M : Nat) (pre a : Bool) (v : PPVars) (c : Nat) (rest : List Nat)
    (hv : v.state = 0) (hc : plainChar c = true) :
    ppListW M pre a v (c :: rest) = c :: ppListW M pre false ⟨0, v.nch, c, 0⟩ rest := by
  rw [ppListW]
  simp only [plainChar, isBlank, Bool.and_eq_true, Bool.not_eq_true', Bool.or_eq_false_iff,
    beq_eq_false_iff_ne, bne_iff_ne, ne_eq] at hc
  obtain ⟨⟨⟨⟨h32, h13⟩, h10⟩, h9⟩, h38⟩ := hc
  simp [ppCharW, hv, h32, h13, h10, h9, h38]

theorem ppListW_blank (M : Nat) (a : Bool) (v : PPVars) (c : Nat) (rest : List Nat)
    (hv : v.state = 0) (hc : isBlank c = true) :
    ppListW M false a v (c :: rest) =
      (if v.nsp = 0 then [32] else []) ++
        ppListW M false false ⟨0, v.nch, 32, (v.nsp + 1) % M⟩ rest := by
  rw [ppListW]
  simp only [isBlank, Bool.or_eq_true, beq_iff_eq] at hc
  by_cases hn : v.nsp = 0
  · rcases hc with ((rfl | rfl) | rfl) | rfl <;> simp [ppCharW, hv, hn]
  · rcases hc with ((rfl | rfl) | rfl) | rfl <;> simp [ppCharW, hv, hn]

theorem ppListW_collapse (M : Nat) :
    ∀ (str : List Nat) (a : Bool) (v : PPVars) (afterSpace : Bool), v.state = 0 →
      (v.nsp = 0 ↔ afterSpace = false) → v.nsp + str.length < M → (∀ c ∈ str, c ≠ 38) →
      ppListW M false a v str = collapseSpaces afterSpace str := by
  intro str
  induction str with
  | nil => intro a v s _ _ _ _; rfl
  | cons c str ih =>
    intro a v s hv hs hlen hamp
    have hc := hamp c (List.mem_cons_self _ _)
    have hrest : ∀ c' ∈ str, c' ≠ 38 := fun c' hc' => hamp c' (List.mem_cons_of_mem _ hc')
    simp only [List.length_cons] at hlen
    by_cases hb : isBlank c = true
    · rw [ppListW_blank M a v c _ hv hb, collapseSpaces, if_pos hb]
      have ht : (v.nsp + 1) % M = v.nsp + 1 := Nat.mod_eq_of_lt (by omega)
      rw [ih false ⟨0, v.nch, 32, (v.nsp + 1) % M⟩ true rfl (by rw [ht]; simp)
        (by rw [ht]; simp; omega) hrest]
      cases s with
      | false => simp [hs.2 rfl]
      | true =>
        have : v.nsp ≠ 0 := fun e => by simpa using hs.1 e
        simp [this]
    · have hp : plainChar c = true := by simp [plainChar, hb, hc]
      rw [ppListW_plain M false a v c _ hv hp, collapseSpaces, if_neg hb]
      rw [ih false ⟨0, v.nch, c, 0⟩ false rfl (by simp) (by simp; omega) hrest]

/-- With 16 bits the function is `PreProcessXmlString`. -/
theorem preProcessedW_16 (str : List Nat) (flags : Nat) :
    preProcessedW 65536 str flags = preProcessed str flags := by
  unfold preProcessedW preProcessed PreProcessXmlStringW PreProcessXmlString
  simp only [ppRunW_16]

theorem isBlank_ne_space (c : Nat) (h : ¬ isBlank c = true) : c ≠ 32 := by
  intro e
  subst e
  exact h (by decide)

/-- The collapse has no two adjacent spaces, and it does not start with a
space when it continues a run of spaces. -/
theorem collapseSpaces_chain :
    ∀ (str : List Nat) (b : Bool),
      List.Chain' (fun x y => ¬ (x = 32 ∧ y = 32)) (collapseSpaces b str) ∧
      (b = true → ∀ x ∈ (collapseSpaces b str).head?, x ≠ 32) := by
  intro str
  induction str with
  | nil => intro b; simp [collapseSpaces]
  | cons c str ih =>
    intro b
    by_cases hb : isBlank c = true
    · rw [collapseSpaces, if_pos hb]
      obtain ⟨i1, i2⟩ := ih true
      cases b with
      | true => exact ⟨by simpa using i1, fun _ => by simpa using i2 rfl⟩
      | false =>
        refine ⟨?_, fun h => by simp at h⟩
        simp only [Bool.false_eq_true, if_false, List.singleton_append]
        rw [List.chain'_cons']
        exact ⟨fun y hy h => i2 rfl y hy h.2, i1⟩
    · rw [collapseSpaces, if_neg hb]
      have hc := isBlank_ne_space c hb
      obtain ⟨i1, _⟩ := ih false
      refine ⟨?_, fun _ x hx => by simp at hx; omega⟩
      rw [List.chain'_cons']
      exact ⟨fun y _ h => hc h.1, i1⟩

/-- The collapse keeps the characters that are not blank, in order. -/
theorem collapseSpaces_filter :
    ∀ (str : List Nat) (b : Bool),
      (collapseSpaces b str).filter (fun c => c != 32) = str.filter (fun c => !isBlank c) := by
  intro str
  induction str with
  | nil => intro b; rfl
  | cons c str ih =>
    intro b
    by_cases hb : isBlank c = true
    · rw [collapseSpaces, if_pos hb, List.filter_append, ih true, List.filter_cons_of_neg (by simp [hb])]
      cases b <;> simp
    · rw [collapseSpaces, if_neg hb, List.filter_cons_of_pos (by simp [isBlank_ne_space c hb]),
        List.filter_cons_of_pos (by simpa using hb), ih false]

/-- Behind a space, a run of blanks adds nothing to the collapse. -/
theorem collapseSpaces_blanks (rest : List Nat) :
    ∀ r : List Nat, (∀ c ∈ r, isBlank c = true) →
      collapseSpaces true (r ++ rest) = collapseSpaces true rest := by
  intro r
  induction r with
  | nil => intro _; rfl
  | cons c r ih =>
    intro h
    rw [List.cons_append, collapseSpaces, if_pos (h c (by simp)),
      ih (fun c' hc' => h c' (by simp [hc']))]
    rfl

/-- Before a character that is not blank the collapse does not depend on what
came before. -/
theorem collapseSpaces_start (rest : List Nat) (b : Bool)
    (h : ∀ c ∈ rest.head?, isBlank c = false) :
    collapseSpaces b rest = collapseSpaces false rest := by
  cases rest with
  | nil => rfl
  | cons c rest =>
    have hc : ¬ isBlank c = true := by simpa using h c (by simp)
    rw [collapseSpaces, if_neg hc, collapseSpaces, if_neg hc]

/-- A word, then a run of blanks: the collapse is the word and one space. -/
theorem collapseSpaces_word_run (rest : List Nat) (r : List Nat) (hr : r ≠ [])
    (hrb : ∀ c ∈ r, isBlank c = true) (h : ∀ c ∈ rest.head?, isBlank c = false) :
    ∀ w : List Nat, (∀ c ∈ w, isBlank c = false) →
      collapseSpaces false (w ++ r ++ rest) = w ++ 32 :: collapseSpaces false rest := by
  intro w
  induction w with
  | nil =>
    intro _
    cases r with
    | nil => exact absurd rfl hr
    | cons c r =>
      rw [List.nil_append, List.cons_append, collapseSpaces, if_pos (hrb c (by simp)),
        collapseSpaces_blanks rest r (fun c' hc' => hrb c' (by simp [hc'])),
        collapseSpaces_start rest true h]
      rfl
  | cons c w ih =>
    intro hw
    have hc : ¬ isBlank c = true := by simpa using hw c (by simp)
    rw [List.cons_append, List.cons_append, collapseSpaces, if_neg hc,
      ih (fun c' hc' => hw c' (by simp [hc']))]
    rfl

theorem ReadChar_advances (f : LVTextFileBase) :
    f.buf_pos + 1 ≤ (ReadChar f).2.buf_pos ∧ (ReadChar f).2.buf_fpos = f.buf_fpos := by
  unfold ReadChar
  simp only
  repeat' split
  all_goals (constructor <;> first | rfl | (simp only; omega))

theorem ReadChar_cursor (f : LVTextFileBase) : cursor f < cursor (ReadChar f).2 := by
  have h := ReadChar_advances f
  unfold cursor
  omega

theorem FillBuffer_cursor (f : LVTextFileBase) (n : Int) : cursor (FillBuffer f n).2 = cursor f := by
  unfold FillBuffer cursor
  simp only
  split_ifs <;> simp only <;> omega

theorem FillBuffer_at_end (f : LVTextFileBase) (n : Int)
    (h : f.stream_size - (f.buf_fpos + f.buf_len) ≤ 0) : FillBuffer f n = (false, f) := by
  unfold FillBuffer
  simp only
  rw [if_pos h]

theorem Eof_FillBuffer (g : LVTextFileBase) (n : Int) (h : Eof g = true) :
    Eof (FillBuffer g n).2 = true := by
  have h' : g.stream_size - (g.buf_fpos + g.buf_len) ≤ 0 := by
    unfold Eof at h
    simp only [Bool.and_eq_true, decide_eq_true_eq] at h
    exact h.2
  rw [FillBuffer_at_end g n h']
  exact h

/-- The five ways through the body of the loop of `ReadLine`: end of file, a
skipped byte order mark, a space or tab, another character, an end of line. -/
theorem ReadLineBody_cases (eof : LVTextFileBase → Bool) (s : LineVars) :
    (eof s.file = true ∧ ReadLineBody eof s =
      (false, { s with last_space_fpos := cursor s.file, last_space_chpos := s.res.length,
                       flags := s.flags ||| 1 })) ∨
    (eof s.file = false ∧ s.fpos = 0 ∧ s.res = [] ∧ ReadLineBody eof s =
      (true, { s with file := (ReadChar s.file).2, fpos := cursor (ReadChar s.file).2 })) ∨
    (eof s.file = false ∧ ∃ ch, ReadLineBody eof s =
      (true, { s with file := (ReadChar s.file).2, res := s.res ++ [ch],
                      last_space_fpos := cursor (ReadChar s.file).2,
                      last_space_chpos := (s.res ++ [ch]).length })) ∨
    (eof s.file = false ∧ ∃ ch, ReadLineBody eof s =
      (true, { s with file := (ReadChar s.file).2, res := s.res ++ [ch] })) ∨
    (eof s.file = false ∧ ∃ f3 lsf, cursor (ReadChar s.file).2 ≤ lsf ∧ ReadLineBody eof s =
      (false, { s with file := f3, last_space_fpos := lsf,
                       last_space_chpos := s.res.length, flags := s.flags ||| 1 })) := by
  unfold ReadLineBody
  by_cases he : eof s.file = true
  · left
    exact ⟨he, by rw [if_pos he]⟩
  · right
    have hef : eof s.file = false := by simpa using he
    rw [if_neg he]
    simp only
    by_cases hbom : (ReadChar s.file).1 = 0xFEFF ∧ s.fpos = 0 ∧ s.res = []
    · left
      exact ⟨hef, hbom.2.1, hbom.2.2, by rw [if_pos hbom]⟩
    · right
      rw [if_neg hbom]
      by_cases hnl : (ReadChar s.file).1 ≠ 13 ∧ (ReadChar s.file).1 ≠ 10
      · rw [if_pos hnl]
        by_cases hsp : (ReadChar s.file).1 = 32 ∨ (ReadChar s.file).1 = 9
        · left
          exact ⟨hef, _, by rw [if_pos hsp]⟩
        · right; left
          exact ⟨hef, _, by rw [if_neg hsp]⟩
      · right; right
        rw [if_neg hnl]
        have h1 := ReadChar_cursor (ReadChar s.file).2
        refine ⟨hef, ?_⟩
        split_ifs
        · exact ⟨_, _, le_refl _, rfl⟩
        · exact ⟨_, _, le_of_lt h1, rfl⟩
        · exact ⟨_, _, le_refl _, rfl⟩

theorem ReadLineBody_fpos (eof : LVTextFileBase → Bool) (s : LineVars) (h : s.fpos ≠ 0) :
    (ReadLineBody eof s).2.fpos = s.fpos := by
  rcases ReadLineBody_cases eof s with ⟨_, e⟩ | ⟨_, h0, _, _⟩ | ⟨_, _, e⟩ | ⟨_, _, e⟩ | ⟨_, _, _, _, e⟩
  · rw [e]
  · exact absurd h0 h
  · rw [e]
  · rw [e]
  · rw [e]

theorem ReadLineLoop_fpos (eof : LVTextFileBase → Bool) (m : Int) :
    ∀ (fuel : Nat) (s s' : LineVars), s.fpos ≠ 0 → ReadLineLoop eof m fuel s = some s' →
      s'.fpos = s.fpos := by
  intro fuel
  induction fuel with
  | zero => intro s s' _ h; simp [ReadLineLoop] at h
  | succ fuel ih =>
    intro s s' hs h
    unfold ReadLineLoop at h
    split_ifs at h with h1 h2
    · have hb := ReadLineBody_fpos eof s hs
      rw [ih _ s' (by rw [hb]; exact hs) h, hb]
    · simp only [Option.some.injEq] at h
      rw [← h, ReadLineBody_fpos eof s hs]
    · simp only [Option.some.injEq] at h
      rw [← h]

theorem ReadLineBody_measure (eof : LVTextFileBase → Bool) (s : LineVars) (U : Nat)
    (hU : s.res.length < U) (hc : (ReadLineBody eof s).1 = true) :
    (U - (ReadLineBody eof s).2.res.length) + bomBudget (ReadLineBody eof s).2
      < (U - s.res.length) + bomBudget s := by
  have hcur := ReadChar_cursor s.file
  rcases ReadLineBody_cases eof s with ⟨_, e⟩ | ⟨_, h0, _, e⟩ | ⟨_, ch, e⟩ | ⟨_, ch, e⟩ | ⟨_, _, _, _, e⟩
  · rw [e] at hc; simp at hc
  · rw [e]
    unfold bomBudget
    simp only [h0]
    split_ifs <;> omega
  · rw [e]
    unfold bomBudget
    simp only [List.length_append, List.length_singleton]
    split_ifs <;> omega
  · rw [e]
    unfold bomBudget
    simp only [List.length_append, List.length_singleton]
    split_ifs <;> omega
  · rw [e] at hc; simp at hc

theorem ReadLineLoop_isSome (eof : LVTextFileBase → Bool) (m : Int) :
    ∀ (fuel : Nat) (s : LineVars),
      (toUnsigned m - s.res.length) + bomBudget s < fuel →
      ∃ s', ReadLineLoop eof m fuel s = some s' := by
  intro fuel
  induction fuel with
  | zero => intro s h; omega
  | succ fuel ih =>
    intro s h
    unfold ReadLineLoop
    by_cases h1 : s.res.length < toUnsigned m
    · rw [if_pos h1]
      by_cases h2 : (ReadLineBody eof s).1 = true
      · rw [if_pos h2]
        have := ReadLineBody_measure eof s (toUnsigned m) h1 h2
        exact ih _ (by omega)
      · rw [if_neg h2]
        exact ⟨_, rfl⟩
    · rw [if_neg h1]
      exact ⟨_, rfl⟩

/-- The loop of `ReadLine` ends within its fuel: `ReadLine` returns for every
reader state and every `maxLineSize`. -/
theorem ReadLine_total (eof : LVTextFileBase → Bool) (f : LVTextFileBase) (m : Int) :
    ∃ o, ReadLine eof f m = some o := by
  unfold ReadLine
  obtain ⟨s', h⟩ := ReadLineLoop_isSome eof m (toUnsigned m + 3)
    { file := (FillBuffer f (m * 3)).2, fpos := cursor f, flags := 0, res := [],
      last_space_fpos := 0, last_space_chpos := -1 }
    (by unfold bomBudget; simp only [List.length_nil]; split_ifs <;> omega)
  exact ⟨ReadLineFinish s', by rw [h]; rfl⟩

theorem ReadLineFinish_cursor (s : LineVars) :
    cursor (ReadLineFinish s).file = (ReadLineFinish s).fpos + (ReadLineFinish s).fsize := by
  unfold ReadLineFinish cursor
  simp only
  omega

/-- After `ReadLine` the cursor is at `fpos + fsize`, for every `Eof`, reader
state and `maxLineSize`. -/
theorem ReadLine_cursor (eof : LVTextFileBase → Bool) (f : LVTextFileBase) (m : Int)
    (o : LineResult) (h : ReadLine eof f m = some o) : cursor o.file = o.fpos + o.fsize := by
  unfold ReadLine at h
  simp only [Option.map_eq_some'] at h
  obtain ⟨s, _, rfl⟩ := h
  exact ReadLineFinish_cursor s


theorem ReadLineFinish_beyond (c0 : Int) (s : LineVars)
    (h : LineBeyond c0 s ∨ (s.last_space_chpos ≠ -1 ∧ c0 < s.last_space_fpos)) :
    c0 < cursor (ReadLineFinish s).file := by
  rcases h with ⟨h1, h2, h3⟩ | ⟨h1, h2⟩
  · by_cases hc : s.last_space_chpos = -1
    · simp only [ReadLineFinish, cursor, h1, hc, and_self, decide_True, if_true]
      simp only [cursor] at h2
      omega
    · have := h3 hc
      simp only [ReadLineFinish, cursor, hc, and_false, decide_False, Bool.false_eq_true, if_false]
      omega
  · simp only [ReadLineFinish, cursor, h1, and_false, decide_False, Bool.false_eq_true, if_false]
    omega

theorem ReadLineBody_beyond (eof : LVTextFileBase → Bool) (c0 : Int) (s : LineVars)
    (hfl : s.flags = 0) (hcur : c0 ≤ cursor s.file)
    (hsp : s.last_space_chpos ≠ -1 → c0 < s.last_space_fpos)
    (hne : eof s.file = false ∨ c0 < cursor s.file) :
    ((ReadLineBody eof s).1 = true → LineBeyond c0 (ReadLineBody eof s).2) ∧
    ((ReadLineBody eof s).1 = false →
      (ReadLineBody eof s).2.last_space_chpos ≠ -1 ∧ c0 < (ReadLineBody eof s).2.last_space_fpos) := by
  have hadv := ReadChar_cursor s.file
  rcases ReadLineBody_cases eof s with ⟨he, e⟩ | ⟨_, _, _, e⟩ | ⟨_, ch, e⟩ | ⟨_, ch, e⟩ | ⟨_, f3, lsf, hf3, e⟩
  · rw [e]
    refine ⟨fun h => by simp at h, fun _ => ⟨?_, ?_⟩⟩
    · simp only; omega
    · rcases hne with hne | hne
      · rw [he] at hne; simp at hne
      · exact hne
  · rw [e]
    refine ⟨fun _ => ⟨hfl, by simp only; omega, hsp⟩, fun h => by simp at h⟩
  · rw [e]
    refine ⟨fun _ => ⟨hfl, by simp only; omega, fun _ => by simp only; omega⟩, fun h => by simp at h⟩
  · rw [e]
    refine ⟨fun _ => ⟨hfl, by simp only; omega, hsp⟩, fun h => by simp at h⟩
  · rw [e]
    refine ⟨fun h => by simp at h, fun _ => ⟨?_, ?_⟩⟩
    · simp only; omega
    · simp only; omega

theorem ReadLineLoop_beyond (eof : LVTextFileBase → Bool) (m : Int) (c0 : Int) :
    ∀ (fuel : Nat) (s s' : LineVars), LineBeyond c0 s → ReadLineLoop eof m fuel s = some s' →
      c0 < cursor (ReadLineFinish s').file := by
  intro fuel
  induction fuel with
  | zero => intro s s' _ h; simp [ReadLineLoop] at h
  | succ fuel ih =>
    intro s s' hs h
    have hb := ReadLineBody_beyond eof c0 s hs.1 (le_of_lt hs.2.1) hs.2.2 (Or.inr hs.2.1)
    unfold ReadLineLoop at h
    split_ifs at h with h1 h2
    · exact ih _ s' (hb.1 h2) h
    · simp only [Option.some.injEq] at h
      rw [← h]
      exact ReadLineFinish_beyond c0 _ (Or.inr (hb.2 (by simpa using h2)))
    · simp only [Option.some.injEq] at h
      rw [← h]
      exact ReadLineFinish_beyond c0 _ (Or.inl hs)

/-- A call that does not start at end of file and may read at least one
character leaves the cursor beyond its starting point. -/
theorem ReadLine_progress (eof : LVTextFileBase → Bool) (f : LVTextFileBase) (m : Int)
    (o : LineResult) (hm : 1 ≤ toUnsigned m) (hne : eof (FillBuffer f (m * 3)).2 = false)
    (h : ReadLine eof f m = some o) : cursor f < cursor o.file := by
  unfold ReadLine at h
  simp only [Option.map_eq_some'] at h
  obtain ⟨s', hs', rfl⟩ := h
  have hcf := FillBuffer_cursor f (m * 3)
  have hb := ReadLineBody_beyond eof (cursor f)
    { file := (FillBuffer f (m * 3)).2, fpos := cursor f, flags := 0, res := [],
      last_space_fpos := 0, last_space_chpos := -1 }
    rfl (by simp only; omega) (fun hc => absurd rfl hc) (Or.inl hne)
  have hfuel : toUnsigned m + 3 = (toUnsigned m + 2) + 1 := rfl
  rw [hfuel] at hs'
  unfold ReadLineLoop at hs'
  simp only [List.length_nil] at hs'
  rw [if_pos (by omega)] at hs'
  split_ifs at hs' with h2
  · exact ReadLineLoop_beyond eof m (cursor f) _ _ s' (hb.1 h2) hs'
  · simp only [Option.some.injEq] at hs'
    rw [← hs']
    exact ReadLineFinish_beyond (cursor f) _ (Or.inr (hb.2 (by simpa using h2)))

/-- Where the reported line starts: at the cursor of the entry, whenever that
cursor is not 0 (no byte order mark can be skipped) or the call starts at end
of file. -/
theorem ReadLine_fpos (eof : LVTextFileBase → Bool) (g : LVTextFileBase) (m : Int)
    (o : LineResult) (hg : cursor g ≠ 0 ∨ eof (FillBuffer g (m * 3)).2 = true)
    (h : ReadLine eof g m = some o) : o.fpos = cursor g := by
  unfold ReadLine at h
  simp only [Option.map_eq_some'] at h
  obtain ⟨s', hs', rfl⟩ := h
  show s'.fpos = cursor g
  rcases hg with hg | hg
  · exact ReadLineLoop_fpos eof m _ _ s' hg hs'
  · have hfuel : toUnsigned m + 3 = (toUnsigned m + 2) + 1 := rfl
    rw [hfuel] at hs'
    unfold ReadLineLoop at hs'
    rcases ReadLineBody_cases eof
      { file := (FillBuffer g (m * 3)).2, fpos := cursor g, flags := 0, res := [],
        last_space_fpos := 0, last_space_chpos := -1 }
      with ⟨_, e⟩ | ⟨he, _⟩ | ⟨he, _⟩ | ⟨he, _⟩ | ⟨he, _⟩
    · rw [e] at hs'
      simp only [Bool.false_eq_true, if_false] at hs'
      split_ifs at hs' <;> (simp only [Option.some.injEq] at hs'; rw [← hs'])
    all_goals (simp only at he; rw [hg] at he; simp at he)

/-- C2, line tiling: for every `Eof` that stays true when an exhausted reader
is refilled, every reader state with a non-negative cursor and every
`maxLineSize ≥ 1`, `ReadLine` returns, afterwards the cursor is at
`fpos + fsize`, and the next call of `ReadLine` (with any `maxLineSize`)
returns a line that starts at that `fpos + fsize`. -/
theorem line_tiling (eof : LVTextFileBase → Bool)
    (heof : ∀ g n, eof g = true → eof (FillBuffer g n).2 = true)
    (f : LVTextFileBase) (m1 m2 : Int) (hm : 1 ≤ m1) (hm' : m1 < 2147483648)
    (hf : 0 ≤ cursor f) :
    ∃ o1 o2, ReadLine eof f m1 = some o1 ∧ cursor o1.file = o1.fpos + o1.fsize ∧
      ReadLine eof o1.file m2 = some o2 ∧ cursor o2.file = o2.fpos + o2.fsize ∧
      o2.fpos = o1.fpos + o1.fsize := by
  obtain ⟨o1, h1⟩ := ReadLine_total eof f m1
  obtain ⟨o2, h2⟩ := ReadLine_total eof o1.file m2
  have hc1 := ReadLine_cursor eof f m1 o1 h1
  have hc2 := ReadLine_cursor eof o1.file m2 o2 h2
  refine ⟨o1, o2, h1, hc1, h2, hc2, ?_⟩
  rw [← hc1]
  have hU : 1 ≤ toUnsigned m1 := by unfold toUnsigned; omega
  by_cases he : eof (FillBuffer f (m1 * 3)).2 = true
  · -- the first call starts at end of file: it reads nothing
    apply ReadLine_fpos eof o1.file m2 o2 _ h2
    right
    have ho1 : o1.file = (FillBuffer f (m1 * 3)).2 := by
      unfold ReadLine at h1
      simp only [Option.map_eq_some'] at h1
      obtain ⟨s', hs', rfl⟩ := h1
      have hfuel : toUnsigned m1 + 3 = (toUnsigned m1 + 2) + 1 := rfl
      rw [hfuel] at hs'
      unfold ReadLineLoop at hs'
      simp only [List.length_nil] at hs'
      rw [if_pos (by omega)] at hs'
      rcases ReadLineBody_cases eof
        { file := (FillBuffer f (m1 * 3)).2, fpos := cursor f, flags := 0, res := [],
          last_space_fpos := 0, last_space_chpos := -1 }
        with ⟨_, e⟩ | ⟨he', _⟩ | ⟨he', _⟩ | ⟨he', _⟩ | ⟨he', _⟩
      · rw [e] at hs'
        simp only [Bool.false_eq_true, if_false, Option.some.injEq] at hs'
        rw [← hs']
        unfold ReadLineFinish cursor
        simp
      all_goals (simp only at he'; rw [he] at he'; simp at he')
    rw [ho1]
    exact heof _ _ he
  · -- the first call reads at least one character
    have hprog := ReadLine_progress eof f m1 o1 hU (by simpa using he) h1
    exact ReadLine_fpos eof o1.file m2 o2 (Or.inl (by omega)) h2

/-- C2 on the stream "ab\r\ncd" read with `maxLineSize = 100`. -/
theorem line_tiling_witness :
    ∃ o1 o2, ReadLine Eof (LVTextFileBase.create (codes "ab\r\ncd")) 100 = some o1 ∧
      cursor o1.file = o1.fpos + o1.fsize ∧
      ReadLine Eof o1.file 100 = some o2 ∧ cursor o2.file = o2.fpos + o2.fsize ∧
      o2.fpos = o1.fpos + o1.fsize :=
  line_tiling Eof Eof_FillBuffer (LVTextFileBase.create (codes "ab\r\ncd")) 100 100
    (by decide) (by decide) (by decide)

/-- C3: the text `ReadLine` returns is not truncated to the soft break.  On
the stream "ab cd" with `maxLineSize = 4` the first call reports the byte
range (0, 3) but returns the four characters "ab c"; the next call starts at
byte 3 and returns "cd", so the character 'c' is returned twice. -/
theorem line_text_not_truncated :
    (ReadLine Eof (LVTextFileBase.create (codes "ab cd")) 4).map
        (fun o => (o.text, o.fpos, o.fsize, o.flags)) = some (codes "ab c", 0, 3, 0) ∧
    ((ReadLine Eof (LVTextFileBase.create (codes "ab cd")) 4).bind
        (fun o => ReadLine Eof o.file 4)).map
        (fun o => (o.text, o.fpos, o.fsize, o.flags)) = some (codes "cd", 3, 2, 1) := by
  decide


/-! ## Line reader: the returned text -/

theorem ReadLineBody_inRange (eof : LVTextFileBase → Bool) (s : LineVars)
    (h : LineBreakInRange s) : LineBreakInRange (ReadLineBody eof s).2 := by
  unfold LineBreakInRange at h ⊢
  rcases ReadLineBody_cases eof s with ⟨_, e⟩ | ⟨_, _, _, e⟩ | ⟨_, ch, e⟩ | ⟨_, ch, e⟩ | ⟨_, f3, lsf, _, e⟩
  · rw [e]; right; simp only; omega
  · rw [e]; exact h
  · rw [e]; right; simp only; omega
  · rw [e]
    simp only [List.length_append, List.length_singleton]
    rcases h with h | h
    · left; exact h
    · right; push_cast; omega
  · rw [e]; right; simp only; omega

theorem ReadLineLoop_inRange (eof : LVTextFileBase → Bool) (m : Int) :
    ∀ (fuel : Nat) (s s' : LineVars), LineBreakInRange s → ReadLineLoop eof m fuel s = some s' →
      LineBreakInRange s' := by
  intro fuel
  induction fuel with
  | zero => intro s s' _ h; simp [ReadLineLoop] at h
  | succ fuel ih =>
    intro s s' hs h
    have hb := ReadLineBody_inRange eof s hs
    unfold ReadLineLoop at h
    split_ifs at h
    · exact ih _ s' hb h
    · simp only [Option.some.injEq] at h
      rw [← h]; exact hb
    · simp only [Option.some.injEq] at h
      rw [← h]; exact hs

theorem ReadLineFinish_text (s : LineVars) (h : LineBreakInRange s) :
    (ReadLineFinish s).text = s.res := by
  unfold ReadLineFinish
  simp only
  rw [if_neg]
  unfold LineBreakInRange at h
  unfold toUnsigned
  rcases h with ⟨h1, h2⟩ | ⟨h1, h2⟩
  · simp only [h1, h2, and_self, decide_True, if_true]
    omega
  · have hne : ¬ (s.flags = 0 ∧ s.last_space_chpos = -1) := by
      intro hc; omega
    simp only [hne, decide_False, Bool.false_eq_true, if_false]
    omega

/-- The call `res.erase(...)` at the end of `ReadLine` is dead code: the text
returned is always the whole text the loop has read, whatever the soft-break
index is. -/
theorem ReadLine_text_untruncated (eof : LVTextFileBase → Bool) (f : LVTextFileBase) (m : Int)
    (o : LineResult) (h : ReadLine eof f m = some o) :
    ∃ s, ReadLineLoop eof m (toUnsigned m + 3)
        { file := (FillBuffer f (m * 3)).2, fpos := cursor f, flags := 0, res := [],
          last_space_fpos := 0, last_space_chpos := -1 } = some s ∧
      o.text = s.res := by
  unfold ReadLine at h
  simp only [Option.map_eq_some'] at h
  obtain ⟨s, hs, rfl⟩ := h
  refine ⟨s, hs, ReadLineFinish_text s ?_⟩
  exact ReadLineLoop_inRange eof m _ _ s (Or.inl ⟨rfl, rfl⟩) hs


/-! ## Text nodes: byte contiguity of the text events -/

theorem ReadTextEmit_events (s : TextVars) (f1 : LVTextFileBase) (txt_buf : List Nat)
    (tlen : Int) (flgBreak : Bool) (herePos : Int) :
    ∃ ev : TextEvent, (ReadTextEmit s f1 txt_buf tlen flgBreak herePos).events = s.events ++ [ev] ∧
      ev.fpos = s.text_start_pos ∧
      ((ReadTextEmit s f1 txt_buf tlen flgBreak herePos).done = false →
        (ReadTextEmit s f1 txt_buf tlen flgBreak herePos).text_start_pos = ev.fpos + ev.fsize) := by
  unfold ReadTextEmit
  cases flgBreak with
  | true => exact ⟨_, rfl, rfl, fun h => by simp at h⟩
  | false =>
    refine ⟨_, rfl, rfl, fun _ => ?_⟩
    simp only [Bool.false_eq_true, if_false]
    omega

theorem ReadTextAfterChar_events (splitSize : Int) (s : TextVars) (ch_start_pos : Int)
    (ch : Nat) (f1 : LVTextFileBase) (atEof : Bool) :
    ((ReadTextAfterChar splitSize s ch_start_pos ch f1 atEof).events = s.events ∧
      (ReadTextAfterChar splitSize s ch_start_pos ch f1 atEof).text_start_pos = s.text_start_pos ∧
      (ReadTextAfterChar splitSize s ch_start_pos ch f1 atEof).done = s.done) ∨
    (∃ ev : TextEvent,
      (ReadTextAfterChar splitSize s ch_start_pos ch f1 atEof).events = s.events ++ [ev] ∧
      ev.fpos = s.text_start_pos ∧
      ((ReadTextAfterChar splitSize s ch_start_pos ch f1 atEof).done = false →
        (ReadTextAfterChar splitSize s ch_start_pos ch f1 atEof).text_start_pos
          = ev.fpos + ev.fsize)) := by
  unfold ReadTextAfterChar
  simp only
  split_ifs
  all_goals first
    | (right; exact ReadTextEmit_events _ _ _ _ _ _)
    | (left; exact ⟨rfl, rfl, rfl⟩)

theorem ReadTextBody_events (eof : LVTextFileBase → Bool) (splitSize : Int) (s : TextVars) :
    ((ReadTextBody eof splitSize s).events = s.events ∧
      (ReadTextBody eof splitSize s).text_start_pos = s.text_start_pos ∧
      (ReadTextBody eof splitSize s).done = s.done) ∨
    (∃ ev : TextEvent, (ReadTextBody eof splitSize s).events = s.events ++ [ev] ∧
      ev.fpos = s.text_start_pos ∧
      ((ReadTextBody eof splitSize s).done = false →
        (ReadTextBody eof splitSize s).text_start_pos = ev.fpos + ev.fsize)) :=
  ReadTextAfterChar_events _ _ _ _ _ _

theorem TextInv_init (f : LVTextFileBase) : TextInv f (TextVars.init f) := by
  refine ⟨?_, ?_, fun _ => ⟨fun _ => rfl, ?_⟩⟩
  · exact List.chain'_nil
  · intro e h; simp [TextVars.init] at h
  · intro e h; simp [TextVars.init] at h

theorem TextInv_turn (eof : LVTextFileBase → Bool) (splitSize : Int) (f : LVTextFileBase)
    (s : TextVars) (h : TextInv f s) : TextInv f (ReadTextTurn eof splitSize s) := by
  unfold ReadTextTurn
  by_cases hd : s.done = true
  · rw [if_pos hd]; exact h
  rw [if_neg hd]
  have hdf : s.done = false := by simpa using hd
  obtain ⟨h1, h2, h3⟩ := h
  obtain ⟨h3a, h3b⟩ := h3 hdf
  by_cases he : eof s.file = true
  · rw [if_pos he]
    exact ⟨h1, h2, fun hc => by simp at hc⟩
  rw [if_neg he]
  rcases ReadTextBody_events eof splitSize s with ⟨e1, e2, e3⟩ | ⟨ev, e1, e2, e3⟩
  · refine ⟨by rw [e1]; exact h1, by rw [e1]; exact h2, fun _ => ?_⟩
    rw [e1, e2]
    exact ⟨h3a, h3b⟩
  · refine ⟨?_, ?_, fun hc => ⟨?_, ?_⟩⟩
    · rw [e1]
      unfold Contiguous
      rw [List.chain'_append]
      refine ⟨h1, List.chain'_singleton _, ?_⟩
      intro x hx y hy
      simp only [List.head?_cons, Option.mem_def, Option.some.injEq] at hy
      subst hy
      rw [e2, h3b x hx]
    · intro e he'
      rw [e1] at he'
      cases hev : s.events with
      | nil =>
        rw [hev] at he'
        simp only [List.nil_append, List.head?_cons, Option.some.injEq] at he'
        subst he'
        rw [e2]
        exact h3a hev
      | cons a l =>
        rw [hev] at he'
        simp only [List.cons_append, List.head?_cons, Option.some.injEq] at he'
        subst he'
        exact h2 a (by rw [hev]; rfl)
    · intro hnil
      rw [e1] at hnil
      simp at hnil
    · intro e he'
      rw [e1, List.getLast?_concat] at he'
      simp only [Option.some.injEq] at he'
      subst he'
      exact (e3 hc).symm

theorem TextInv_run (eof : LVTextFileBase → Bool) (splitSize : Int) (f : LVTextFileBase) :
    ∀ n, TextInv f (ReadTextRun eof splitSize f n) := by
  intro n
  induction n with
  | zero => exact TextInv_init f
  | succ n ih => exact TextInv_turn eof splitSize f _ ih

/-- C1: the text events of one call of `ReadText` are byte-contiguous.  At
every stage of the loop (after any number of turns, for any `Eof` and any
reader state) the first event sent starts at the cursor position of the entry
and every event starts where the one before it ended; the same holds for the
events of a completed call. -/
theorem text_events_contiguous (eof : LVTextFileBase → Bool) (f : LVTextFileBase) (n : Nat) :
    Contiguous (ReadTextRun eof TEXT_SPLIT_SIZE f n).events ∧
    (∀ e, (ReadTextRun eof TEXT_SPLIT_SIZE f n).events.head? = some e → e.fpos = cursor f) ∧
    (∀ r, ReadText eof n f = some r →
      Contiguous r.events ∧ (∀ e, r.events.head? = some e → e.fpos = cursor f) ∧
      (∀ k (hk : k + 1 < r.events.length),
        (r.events.get ⟨k + 1, hk⟩).fpos =
          (r.events.get ⟨k, by omega⟩).fpos + (r.events.get ⟨k, by omega⟩).fsize)) := by
  obtain ⟨h1, h2, _⟩ := TextInv_run eof TEXT_SPLIT_SIZE f n
  refine ⟨h1, h2, ?_⟩
  intro r hr
  unfold ReadText at hr
  split_ifs at hr
  simp only [Option.some.injEq] at hr
  subst hr
  refine ⟨h1, h2, ?_⟩
  intro k hk
  exact (List.chain'_iff_get.1 h1) k (by simp only at hk; omega)

/-- The same loop with a split size of 4 on the text "abc def g<": three
events, at byte ranges (0,4), (4,4) and (8,1). -/
theorem text_events_small_split :
    (ReadTextRun Eof 4 (LVTextFileBase.create (codes "abc def g<")) 12).events =
      [⟨codes "abc ", 4, 0, 4, 0⟩, ⟨codes "def ", 4, 4, 4, 0⟩, ⟨codes "g", 1, 8, 1, 0⟩] ∧
    (ReadTextRun Eof 4 (LVTextFileBase.create (codes "abc def g<")) 12).done = true := by
  set_option maxRecDepth 100000 in decide

/-- A completed call on the text "hi &#38; bye</p>": one event, with the text
"hi & bye" and the byte range (0, 12); the call returns true. -/
theorem text_event_single :
    (ReadText Eof 20 (LVTextFileBase.create (codes "hi &#38; bye</p>"))).map
        (fun r => (r.ret, r.events)) =
      some (true, [⟨codes "hi & bye", 8, 0, 12, 0⟩]) := by
  set_option maxRecDepth 100000 in decide


/-! ## ReadChar: decoding -/

theorem byte_ascii : ∀ c, c < 128 → c &&& 0x80 = 0 := by decide

theorem byte_lead2 : ∀ h, h < 32 →
    (0xC0 + h) &&& 0x80 ≠ 0 ∧ (0xC0 + h) &&& 0xE0 = 0xC0 ∧ (0xC0 + h) &&& 0x1F = h := by
  decide

theorem byte_lead3 : ∀ h, h < 16 →
    (0xE0 + h) &&& 0x80 ≠ 0 ∧ (0xE0 + h) &&& 0xE0 ≠ 0xC0 ∧ (0xE0 + h) &&& 0x0F = h := by
  decide

theorem byte_cont : ∀ l, l < 64 → (0x80 + l) &&& 0x3F = l := by decide

theorem shift6_or (h l : Nat) (hl : l < 64) : (h <<< 6) ||| l = h * 64 + l := by
  rw [Nat.shiftLeft_eq]
  have := @Nat.mul_add_lt_is_or 6 l (by simpa using hl) h
  simp only [Nat.reducePow] at this ⊢
  rw [Nat.mul_comm h 64, this]

theorem shift12_or (h r : Nat) (hr : r < 4096) : (h <<< 12) ||| r = h * 4096 + r := by
  rw [Nat.shiftLeft_eq]
  have := @Nat.mul_add_lt_is_or 12 r (by simpa using hr) h
  simp only [Nat.reducePow] at this ⊢
  rw [Nat.mul_comm h 4096, this]

/-- C11: in utf8 mode with no table installed, if the window at the cursor
holds the standard UTF-8 encoding of a code point `c ≤ 0xFFFF`, `ReadChar`
returns `c` and advances `m_buf_pos` by the length of that encoding. -/
theorem utf8_decode_inverts_encode (f : LVTextFileBase) (c : Nat) (hc : c ≤ 0xFFFF)
    (henc : f.enc_type = char_encoding_type.ce_utf8) (htab : f.conv_table = none)
    (hw : windowHolds f (utf8Encode c)) :
    ReadChar f = (c, { f with buf_pos := f.buf_pos + ((utf8Encode c).length : Nat) }) := by
  unfold windowHolds at hw
  unfold ReadChar
  rw [henc, htab]
  simp only
  by_cases h1 : c < 0x80
  · have e : utf8Encode c = [c] := by unfold utf8Encode; rw [if_pos h1]
    rw [e] at hw ⊢
    have h0 := hw 0 (by simp)
    simp only [Nat.cast_zero, add_zero, List.getD_cons_zero] at h0
    rw [h0, if_pos (byte_ascii c h1)]
    simp
  · by_cases h2 : c < 0x800
    · have e : utf8Encode c = [0xC0 + c / 64, 0x80 + c % 64] := by
        unfold utf8Encode; rw [if_neg h1, if_pos h2]
      rw [e] at hw ⊢
      have h0 := hw 0 (by simp)
      have h1' := hw 1 (by simp)
      simp only [Nat.cast_zero, add_zero, List.getD_cons_zero] at h0
      simp only [Nat.cast_one, List.getD_cons_succ, List.getD_cons_zero] at h1'
      have hq : c / 64 < 32 := by omega
      have hr : c % 64 < 64 := by omega
      obtain ⟨a1, a2, a3⟩ := byte_lead2 (c / 64) hq
      rw [h0, h1', if_neg a1, if_pos a2, a3, byte_cont _ hr, shift6_or _ _ hr]
      have hcc : c / 64 * 64 + c % 64 = c := by omega
      rw [hcc]
      simp only [toChar16, List.length_cons, List.length_nil]
      congr 1
      omega
    · have e : utf8Encode c = [0xE0 + c / 4096, 0x80 + (c / 64) % 64, 0x80 + c % 64] := by
        unfold utf8Encode; rw [if_neg h1, if_neg h2]
      rw [e] at hw ⊢
      have h0 := hw 0 (by simp)
      have h1' := hw 1 (by simp)
      have h2' := hw 2 (by simp)
      simp only [Nat.cast_zero, add_zero, List.getD_cons_zero] at h0
      simp only [Nat.cast_one, List.getD_cons_succ, List.getD_cons_zero] at h1'
      simp only [Nat.cast_ofNat, List.getD_cons_succ, List.getD_cons_zero] at h2'
      have hq : c / 4096 < 16 := by omega
      have hm : c / 64 % 64 < 64 := by omega
      have hr : c % 64 < 64 := by omega
      obtain ⟨a1, a2, a3⟩ := byte_lead3 (c / 4096) hq
      rw [h0, h1', h2', if_neg a1, if_neg a2, a3, byte_cont _ hm, byte_cont _ hr,
        Nat.lor_assoc, shift6_or _ _ hr, shift12_or _ _ (by omega)]
      have hcc : c / 4096 * 4096 + (c / 64 % 64 * 64 + c % 64) = c := by omega
      rw [hcc]
      simp only [toChar16, List.length_cons, List.length_nil]
      congr 1
      omega

/-- C11 on the euro sign U+20AC, encoded E2 82 AC: `ReadChar` returns 0x20AC
and the cursor moves from 0 to 3. -/
theorem utf8_decode_inverts_encode_witness :
    ReadChar (readerOver [0xE2, 0x82, 0xAC, 0x41] char_encoding_type.ce_utf8 none) =
      (0x20AC, { readerOver [0xE2, 0x82, 0xAC, 0x41] char_encoding_type.ce_utf8 none with
                   buf_pos := 0 + ((utf8Encode 0x20AC).length : Nat) }) :=
  utf8_decode_inverts_encode (readerOver [0xE2, 0x82, 0xAC, 0x41] char_encoding_type.ce_utf8 none)
    0x20AC (by decide) rfl rfl (by unfold windowHolds; decide)

theorem byte_high : ∀ b, b < 256 → ((b < 0x80 ↔ b &&& 0x80 = 0) ∧ (0x80 ≤ b → b &&& 0x7F = b - 0x80)) := by
  set_option maxRecDepth 100000 in decide

theorem bufAt_congr (f g : LVTextFileBase) (h : f.buf = g.buf) (i : Int) : bufAt f i = bufAt g i := by
  unfold bufAt
  rw [h]

theorem ReadChar_no_table (f : LVTextFileBase)
    (henc : f.enc_type = char_encoding_type.ce_8bit_cp ∨ f.enc_type = char_encoding_type.ce_utf8)
    (ht : f.conv_table = none) (hne : ¬ bufAt f f.buf_pos &&& 0x80 = 0) :
    (ReadChar f).1 =
      (if bufAt f f.buf_pos &&& 0xE0 = 0xC0 then
        toChar16 (((bufAt f f.buf_pos &&& 0x1F) <<< 6) ||| (bufAt f (f.buf_pos + 1) &&& 0x3F))
      else
        toChar16 (((bufAt f f.buf_pos &&& 0x0F) <<< 12) |||
          ((bufAt f (f.buf_pos + 1) &&& 0x3F) <<< 6) ||| (bufAt f (f.buf_pos + 2) &&& 0x3F))) ∧
    (ReadChar f).2.buf_pos =
      f.buf_pos + (if bufAt f f.buf_pos &&& 0xE0 = 0xC0 then 2 else 3) := by
  unfold ReadChar
  rcases henc with henc | henc <;> rw [henc, ht] <;> simp only <;> rw [if_neg hne] <;>
    split_ifs <;> exact ⟨rfl, rfl⟩

/-- C12 (as amended): in codepage_8bit mode, for a byte `b` at the cursor,
`ReadChar` returns `b` and advances by 1 if `b < 0x80`; returns
`conv_table[b - 0x80]` and advances by 1 if a table is installed; and with no
table installed it treats `b ≥ 0x80` exactly as utf8 mode does: as the lead
byte of a 2-byte sequence if `(b & 0xE0) == 0xC0` (2 bytes consumed) and of a
3-byte sequence otherwise (3 bytes consumed). -/
theorem single_byte_decoding (f : LVTextFileBase)
    (henc : f.enc_type = char_encoding_type.ce_8bit_cp) (hb : bufAt f f.buf_pos < 256) :
    (bufAt f f.buf_pos < 0x80 →
      ReadChar f = (bufAt f f.buf_pos, { f with buf_pos := f.buf_pos + 1 })) ∧
    (0x80 ≤ bufAt f f.buf_pos → ∀ table, f.conv_table = some table →
      ReadChar f = (table.getD (bufAt f f.buf_pos - 0x80) 0, { f with buf_pos := f.buf_pos + 1 })) ∧
    (0x80 ≤ bufAt f f.buf_pos → f.conv_table = none →
      (ReadChar f).1 = (ReadChar { f with enc_type := char_encoding_type.ce_utf8 }).1 ∧
      (ReadChar f).2.buf_pos =
        f.buf_pos + (if bufAt f f.buf_pos &&& 0xE0 = 0xC0 then 2 else 3)) := by
  obtain ⟨hlow, hhigh⟩ := byte_high _ hb
  refine ⟨fun h => ?_, fun h table ht => ?_, fun h ht => ?_⟩
  · unfold ReadChar
    rw [henc]
    simp only
    rw [if_pos (hlow.1 h)]
  · have hne : ¬ bufAt f f.buf_pos &&& 0x80 = 0 := fun e => by
      have := hlow.2 e; omega
    unfold ReadChar
    rw [henc, ht]
    simp only
    rw [if_neg hne, hhigh h]
  · have hne : ¬ bufAt f f.buf_pos &&& 0x80 = 0 := fun e => by
      have := hlow.2 e; omega
    have hb0 : ∀ i, bufAt { f with enc_type := char_encoding_type.ce_utf8 } i = bufAt f i :=
      fun i => bufAt_congr _ _ rfl i
    have h1 := ReadChar_no_table f (Or.inl henc) ht hne
    have h2 := ReadChar_no_table { f with enc_type := char_encoding_type.ce_utf8 } (Or.inr rfl) ht
      (by rw [hb0]; exact hne)
    simp only [hb0] at h2
    exact ⟨by rw [h1.1, h2.1], h1.2⟩

/-- C12 (as amended) on the window 41 E9 with a table installed whose entry
for E9 (index 0x69) is 0x0439: the byte 41 is returned as it is, and after it
E9 is returned as 0x0439. -/
theorem single_byte_decoding_witness :
    ReadChar (readerOver [0x41, 0xE9] char_encoding_type.ce_8bit_cp
        (some ((List.replicate 0x69 0) ++ [0x0439]))) =
      (0x41, { readerOver [0x41, 0xE9] char_encoding_type.ce_8bit_cp
                 (some ((List.replicate 0x69 0) ++ [0x0439])) with buf_pos := 0 + 1 }) :=
  (single_byte_decoding (readerOver [0x41, 0xE9] char_encoding_type.ce_8bit_cp
      (some ((List.replicate 0x69 0) ++ [0x0439]))) rfl (by decide)).1 (by decide)

/-- C12 (as stated) fails: in codepage_8bit mode with no table installed, on
the window E9 41 42 `ReadChar` consumes three bytes and returns 0x9042, not
the byte 0xE9 with one byte consumed. -/
theorem single_byte_counterexample :
    (ReadChar (readerOver [0xE9, 0x41, 0x42] char_encoding_type.ce_8bit_cp none)).1 = 0x9042 ∧
    (ReadChar (readerOver [0xE9, 0x41, 0x42] char_encoding_type.ce_8bit_cp none)).2.buf_pos = 3 ∧
    (readerOver [0xE9, 0x41, 0x42] char_encoding_type.ce_8bit_cp none).buf_pos = 0 ∧
    bufAt (readerOver [0xE9, 0x41, 0x42] char_encoding_type.ce_8bit_cp none) 0 = 0xE9 := by
  decide

/-- C13: the fixed-width arms of `ReadChar` combine the bytes with the logical
`||`, so they return 0 or 1 whatever the window holds; on the UTF-16LE window
41 00 (the letter "A") `ReadChar` returns 1, not 0x41, and on the UTF-32BE
window 00 00 04 39 it returns 1, not 0x0439.  The cursor does move by two,
respectively four, bytes. -/
theorem fixed_width_returns_flag :
    (∀ f : LVTextFileBase,
      f.enc_type = char_encoding_type.ce_utf16_be ∨ f.enc_type = char_encoding_type.ce_utf16_le ∨
      f.enc_type = char_encoding_type.ce_utf32_be ∨ f.enc_type = char_encoding_type.ce_utf32_le →
      (ReadChar f).1 ≤ 1) ∧
    ReadChar (readerOver [0x41, 0x00] char_encoding_type.ce_utf16_le none) =
      (1, { readerOver [0x41, 0x00] char_encoding_type.ce_utf16_le none with buf_pos := 2 }) ∧
    ReadChar (readerOver [0x00, 0x00, 0x04, 0x39] char_encoding_type.ce_utf32_be none) =
      (1, { readerOver [0x00, 0x00, 0x04, 0x39] char_encoding_type.ce_utf32_be none with
              buf_pos := 4 }) := by
  refine ⟨?_, by decide, by decide⟩
  intro f h
  unfold ReadChar logicalOr
  rcases h with h | h | h | h <;> rw [h] <;> simp only <;> split_ifs <;> omega


/-! ## Seek: failure -/

theorem streamRead_length_le (f : LVTextFileBase) (n : Int) (hn : 0 ≤ n) :
    ((streamRead f n).length : Int) ≤ n := by
  unfold streamRead
  rw [List.length_take]
  omega

theorem WindowInv_create (stream : List Nat) : WindowInv (LVTextFileBase.create stream) := by
  unfold WindowInv LVTextFileBase.create
  simp

theorem WindowInv_Reset (f : LVTextFileBase) (h : WindowInv f) : WindowInv (Reset f) := by
  unfold WindowInv Reset at *
  simp only
  omega

theorem FillBuffer_eq (f : LVTextFileBase) (n : Int) :
    FillBuffer f n =
      if f.stream_size - (f.buf_fpos + f.buf_len) ≤ 0 then (false, f)
      else
        (decide (0 < (streamRead (fillPrepare f (fillCount f n)) (fillCount f n)).length),
          { fillPrepare f (fillCount f n) with
              buf := writeAt (fillPrepare f (fillCount f n)).buf (fillPrepare f (fillCount f n)).buf_len
                (streamRead (fillPrepare f (fillCount f n)) (fillCount f n)),
              buf_len := (fillPrepare f (fillCount f n)).buf_len +
                (streamRead (fillPrepare f (fillCount f n)) (fillCount f n)).length,
              stream_pos := (fillPrepare f (fillCount f n)).stream_pos +
                (streamRead (fillPrepare f (fillCount f n)) (fillCount f n)).length }) := by
  rfl

/-- What the compaction step does to the fields. -/
theorem fillCompact_fields (f : LVTextFileBase) (m : Int) :
    (fillCompact f m).stream = f.stream ∧ (fillCompact f m).stream_pos = f.stream_pos ∧
    (fillCompact f m).stream_size = f.stream_size ∧ (fillCompact f m).buf_size = f.buf_size ∧
    (fillCompact f m).enc_type = f.enc_type ∧ (fillCompact f m).conv_table = f.conv_table ∧
    (fillCompact f m).buf_fpos + (fillCompact f m).buf_pos = f.buf_fpos + f.buf_pos ∧
    (fillCompact f m).buf_fpos + (fillCompact f m).buf_len = f.buf_fpos + f.buf_len ∧
    ((fillCompact f m).buf_pos = f.buf_pos ∨ (fillCompact f m).buf_pos = 0) := by
  unfold fillCompact
  split_ifs
  · refine ⟨rfl, rfl, rfl, rfl, rfl, rfl, ?_, ?_, Or.inr rfl⟩ <;> simp only <;> omega
  · exact ⟨rfl, rfl, rfl, rfl, rfl, rfl, rfl, rfl, Or.inl rfl⟩

theorem fillGrow_fields (f : LVTextFileBase) (m : Int) :
    (fillGrow f m).stream = f.stream ∧ (fillGrow f m).stream_pos = f.stream_pos ∧
    (fillGrow f m).stream_size = f.stream_size ∧ (fillGrow f m).buf = f.buf ∧
    (fillGrow f m).enc_type = f.enc_type ∧ (fillGrow f m).conv_table = f.conv_table ∧
    (fillGrow f m).buf_fpos = f.buf_fpos ∧ (fillGrow f m).buf_pos = f.buf_pos ∧
    (fillGrow f m).buf_len = f.buf_len ∧ f.buf_size ≤ (fillGrow f m).buf_size ∧
    f.buf_len + m ≤ (fillGrow f m).buf_size := by
  unfold fillGrow BUF_SIZE_INCREMENT
  split_ifs
  · refine ⟨rfl, rfl, rfl, rfl, rfl, rfl, rfl, rfl, rfl, ?_, ?_⟩ <;> simp only <;> omega
  · refine ⟨rfl, rfl, rfl, rfl, rfl, rfl, rfl, rfl, rfl, ?_, ?_⟩ <;> omega

/-- What the preparation of `FillBuffer` does to the fields. -/
theorem fillPrepare_fields (f : LVTextFileBase) (m : Int) :
    (fillPrepare f m).stream = f.stream ∧ (fillPrepare f m).stream_pos = f.stream_pos ∧
    (fillPrepare f m).stream_size = f.stream_size ∧
    (fillPrepare f m).enc_type = f.enc_type ∧ (fillPrepare f m).conv_table = f.conv_table ∧
    (fillPrepare f m).buf_fpos + (fillPrepare f m).buf_pos = f.buf_fpos + f.buf_pos ∧
    (fillPrepare f m).buf_fpos + (fillPrepare f m).buf_len = f.buf_fpos + f.buf_len ∧
    ((fillPrepare f m).buf_pos = f.buf_pos ∨ (fillPrepare f m).buf_pos = 0) ∧
    f.buf_size ≤ (fillPrepare f m).buf_size ∧
    (fillPrepare f m).buf_len + m ≤ (fillPrepare f m).buf_size := by
  unfold fillPrepare
  split_ifs with h
  · obtain ⟨c1, c2, c3, c4, c5, c6, c7, c8, c9⟩ := fillCompact_fields f m
    obtain ⟨g1, g2, g3, g4, g5, g6, g7, g8, g9, g10, g11⟩ := fillGrow_fields (fillCompact f m) m
    refine ⟨by rw [g1, c1], by rw [g2, c2], by rw [g3, c3], by rw [g5, c5], by rw [g6, c6],
      by rw [g7, g8, c7], by rw [g7, g9, c8], by rw [g8]; exact c9, by omega, by rw [g9]; exact g11⟩
  · exact ⟨rfl, rfl, rfl, rfl, rfl, rfl, rfl, Or.inl rfl, le_refl _, by omega⟩

theorem fillCount_le (f : LVTextFileBase) (n : Int) :
    fillCount f n ≤ f.stream_size - (f.buf_fpos + f.buf_len) ∧ fillCount f n ≤ n := by
  unfold fillCount
  split_ifs <;> omega

theorem WindowInv_FillBuffer (f : LVTextFileBase) (n : Int) (h : WindowInv f) :
    WindowInv (FillBuffer f n).2 := by
  rw [FillBuffer_eq]
  by_cases h0 : f.stream_size - (f.buf_fpos + f.buf_len) ≤ 0
  · rw [if_pos h0]; exact h
  rw [if_neg h0]
  unfold WindowInv at *
  obtain ⟨p1, p2, p3, p4, p5, p6, p7, p8, p9, p10⟩ := fillPrepare_fields f (fillCount f n)
  have hc := fillCount_le f n
  have hl : ((streamRead (fillPrepare f (fillCount f n)) (fillCount f n)).length : Int)
      ≤ max (fillCount f n) 0 := by
    unfold streamRead
    rw [List.length_take]
    omega
  simp only
  rw [p3]
  omega

theorem ReadChar_fields (f : LVTextFileBase) :
    (ReadChar f).2 = { f with buf_pos := (ReadChar f).2.buf_pos } ∧
    (ReadChar f).2.buf_pos ≤ f.buf_pos + 4 := by
  unfold ReadChar
  simp only
  repeat' split
  all_goals (constructor <;> first | rfl | (simp only; omega))

theorem WindowInv_Seek (f : LVTextFileBase) (pos k : Int) (h : WindowInv f) (hk : 0 ≤ k) :
    ((inWindow f pos k ∨ (Seek f pos k).1 = false) → WindowInv (Seek f pos k).2) ∧
    0 ≤ (Seek f pos k).2.buf_pos ∧ (Seek f pos k).2.buf_pos ≤ (Seek f pos k).2.buf_len ∧
    (Seek f pos k).2.buf_len ≤ (Seek f pos k).2.buf_size := by
  unfold WindowInv inWindow at *
  unfold Seek BUF_SIZE_INCREMENT
  by_cases h1 : pos ≥ f.buf_fpos ∧ pos + k ≤ f.buf_fpos + f.buf_len
  · rw [if_pos h1]
    simp only
    refine ⟨fun _ => ?_, ?_, ?_, ?_⟩ <;> omega
  · rw [if_neg h1]
    by_cases h2 : pos < 0 ∨ pos ≥ f.stream_size
    · rw [if_pos h2]
      exact ⟨fun _ => h, h.1, h.2.1, h.2.2.1⟩
    · rw [if_neg h2]
      simp only
      refine ⟨fun hc => ?_, le_refl _, ?_, le_refl _⟩
      · rcases hc with hc | hc
        · exact absurd hc h1
        · simp at hc
      · split_ifs <;> omega

theorem getD_set (l : List Nat) (n m a : Nat) :
    (l.set n a).getD m 0 = if n = m ∧ n < l.length then a else l.getD m 0 := by
  simp only [List.getD_eq_getElem?_getD, List.getElem?_set]
  by_cases h : n = m
  · subst h
    by_cases h2 : n < l.length
    · simp [h2]
    · simp [h2, List.getElem?_eq_none (by omega : l.length ≤ n)]
  · simp [h]

theorem getD_beyond (l : List Nat) (i : Nat) (h : l.length ≤ i) : l.getD i 0 = 0 := by
  simp [List.getD_eq_getElem?_getD, List.getElem?_eq_none h]

theorem moveDown_fold (buf : List Nat) (p : Nat) :
    ∀ k, ((List.range k).foldl (fun b i => b.set i (b.getD (i + p) 0)) buf).length = buf.length ∧
      ∀ i, ((List.range k).foldl (fun b i => b.set i (b.getD (i + p) 0)) buf).getD i 0 =
        if i < k then buf.getD (i + p) 0 else buf.getD i 0 := by
  intro k
  induction k with
  | zero => simp
  | succ k ih =>
    obtain ⟨ihl, ihg⟩ := ih
    rw [List.range_succ, List.foldl_append]
    simp only [List.foldl_cons, List.foldl_nil]
    refine ⟨by rw [List.length_set, ihl], ?_⟩
    intro i
    rw [getD_set, ihg, ihg, ihl]
    have hkp : ¬ (k + p < k) := by omega
    rw [if_neg hkp]
    by_cases hik : k = i
    · subst hik
      by_cases hl : k < buf.length
      · simp [hl]
      · have h1 : buf.getD k 0 = 0 := getD_beyond _ _ (by omega)
        have h2 : buf.getD (k + p) 0 = 0 := getD_beyond _ _ (by omega)
        rw [if_neg (fun h => hl h.2), if_neg (by omega), if_pos (by omega), h1, h2]
    · have hne : ¬ (k = i ∧ k < buf.length) := fun h => hik h.1
      rw [if_neg hne]
      by_cases hi : i < k
      · rw [if_pos hi, if_pos (by omega)]
      · rw [if_neg hi, if_neg (by omega)]

/-- The copy loop of the compaction moves the cells `pos .. pos+sz-1` down to
`0 .. sz-1` and leaves the other cells alone. -/
theorem moveDown_getD (buf : List Nat) (pos sz : Int) (i : Nat) :
    (moveDown buf pos sz).getD i 0 =
      if (i : Int) < sz then buf.getD (i + pos.toNat) 0 else buf.getD i 0 := by
  unfold moveDown
  rw [(moveDown_fold buf pos.toNat sz.toNat).2 i]
  by_cases h : (i : Int) < sz
  · rw [if_pos h, if_pos (by omega)]
  · rw [if_neg h, if_neg (by omega)]

/-- The cells after storing `data` at offset `off`. -/
theorem writeAt_getD (buf data : List Nat) (off : Int) (i : Nat) :
    (writeAt buf off data).getD i 0 =
      if i < off.toNat then buf.getD i 0
      else if i < off.toNat + data.length then data.getD (i - off.toNat) 0
      else buf.getD i 0 := by
  unfold writeAt
  generalize off.toNat = o
  simp only [List.getD_eq_getElem?_getD, List.getElem?_append, List.getElem?_take,
    List.getElem?_replicate, List.getElem?_drop, List.length_append, List.length_take,
    List.length_replicate]
  have hlen : min o buf.length + (o - buf.length) = o := by omega
  rw [hlen]
  by_cases h1 : i < o
  · by_cases h2 : i < min o buf.length
    · have h4 : i < o + data.length := by omega
      simp only [h1, h2, h4, if_true]
    · have hn : buf[i]? = none := List.getElem?_eq_none (by omega)
      have h3 : i - min o buf.length < o - buf.length := by omega
      have h4 : i < o + data.length := by omega
      simp only [h1, h2, h3, h4, hn, if_true, if_false, Option.getD_some, Option.getD_none]
  · by_cases h2 : i < o + data.length
    · simp only [h1, h2, if_true, if_false]
    · have h3 : o + data.length + (i - (o + data.length)) = i := by omega
      simp only [h1, h2, h3, if_true, if_false]

theorem streamRead_getD (f : LVTextFileBase) (n : Int) (i : Nat)
    (hi : i < (streamRead f n).length) :
    (streamRead f n).getD i 0 = f.stream.getD (f.stream_pos.toNat + i) 0 := by
  unfold streamRead at hi ⊢
  rw [List.length_take] at hi
  simp only [List.getD_eq_getElem?_getD, List.getElem?_take, List.getElem?_drop]
  rw [if_pos (by omega)]

theorem streamRead_length (f : LVTextFileBase) (n : Int) :
    (streamRead f n).length = min n.toNat (f.stream.length - f.stream_pos.toNat) := by
  unfold streamRead
  rw [List.length_take, List.length_drop]


/-! ## `FillBuffer`: frame and effect -/

theorem bufAt_nonneg (f : LVTextFileBase) (i : Int) (h : 0 ≤ i) :
    bufAt f i = f.buf.getD i.toNat 0 := by
  unfold bufAt
  rw [if_neg (by omega)]

/-- The compaction keeps every window byte from the cursor on at its absolute
offset. -/
theorem fillCompact_buf (f : LVTextFileBase) (m : Int) (h0 : 0 ≤ f.buf_pos) (a : Int)
    (h1 : f.buf_fpos + f.buf_pos ≤ a) (h2 : a < f.buf_fpos + f.buf_len) :
    bufAt (fillCompact f m) (a - (fillCompact f m).buf_fpos) = bufAt f (a - f.buf_fpos) := by
  unfold fillCompact
  split_ifs
  · rw [bufAt_nonneg _ _ (by simp only; omega), bufAt_nonneg _ _ (by omega)]
    simp only
    rw [moveDown_getD, if_pos (by omega)]
    congr 1
    omega
  · rfl

theorem fillPrepare_buf (f : LVTextFileBase) (m : Int) (h0 : 0 ≤ f.buf_pos) (a : Int)
    (h1 : f.buf_fpos + f.buf_pos ≤ a) (h2 : a < f.buf_fpos + f.buf_len) :
    bufAt (fillPrepare f m) (a - (fillPrepare f m).buf_fpos) = bufAt f (a - f.buf_fpos) := by
  unfold fillPrepare
  split_ifs
  · obtain ⟨g1, g2, g3, g4, g5, g6, g7, g8, g9, g10, g11⟩ := fillGrow_fields (fillCompact f m) m
    rw [g7, bufAt_congr _ (fillCompact f m) g4]
    exact fillCompact_buf f m h0 a h1 h2
  · rfl

/-- C17: on a reader that satisfies the window invariant, whose stream is
positioned at `buf_fpos + buf_len`, `FillBuffer( n )` with `n > 0` leaves the
absolute cursor unchanged, keeps every window byte from the cursor on at the
same absolute offset (the window start moves to the old start or to the
cursor), appends the next `min n bytesleft` bytes of the stream after them,
ends with `buf_len ≤ buf_size` and the stream again positioned at the window
end, and returns true exactly when a byte was appended; when no bytes remain
it returns false and leaves the reader unchanged. -/
theorem fill_buffer_frame (f : LVTextFileBase) (n : Int)
    (hinv : WindowInv f) (hpos : f.stream_pos = f.buf_fpos + f.buf_len)
    (hsize : f.stream_size = f.stream.length) (hf : 0 ≤ f.buf_fpos) (hn : 0 < n) :
    cursor (FillBuffer f n).2 = cursor f ∧
    ((FillBuffer f n).2.buf_fpos = f.buf_fpos ∨ (FillBuffer f n).2.buf_fpos = cursor f) ∧
    (∀ a : Int, cursor f ≤ a → a < f.buf_fpos + f.buf_len →
      bufAt (FillBuffer f n).2 (a - (FillBuffer f n).2.buf_fpos) = bufAt f (a - f.buf_fpos)) ∧
    (FillBuffer f n).2.buf_fpos + (FillBuffer f n).2.buf_len =
      f.buf_fpos + f.buf_len + min n (f.stream_size - (f.buf_fpos + f.buf_len)) ∧
    (∀ a : Int, f.buf_fpos + f.buf_len ≤ a →
      a < f.buf_fpos + f.buf_len + min n (f.stream_size - (f.buf_fpos + f.buf_len)) →
      bufAt (FillBuffer f n).2 (a - (FillBuffer f n).2.buf_fpos) = f.stream.getD a.toNat 0) ∧
    (FillBuffer f n).2.buf_len ≤ (FillBuffer f n).2.buf_size ∧
    (FillBuffer f n).2.stream_pos = (FillBuffer f n).2.buf_fpos + (FillBuffer f n).2.buf_len ∧
    ((FillBuffer f n).1 = true ↔ 0 < min n (f.stream_size - (f.buf_fpos + f.buf_len))) ∧
    (f.stream_size - (f.buf_fpos + f.buf_len) = 0 → FillBuffer f n = (false, f)) := by
  obtain ⟨i1, i2, i3, i4⟩ := hinv
  rw [FillBuffer_eq]
  by_cases h0 : f.stream_size - (f.buf_fpos + f.buf_len) ≤ 0
  · rw [if_pos h0]
    have hm : min n (f.stream_size - (f.buf_fpos + f.buf_len)) = 0 := by omega
    rw [hm]
    refine ⟨rfl, Or.inl rfl, fun _ _ _ => rfl, by simp, fun a h1 h2 => by omega, i3, hpos,
      by simp, fun _ => rfl⟩
  rw [if_neg h0]
  have hm : fillCount f n = min n (f.stream_size - (f.buf_fpos + f.buf_len)) := by
    unfold fillCount
    split_ifs <;> omega
  rw [← hm]
  have hc := fillCount_le f n
  have hc0 : 0 < fillCount f n := by rw [hm]; omega
  generalize fillCount f n = m at *
  obtain ⟨p1, p2, p3, p4, p5, p6, p7, p8, p9, p10⟩ := fillPrepare_fields f m
  have hbuf := fillPrepare_buf f m i1
  have hlen : ((streamRead (fillPrepare f m) m).length : Int) = m := by
    rw [streamRead_length, p1, p2]
    omega
  have hdata := streamRead_getD (fillPrepare f m) m
  generalize fillPrepare f m = p at *
  generalize hd : streamRead p m = data at *
  unfold cursor
  simp only
  refine ⟨p6, by omega, ?_, by omega, ?_, by omega, by omega, ?_, fun h => by omega⟩
  · intro a h1 h2
    rw [← hbuf a h1 h2, bufAt_nonneg _ _ (by omega), bufAt_nonneg _ _ (by omega)]
    simp only
    rw [writeAt_getD, if_pos (by omega)]
  · intro a h1 h2
    rw [bufAt_nonneg _ _ (by omega)]
    simp only
    rw [writeAt_getD, if_neg (by omega), if_pos (by omega), hdata _ (by omega), p1, p2]
    congr 1
    omega
  · simp only [decide_eq_true_eq]
    omega

set_option maxRecDepth 100000 in
theorem fill_buffer_frame_witness :
    WindowInv (ReadChar (FillBuffer (LVTextFileBase.create [0x41, 0x42, 0x43]) 2).2).2 ∧
    (FillBuffer (ReadChar (FillBuffer (LVTextFileBase.create [0x41, 0x42, 0x43]) 2).2).2 5).1
      = true ∧
    (FillBuffer (ReadChar (FillBuffer (LVTextFileBase.create [0x41, 0x42, 0x43]) 2).2).2 5).2.buf_len
      = 3 :=
  ⟨by decide,
   ((fill_buffer_frame (ReadChar (FillBuffer (LVTextFileBase.create [0x41, 0x42, 0x43]) 2).2).2 5
      (by decide) (by decide) (by decide) (by decide) (by decide)).2.2.2.2.2.2.2.1).2 (by decide),
   by decide⟩


/-! ## `Seek` followed by `ReadChar` -/

theorem Seek_eq (f : LVTextFileBase) (pos k : Int) :
    Seek f pos k =
      if pos ≥ f.buf_fpos ∧ pos + k ≤ f.buf_fpos + f.buf_len then
        (true, { f with buf_pos := pos - f.buf_fpos })
      else if pos < 0 ∨ pos ≥ f.stream_size then (false, f)
      else
        (true, { f with
          buf_size := if f.buf_size < seekCount f pos k then seekCount f pos k else f.buf_size,
          buf_fpos := pos,
          buf_pos := 0,
          buf_len := if f.buf_size < seekCount f pos k then seekCount f pos k else f.buf_size,
          buf := writeAt f.buf 0 (streamRead { f with stream_pos := pos } (seekCount f pos k)),
          stream_pos := pos +
            (streamRead { f with stream_pos := pos } (seekCount f pos k)).length }) := by
  rfl

theorem seekCount_bounds (f : LVTextFileBase) (pos k : Int) :
    seekCount f pos k ≤ f.stream_size - pos ∧
    (seekCount f pos k = f.stream_size - pos ∨
      (k ≤ seekCount f pos k ∧ f.buf_size ≤ seekCount f pos k ∧ 4096 ≤ seekCount f pos k)) := by
  unfold seekCount BUF_SIZE_INCREMENT
  simp only
  split_ifs <;> omega

theorem ReadChar_window (f g : LVTextFileBase) (he : g.enc_type = f.enc_type)
    (ht : g.conv_table = f.conv_table)
    (h : ∀ i : Nat, (i : Int) < readWidth f →
      bufAt g (g.buf_pos + (i : Nat)) = bufAt f (f.buf_pos + (i : Nat))) :
    (ReadChar g).1 = (ReadChar f).1 := by
  have hadv := (ReadChar_advances f).1
  have h0 := h 0 (by unfold readWidth; omega)
  have h1 := h 1
  have h2 := h 2
  have h3 := h 3
  simp only [Nat.cast_zero, Nat.cast_one, Nat.cast_ofNat, add_zero] at h0 h1 h2 h3
  clear h hadv
  unfold readWidth at h1 h2 h3
  unfold ReadChar at h1 h2 h3 ⊢
  rw [he, ht, h0]
  simp only at h1 h2 h3 ⊢
  rcases hf : f.enc_type <;> simp only [hf] at h1 h2 h3 ⊢
  case ce_utf16_be => rw [h1 (by omega)]
  case ce_utf16_le => rw [h1 (by omega)]
  case ce_utf32_be => rw [h2 (by omega), h3 (by omega)]
  case ce_utf32_le => rw [h1 (by omega)]
  all_goals
    by_cases c1 : bufAt f f.buf_pos &&& 128 = 0
    · simp only [c1, if_true]
    · simp only [c1, if_false] at h1 h2 h3 ⊢
      rcases htab : f.conv_table with _ | table
      · simp only [htab] at h1 h2 h3 ⊢
        by_cases c2 : bufAt f f.buf_pos &&& 224 = 192
        · simp only [c2, if_true] at h1 ⊢
          rw [h1 (by omega)]
        · simp only [c2, if_false] at h1 h2 ⊢
          rw [h1 (by omega), h2 (by omega)]
      · simp only [htab]

theorem Valid_fresh (stream : List Nat) (enc : char_encoding_type) (table : Option (List Nat)) :
    Valid { LVTextFileBase.create stream with enc_type := enc, conv_table := table } := by
  unfold Valid
  refine ⟨rfl, le_refl _, le_refl _, Or.inl ?_, ?_⟩
  · simp [LVTextFileBase.create]
  · intro a h1 h2
    simp only [LVTextFileBase.create] at h1 h2
    omega

/-- What a `Seek` that covers a character of `w` bytes at `pos` does to the
fields. -/
theorem Seek_fields (f : LVTextFileBase) (pos k w : Int) (hp : 0 ≤ pos) (h1 : 1 ≤ w)
    (hw : w ≤ k) (hend : pos + w ≤ f.stream_size) :
    (Seek f pos k).1 = true ∧ (Seek f pos k).2.stream = f.stream ∧
    (Seek f pos k).2.stream_size = f.stream_size ∧
    (Seek f pos k).2.enc_type = f.enc_type ∧ (Seek f pos k).2.conv_table = f.conv_table ∧
    (Seek f pos k).2.buf_fpos + (Seek f pos k).2.buf_pos = pos ∧
    0 ≤ (Seek f pos k).2.buf_pos ∧
    pos + w ≤ (Seek f pos k).2.buf_fpos + (Seek f pos k).2.buf_len := by
  rw [Seek_eq]
  by_cases c1 : pos ≥ f.buf_fpos ∧ pos + k ≤ f.buf_fpos + f.buf_len
  · rw [if_pos c1]
    refine ⟨rfl, rfl, rfl, rfl, rfl, ?_, ?_, ?_⟩ <;> simp only <;> omega
  · rw [if_neg c1, if_neg (by omega)]
    have hb := seekCount_bounds f pos k
    refine ⟨rfl, rfl, rfl, rfl, rfl, ?_, ?_, ?_⟩ <;> simp only <;> (try split_ifs) <;> omega

theorem Valid_Seek (f : LVTextFileBase) (pos k : Int) (hv : Valid f) : Valid (Seek f pos k).2 := by
  rw [Seek_eq]
  by_cases c1 : pos ≥ f.buf_fpos ∧ pos + k ≤ f.buf_fpos + f.buf_len
  · rw [if_pos c1]
    obtain ⟨v1, v2, v3, v4, v5⟩ := hv
    exact ⟨v1, v2, by simp only; omega, v4, v5⟩
  rw [if_neg c1]
  by_cases c2 : pos < 0 ∨ pos ≥ f.stream_size
  · rw [if_pos c2]
    exact hv
  rw [if_neg c2]
  obtain ⟨v1, v2, v3, v4, v5⟩ := hv
  have hb := seekCount_bounds f pos k
  have hlen : ((streamRead { f with stream_pos := pos } (seekCount f pos k)).length : Int)
      = seekCount f pos k := by
    rw [streamRead_length]
    simp only
    omega
  have hdata := streamRead_getD { f with stream_pos := pos } (seekCount f pos k)
  generalize seekCount f pos k = c at *
  generalize streamRead { f with stream_pos := pos } c = data at *
  unfold Valid
  simp only at hdata ⊢
  refine ⟨v1, by omega, le_refl _, ?_, ?_⟩
  · split_ifs <;> omega
  · intro a h1 h2 h3
    rw [bufAt_nonneg _ _ (by omega)]
    simp only
    have h4 : (a - pos).toNat < data.length := by
      split_ifs at h2 <;> omega
    rw [writeAt_getD, if_neg (by simp), if_pos (by simp only [Int.toNat_zero]; omega)]
    simp only [Int.toNat_zero, Nat.sub_zero]
    rw [hdata _ h4]
    congr 1
    omega

theorem fillCompact_buf_from (f : LVTextFileBase) (m : Int) (h0 : 0 ≤ f.buf_pos) (a : Int)
    (h1 : (fillCompact f m).buf_fpos ≤ a) (h2 : a < f.buf_fpos + f.buf_len) :
    bufAt (fillCompact f m) (a - (fillCompact f m).buf_fpos) = bufAt f (a - f.buf_fpos) := by
  unfold fillCompact at h1 ⊢
  split_ifs at h1 ⊢
  · simp only at h1
    rw [bufAt_nonneg _ _ (by simp only; omega), bufAt_nonneg _ _ (by omega)]
    simp only
    rw [moveDown_getD, if_pos (by omega)]
    congr 1
    omega
  · rfl

theorem fillPrepare_buf_from (f : LVTextFileBase) (m : Int) (h0 : 0 ≤ f.buf_pos) (a : Int)
    (h1 : (fillPrepare f m).buf_fpos ≤ a) (h2 : a < f.buf_fpos + f.buf_len) :
    bufAt (fillPrepare f m) (a - (fillPrepare f m).buf_fpos) = bufAt f (a - f.buf_fpos) := by
  unfold fillPrepare at h1 ⊢
  split_ifs at h1 ⊢
  · obtain ⟨g1, g2, g3, g4, g5, g6, g7, g8, g9, g10, g11⟩ := fillGrow_fields (fillCompact f m) m
    rw [g7] at h1
    rw [g7, bufAt_congr _ (fillCompact f m) g4]
    exact fillCompact_buf_from f m h0 a h1 h2
  · rfl

theorem Valid_FillBuffer (f : LVTextFileBase) (n : Int) (hv : Valid f)
    (hg : f.buf_pos ≤ f.buf_len) : Valid (FillBuffer f n).2 := by
  rw [FillBuffer_eq]
  by_cases h0 : f.stream_size - (f.buf_fpos + f.buf_len) ≤ 0
  · rw [if_pos h0]
    exact hv
  rw [if_neg h0]
  obtain ⟨v1, v2, v3, v4, v5⟩ := hv
  generalize fillCount f n = m at *
  obtain ⟨p1, p2, p3, p4, p5, p6, p7, p8, p9, p10⟩ := fillPrepare_fields f m
  have hbuf := fillPrepare_buf_from f m v3
  have hlen := streamRead_length (fillPrepare f m) m
  have hdata := streamRead_getD (fillPrepare f m) m
  rw [p1, p2] at hlen hdata
  generalize fillPrepare f m = p at *
  generalize streamRead p m = data at *
  unfold Valid
  simp only
  refine ⟨by rw [p3, p1]; exact v1, by omega, by omega, Or.inl (by omega), ?_⟩
  intro a h1 h2 h3
  rw [p3] at h3
  rw [p1, bufAt_nonneg _ _ (by omega)]
  simp only
  rw [writeAt_getD]
  by_cases c : a < f.buf_fpos + f.buf_len
  · rw [if_pos (by omega), ← v5 a (by omega) c h3, ← hbuf a h1 c, bufAt_nonneg _ _ (by omega)]
  · rw [if_neg (by omega), if_pos (by omega), hdata _ (by omega)]
    congr 1
    omega

theorem Valid_ReadChar (f : LVTextFileBase) (hv : Valid f) : Valid (ReadChar f).2 := by
  have h := ReadChar_fields f
  have ha := ReadChar_advances f
  rw [h.1]
  obtain ⟨v1, v2, v3, v4, v5⟩ := hv
  exact ⟨v1, v2, by simp only; omega, v4, v5⟩

theorem Valid_of_Reachable (f : LVTextFileBase) (hr : Reachable f) : Valid f := by
  induction hr with
  | fresh stream enc table => exact Valid_fresh stream enc table
  | seek f pos k _ ih => exact Valid_Seek f pos k ih
  | fill f n _ hg ih => exact Valid_FillBuffer f n ih hg
  | read f _ ih => exact Valid_ReadChar f ih

/-- After a `Seek` that covers a character of `w` bytes inside the stream, the
cells from the cursor on hold the bytes of the stream at `pos`. -/
theorem Seek_covers (f : LVTextFileBase) (hv : Valid f) (pos k w : Int) (hp : 0 ≤ pos)
    (h1 : 1 ≤ w) (hw : w ≤ k) (hend : pos + w ≤ f.stream_size) (i : Nat) (hi : (i : Int) < w) :
    bufAt (Seek f pos k).2 ((Seek f pos k).2.buf_pos + (i : Nat)) =
      f.stream.getD (pos.toNat + i) 0 := by
  obtain ⟨s1, s2, s3, s4, s5, s6, s7, s8⟩ := Seek_fields f pos k w hp h1 hw hend
  obtain ⟨v1, v2, v3, v4, v5⟩ := Valid_Seek f pos k hv
  have h := v5 (pos + i) (by omega) (by omega) (by omega)
  rw [s2] at h
  have e1 : (Seek f pos k).2.buf_pos + (i : Nat) = pos + i - (Seek f pos k).2.buf_fpos := by omega
  have e2 : pos.toNat + i = (pos + i).toNat := by omega
  rw [e1, e2]
  exact h

/-- C15 (as amended): for every reader state reachable from a fresh reader by
`Seek`, `ReadChar` and (with the cursor inside the window) `FillBuffer`
calls, and every position `pos ≥ 0`: if the prefetch `k` covers the bytes
the character at `pos` takes and these bytes lie inside the stream, then
`Seek( pos, k )` succeeds and the following `ReadChar` returns the code point
a fresh reader over the same stream returns after `Seek( pos, k )`. -/
theorem seek_then_read_char (f : LVTextFileBase) (hr : Reachable f) (pos k : Int) (hp : 0 ≤ pos)
    (hw : readWidth (Seek (freshReader f) pos k).2 ≤ k)
    (hend : pos + readWidth (Seek (freshReader f) pos k).2 ≤ f.stream_size) :
    (Seek f pos k).1 = true ∧
    (ReadChar (Seek f pos k).2).1 = (ReadChar (Seek (freshReader f) pos k).2).1 := by
  have hv := Valid_of_Reachable f hr
  have hvf : Valid (freshReader f) := Valid_fresh f.stream f.enc_type f.conv_table
  have h1 : 1 ≤ readWidth (Seek (freshReader f) pos k).2 := by
    have := (ReadChar_advances (Seek (freshReader f) pos k).2).1
    unfold readWidth
    omega
  have hsz : (freshReader f).stream_size = f.stream_size := hv.1.symm
  generalize hwd : readWidth (Seek (freshReader f) pos k).2 = w at *
  obtain ⟨s1, s2, s3, s4, s5, s6, s7, s8⟩ := Seek_fields f pos k w hp h1 hw hend
  obtain ⟨t1, t2, t3, t4, t5, t6, t7, t8⟩ :=
    Seek_fields (freshReader f) pos k w hp h1 hw (by rw [hsz]; exact hend)
  refine ⟨s1, ?_⟩
  apply ReadChar_window
  · rw [s4, t4]; rfl
  · rw [s5, t5]; rfl
  · intro i hi
    rw [hwd] at hi
    rw [Seek_covers f hv pos k w hp h1 hw hend i hi,
      Seek_covers (freshReader f) hvf pos k w hp h1 hw (by rw [hsz]; exact hend) i hi]
    rfl

set_option maxRecDepth 100000 in
theorem seek_then_read_char_witness :
    (ReadChar (Seek (ReadChar (FillBuffer
        { LVTextFileBase.create [0x41, 0xC3, 0xA9, 0x42] with
            enc_type := char_encoding_type.ce_utf8 } 2).2).2 1 2).2).1 = 0xE9 :=
  ((seek_then_read_char _
    (Reachable.read _ (Reachable.fill _ 2
      (Reachable.fresh [0x41, 0xC3, 0xA9, 0x42] char_encoding_type.ce_utf8 none) (by decide)))
    1 2 (by decide) (by decide) (by decide)).2).trans (by decide)

/-- C15, counterexample: over a stream of 4096 letters `A` followed by the
two bytes `C3 A9` of U+00E9, read as UTF-8, the calls `Seek( 0, 1 )`,
`Seek( 4000, 0 )`, `FillBuffer( 1 )` leave a window that ends after the lead
byte `C3`, with a stale `A` in the next cell.  `Seek( 4096, 1 )` is then
served from the window and `ReadChar` returns U+00C1, whereas a fresh reader
returns U+00E9 after the same `Seek`. -/
theorem seek_idempotence_counterexample :
    (Seek (FillBuffer (Seek (Seek { LVTextFileBase.create longStream with
        enc_type := char_encoding_type.ce_utf8 } 0 1).2 4000 0).2 1).2 4096 1).1 = true ∧
    (ReadChar (Seek (FillBuffer (Seek (Seek { LVTextFileBase.create longStream with
        enc_type := char_encoding_type.ce_utf8 } 0 1).2 4000 0).2 1).2 4096 1).2).1 = 0xC1 ∧
    (ReadChar (Seek { LVTextFileBase.create longStream with
        enc_type := char_encoding_type.ce_utf8 } 4096 1).2).1 = 0xE9 := by
  decide!

/-! ## Format detection (`detectFormatFlags`) -/

theorem detectStatsLoop_empty (lines : List LVTextFileLine) :
    ∀ (i : Int) (v : DetectVars),
      (detectStatsLoop lines i v).empty_lines = v.empty_lines + emptyCount lines := by
  induction lines with
  | nil => intro i v; simp [detectStatsLoop, emptyCount]
  | cons line rest ih =>
    intro i v
    rw [detectStatsLoop, ih]
    unfold detectStatsBody emptyCount
    by_cases h : line.lpos = line.rpos
    · rw [if_pos h, List.countP_cons_of_pos _ _ (by simpa using h)]
      simp only [Nat.cast_add, Nat.cast_one]
      omega
    · rw [if_neg h, List.countP_cons_of_neg _ _ (by simpa using h)]

theorem detectStatsLoop_avg_right (lines : List LVTextFileLine) :
    ∀ (i : Int) (v : DetectVars),
      (detectStatsLoop lines i v).avg_right = v.avg_right + rposSum lines := by
  induction lines with
  | nil => intro i v; simp [detectStatsLoop, rposSum]
  | cons line rest ih =>
    intro i v
    rw [detectStatsLoop, ih]
    unfold detectStatsBody rposSum
    by_cases h : line.lpos = line.rpos
    · rw [if_pos h, List.filter_cons_of_neg (by simpa using h)]
    · rw [if_neg h, List.filter_cons_of_pos (by simpa using h)]
      simp only [List.map_cons, List.sum_cons]
      omega

theorem emptyCount_le (lines : List LVTextFileLine) : emptyCount lines ≤ lines.length :=
  List.countP_le_length _

/-- The flags `detectFormatFlags` leaves, by the way it returns. -/
theorem detectFormatFlags_flags (q : LVTextLineQueue) :
    (q.lines.length < 10 → (detectFormatFlags q).formatFlags = defaultFormatFlags) ∧
    (10 ≤ q.lines.length → (q.lines.length : Int) - emptyCount q.lines < 10 →
      (detectFormatFlags q).formatFlags = 0) ∧
    (10 ≤ (q.lines.length : Int) - emptyCount q.lines →
      80 ≤ Int.tdiv (rposSum q.lines) q.lines.length → (detectFormatFlags q).formatFlags = 0) ∧
    (10 ≤ (q.lines.length : Int) - emptyCount q.lines →
      Int.tdiv (rposSum q.lines) q.lines.length < 80 → (detectFormatFlags q).formatFlags ≠ 0) := by
  have he := detectStatsLoop_empty q.lines 0
    { empty_lines := 0, min_left := -1, max_right := -1, avg_left := 0, avg_right := 0 }
  have ha := detectStatsLoop_avg_right q.lines 0
    { empty_lines := 0, min_left := -1, max_right := -1, avg_left := 0, avg_right := 0 }
  have hle := emptyCount_le q.lines
  simp only [zero_add] at he ha
  unfold detectFormatFlags LVTextLineQueue.length
  simp only
  rw [he, ha]
  refine ⟨?_, ?_, ?_, ?_⟩
  · intro h
    rw [if_pos (by omega)]
    rfl
  · intro h1 h2
    rw [if_neg (by omega), if_pos h2]
  · intro h1 h2
    rw [if_neg (by omega), if_neg (by omega), if_pos h2]
  · intro h1 h2
    rw [if_neg (by omega), if_neg (by omega), if_neg (by omega)]
    split_ifs with c1 c2 c3 c4 <;> simp_all [tftParaPerLine, tftEmptyLineDelimHeaders]

/-- C18: `detectFormatFlags` sets `formatFlags = 0` after the test
`length()<10` and before it computes the statistics, and both early returns
leave it so.  For every window of at least 10 lines with fewer than 10
non-empty lines, and for every window with at least 10 non-empty lines and
`avg_right ≥ 80`, the flags after detection are 0, not the default
`ParaPerLine | EmptyLineDelimHeaders` = 17; only a window of fewer than 10
lines keeps the default.  Ten empty lines, and ten lines of 100 letters, give
the flags 0. -/
theorem detect_flags_zero_on_early_return :
    defaultFormatFlags = 17 ∧
    (∀ q : LVTextLineQueue, q.lines.length < 10 →
      (detectFormatFlags q).formatFlags = defaultFormatFlags) ∧
    (∀ q : LVTextLineQueue, 10 ≤ q.lines.length →
      (q.lines.length : Int) - emptyCount q.lines < 10 → (detectFormatFlags q).formatFlags = 0) ∧
    (∀ q : LVTextLineQueue, 10 ≤ (q.lines.length : Int) - emptyCount q.lines →
      80 ≤ Int.tdiv (rposSum q.lines) q.lines.length → (detectFormatFlags q).formatFlags = 0) ∧
    (detectFormatFlags (queueOf (blankWindow 10) 0)).formatFlags = 0 ∧
    (detectFormatFlags (queueOf (List.replicate 10 (lineOfText 0 (List.replicate 100 120))) 0)).avg_right
      = 100 ∧
    (detectFormatFlags (queueOf (List.replicate 10 (lineOfText 0 (List.replicate 100 120))) 0)).formatFlags
      = 0 := by
  refine ⟨by decide, fun q => (detectFormatFlags_flags q).1, fun q => (detectFormatFlags_flags q).2.1,
    fun q => (detectFormatFlags_flags q).2.2.1, ?_, ?_, ?_⟩
  · set_option maxRecDepth 100000 in decide
  · set_option maxRecDepth 100000 in decide
  · set_option maxRecDepth 100000 in decide

/-! ## Paragraph emission (`AddPara`, `DoEmptyLineParaImport`) -/

theorem emptyLineScan_stops (q : LVTextLineQueue) (pos : Int) (fuel : Nat) (i : Int) :
    emptyLineScan q pos fuel i = i := by
  cases fuel with
  | zero => rfl
  | succ n =>
    unfold emptyLineScan
    split_ifs with h1 h2
    · rfl
    · exact absurd rfl h2
    · rfl

/-- One turn of the loop of `DoEmptyLineParaImport` on a queue that needs no
refill: the paragraph is the single line `pos`. -/
theorem DoEmptyLineParaImportLoop_turn (eof : LVTextFileBase → Bool) (trim : List Nat → List Nat)
    (lower : Nat → Nat) (fuel : Nat) (s : ImportVars)
    (h1 : MAX_PARA_LINES < s.q.length - s.pos) :
    DoEmptyLineParaImportLoop eof trim lower (fuel + 1) s =
      DoEmptyLineParaImportLoop eof trim lower fuel
        { q := (AddPara trim lower s.q s.pos s.pos).2, pos := s.pos + 1,
          events := s.events ++ (AddPara trim lower s.q s.pos s.pos).1 } := by
  have hr : refillQueue eof s.q s.pos = some (s.q, s.pos) := by
    unfold refillQueue
    rw [if_neg (by omega)]
  rw [DoEmptyLineParaImportLoop, hr]
  simp only [emptyLineScan_stops, ite_self]
  unfold MAX_PARA_LINES at h1
  rw [if_neg (by omega)]

/-- C19: the inner loop of `DoEmptyLineParaImport` tests
`item->lpos==item->lpos`, which is always true, so it stops at once: every
paragraph is the single line `pos`, whatever the lines hold.  On two blocks
of ten non-empty lines separated by one blank line, in empty-line-delimited
mode, the import sends 20 `p` elements (the first two inside `title`) and no
`empty-line`, not two `p` elements. -/
theorem empty_line_paragraphs_are_single_lines :
    (∀ (q : LVTextLineQueue) (pos : Int) (fuel : Nat) (i : Int),
      emptyLineScan q pos fuel i = i) ∧
    (∀ (eof : LVTextFileBase → Bool) (trim : List Nat → List Nat) (lower : Nat → Nat)
      (fuel : Nat) (s : ImportVars), MAX_PARA_LINES < s.q.length - s.pos →
      DoEmptyLineParaImportLoop eof trim lower (fuel + 1) s =
        DoEmptyLineParaImportLoop eof trim lower fuel
          { q := (AddPara trim lower s.q s.pos s.pos).2, pos := s.pos + 1,
            events := s.events ++ (AddPara trim lower s.q s.pos s.pos).1 }) ∧
    (twoBlocks.map (fun l => decide (l.lpos = l.rpos))) =
      List.replicate 10 false ++ [true] ++ List.replicate 10 false ∧
    (DoEmptyLineParaImport Eof trimDoubleSpaces lowerChar 22
        (queueOf twoBlocks tftEmptyLineDelimPara)).map
      (fun r => (countOpen "p" r.1, countOpen "title" r.1, countOpen "empty-line" r.1,
                 r.1.length, r.2.lines.length)) = some (20, 2, 0, 64, 0) := by
  refine ⟨emptyLineScan_stops, DoEmptyLineParaImportLoop_turn, ?_, ?_⟩
  · set_option maxRecDepth 100000 in decide
  · decide!

theorem take_succ_drop (lines : List LVTextFileLine) (s n : Nat) (h : s + n < lines.length) :
    (lines.drop s).take (n + 1) = (lines.drop s).take n ++ [lines.getD (s + n) default] := by
  rw [List.take_succ, List.getElem?_drop, List.getD_eq_getElem?_getD,
    List.getElem?_eq_getElem h]
  rfl

/-- The loop of `AddPara` over the lines `startline .. startline + n`: the
joined text, the start of the first line, and the size up to the end of the
last line. -/
theorem AddParaLoop_fold (q : LVTextLineQueue) (startline : Int) (hs : 0 ≤ startline) (n : Nat)
    (hn : startline + n < q.length) :
    (((List.range (n + 1)).map (fun (j : Nat) => startline + (j : Int))).foldl
        (AddParaBody q startline) { str := [], pos := 0, sz := 0 }).str =
      paraJoin ((q.lines.drop startline.toNat).take (n + 1)) ∧
    (((List.range (n + 1)).map (fun (j : Nat) => startline + (j : Int))).foldl
        (AddParaBody q startline) { str := [], pos := 0, sz := 0 }).pos = (q.get startline).fpos ∧
    (((List.range (n + 1)).map (fun (j : Nat) => startline + (j : Int))).foldl
        (AddParaBody q startline) { str := [], pos := 0, sz := 0 }).sz =
      (q.get (startline + n)).fpos + (q.get (startline + n)).fsize - (q.get startline).fpos := by
  unfold LVTextLineQueue.length at hn
  induction n with
  | zero =>
    have h0 : (0 : Nat) + startline.toNat < q.lines.length := by omega
    have ht := take_succ_drop q.lines startline.toNat 0 (by omega)
    simp only [zero_add, List.take_zero, List.nil_append, Nat.add_zero] at ht
    have hr : List.range (0 + 1) = [0] := rfl
    rw [hr]
    simp only [zero_add, List.map_cons, List.map_nil, List.foldl_cons,
      List.foldl_nil, Nat.cast_zero, add_zero, AddParaBody, if_true, List.nil_append, ht,
      paraJoin, List.flatMap_singleton, LVTextLineQueue.get]
    exact ⟨trivial, trivial, trivial⟩
  | succ n ih =>
    obtain ⟨i1, i2, i3⟩ := ih (by push_cast at hn ⊢; omega)
    rw [List.range_succ, List.map_append, List.foldl_append]
    simp only [List.map_cons, List.map_nil, List.foldl_cons, List.foldl_nil]
    generalize ((List.range (n + 1)).map (fun (j : Nat) => startline + (j : Int))).foldl
        (AddParaBody q startline) { str := [], pos := 0, sz := 0 } = r at *
    have hne : ¬ (startline + ((n + 1 : Nat) : Int) = startline) := by push_cast; omega
    have ht := take_succ_drop q.lines startline.toNat (n + 1) (by push_cast at hn; omega)
    have hidx : (startline + ((n + 1 : Nat) : Int)).toNat = startline.toNat + (n + 1) := by
      push_cast; omega
    unfold AddParaBody
    simp only [if_neg hne]
    refine ⟨?_, i2, ?_⟩
    · rw [i1, ht, paraJoin, paraJoin, List.flatMap_append, List.flatMap_singleton]
      unfold LVTextLineQueue.get
      rw [hidx]
    · rw [i2]

theorem AddParaLoop_eq (q : LVTextLineQueue) (startline endline : Int) (h0 : 0 ≤ startline)
    (h1 : startline ≤ endline) (h2 : endline < q.length) :
    (AddParaLoop q startline endline).str = paraJoin (paraLines q startline endline) ∧
    (AddParaLoop q startline endline).pos = (q.get startline).fpos ∧
    (AddParaLoop q startline endline).sz =
      (q.get endline).fpos + (q.get endline).fsize - (q.get startline).fpos := by
  have hn : (endline + 1 - startline).toNat = (endline - startline).toNat + 1 := by omega
  have he : startline + ((endline - startline).toNat : Int) = endline := by omega
  have h := AddParaLoop_fold q startline h0 (endline - startline).toNat (by rw [he]; exact h2)
  unfold AddParaLoop paraLines
  rw [hn]
  rw [he] at h
  exact h

/-- C20: for a line range `startline ≤ endline` inside the queue, with `s` the
result of `trim` (the whitespace normalisation `trimDoubleSpaces`) on the
texts of the lines, each followed by U+000A.  If `s` is not empty, `AddPara`
sends tag-open `p`, one text event carrying `s` with the byte range from the
`fpos` of the first line to the end of the last line (flags `TRIM |
TRIM_REMOVE_EOL_HYPHENS`), tag-close `p`, wrapped in `title` open/close
exactly when `length s < 4`, or `paraCount < 2` and `length s < 50`, or
`DetectHeadingLevelByText s > 0`, and `paraCount` grows by 1.  If `s` is
empty, it sends one `empty-line` open/close exactly when
`EmptyLineDelimPara` is not set, nothing otherwise, and the queue is
unchanged. -/
theorem add_para_events (trim : List Nat → List Nat) (lower : Nat → Nat) (q : LVTextLineQueue)
    (startline endline : Int) (h0 : 0 ≤ startline) (h1 : startline ≤ endline)
    (h2 : endline < q.length) :
    (trim (paraJoin (paraLines q startline endline)) ≠ [] →
      AddPara trim lower q startline endline =
        (paraEvents
          (decide ((trim (paraJoin (paraLines q startline endline))).length < 4 ∨
            (q.paraCount < 2 ∧ (trim (paraJoin (paraLines q startline endline))).length < 50) ∨
            0 < DetectHeadingLevelByText lower (trim (paraJoin (paraLines q startline endline)))))
          (trim (paraJoin (paraLines q startline endline)))
          (q.get startline).fpos
          ((q.get endline).fpos + (q.get endline).fsize - (q.get startline).fpos),
         { q with paraCount := q.paraCount + 1 })) ∧
    (trim (paraJoin (paraLines q startline endline)) = [] →
      AddPara trim lower q startline endline =
        (if q.formatFlags &&& tftEmptyLineDelimPara = 0 then
           [Event.tagOpen none (codes "empty-line"), Event.tagClose none (codes "empty-line")]
         else [],
         q)) := by
  obtain ⟨e1, e2, e3⟩ := AddParaLoop_eq q startline endline h0 h1 h2
  unfold AddPara
  simp only [e1, e2, e3]
  generalize trim (paraJoin (paraLines q startline endline)) = s
  constructor
  · intro hs
    rw [if_pos hs]
    have hh : (if DetectHeadingLevelByText lower s > 0 then true
        else (decide (s.length < 4) || (decide (q.paraCount < 2) && decide (s.length < 50)))) =
        decide (s.length < 4 ∨ (q.paraCount < 2 ∧ s.length < 50) ∨
          0 < DetectHeadingLevelByText lower s) := by
      by_cases c : DetectHeadingLevelByText lower s > 0
      · simp [c]
      · have c2 : ¬ 0 < DetectHeadingLevelByText lower s := c
        simp [c, c2]
    rw [hh]
    rfl
  · intro hs
    rw [if_neg (by simp [hs])]

set_option maxRecDepth 100000 in
theorem add_para_events_witness :
    AddPara trimDoubleSpaces lowerChar (queueOf twoBlocks 0) 0 2 =
      (paraEvents true (codes "aaaa aaaa aaaa") 0 15,
       { queueOf twoBlocks 0 with paraCount := 1 }) :=
  ((add_para_events trimDoubleSpaces lowerChar (queueOf twoBlocks 0) 0 2
      (by decide) (by decide) (by decide)).1 (by decide)).trans (by decide)

/-! ## Pre-processor: unrecognised references -/

/-- A character that is not a blank, not '&', not '#' and not ';'. -/
theorem ppList_ref_error (pre a : Bool) (v : PPVars) (c : Nat) (rest : List Nat)
    (hv : v.state = 1 ∨ v.state = 2) (hc : plainChar c = true) (h35 : v.state = 1 → c ≠ 35)
    (h59 : c ≠ 59) (hd : v.state = 2 → (c < 48 ∨ 57 < c)) :
    ppList pre a v (c :: rest) = ppList pre false ⟨0, v.nch, c, v.nsp⟩ rest := by
  rw [ppList]
  simp only [plainChar, isBlank, Bool.and_eq_true, Bool.not_eq_true', Bool.or_eq_false_iff,
    beq_eq_false_iff_ne, bne_iff_ne, ne_eq] at hc
  obtain ⟨⟨⟨⟨h32, h13⟩, h10⟩, h9⟩, h38⟩ := hc
  rcases hv with hv | hv
  · have := h35 hv
    simp [ppChar, hv, h32, h13, h10, h9, h38, h59, this]
  · have := hd hv
    have hnd : ¬ (48 ≤ c ∧ c ≤ 57) := by omega
    simp [ppChar, hv, h32, h13, h10, h9, h38, h59, hnd]

theorem plain_append (x y : List Nat) (hx : ∀ c ∈ x, plainChar c = true)
    (hy : ∀ c ∈ y, plainChar c = true) : ∀ c ∈ x ++ y, plainChar c = true := by
  intro c hc
  rcases List.mem_append.mp hc with h | h
  · exact hx c h
  · exact hy c h

/-- C29 (as amended): of an unrecognised reference only its start is dropped.
For words `x`, `name`, `y` (no blank, no '&') and a character `c` that is not
a blank, '&', '#' or ';': on `x & c name ; y` the pre-processor drops `&` and
`c` and copies the rest, `x name ; y`; and on `x & # c name ; y` with `c` not
a digit (the `x` of a hexadecimal reference) it drops `&`, `#` and `c` and
copies the rest. -/
theorem unrecognised_reference_tail_is_kept (x name y : List Nat) (c flags : Nat)
    (hx : ∀ d ∈ x, plainChar d = true) (hname : ∀ d ∈ name, plainChar d = true)
    (hy : ∀ d ∈ y, plainChar d = true) (hc : plainChar c = true) (h35 : c ≠ 35) (h59 : c ≠ 59) :
    preProcessed (x ++ [38, c] ++ name ++ [59] ++ y) flags = x ++ name ++ [59] ++ y ∧
    ((c < 48 ∨ 57 < c) →
      preProcessed (x ++ [38, 35, c] ++ name ++ [59] ++ y) flags = x ++ name ++ [59] ++ y) := by
  have htail : ∀ d ∈ name ++ [59] ++ y, plainChar d = true :=
    plain_append _ _ (plain_append _ _ hname (by intro d hd; simp at hd; subst hd; decide)) hy
  constructor
  · rw [preProcessed_eq_ppList]
    obtain ⟨a', v', hs, _, _, _, h⟩ := ppList_word (decide (flags &&& TXTFLG_PRE ≠ 0))
      ([38, c] ++ (name ++ [59] ++ y)) x hx true PPVars.init rfl
    have e : x ++ [38, c] ++ name ++ [59] ++ y = x ++ ([38, c] ++ (name ++ [59] ++ y)) := by
      simp
    rw [e, h]
    simp only [List.cons_append, List.nil_append]
    rw [ppList_amp, ppList_ref_error _ _ _ c _ (Or.inl rfl) hc (fun _ => h35) h59
      (fun h => by simp at h)]
    rw [ppList_word_end _ _ _ _ (by simpa using htail) rfl]
    simp
  · intro hnd
    rw [preProcessed_eq_ppList]
    obtain ⟨a', v', hs, _, _, _, h⟩ := ppList_word (decide (flags &&& TXTFLG_PRE ≠ 0))
      ([38, 35, c] ++ (name ++ [59] ++ y)) x hx true PPVars.init rfl
    have e : x ++ [38, 35, c] ++ name ++ [59] ++ y =
        x ++ ([38, 35, c] ++ (name ++ [59] ++ y)) := by simp
    rw [e, h]
    simp only [List.cons_append, List.nil_append]
    rw [ppList_amp, ppList_hash _ _ _ _ rfl, ppList_ref_error _ _ _ c _ (Or.inr rfl) hc
      (fun h => by simp at h) h59 (fun _ => hnd)]
    rw [ppList_word_end _ _ _ _ (by simpa using htail) rfl]
    simp

/-- C29 (as amended) on "a&amp;b": the result is "amp;b". -/
theorem unrecognised_reference_tail_is_kept_witness :
    preProcessed (codes "a&amp;b") 0 = codes "amp;b" :=
  (unrecognised_reference_tail_is_kept (codes "a") (codes "mp") (codes "b") 97 0
    (by decide) (by decide) (by decide) (by decide) (by decide) (by decide)).1

/-- C29 (as stated) fails: "a&amp;b" gives "amp;b", not "ab"; the hexadecimal
reference in "a&#x41;b" leaves "41;" behind; and the same texts without the
references give "ab". -/
theorem reference_not_dropped_counterexample :
    preProcessed (codes "a&amp;b") 0 = codes "amp;b" ∧
    preProcessed (codes "a&#x41;b") 0 = codes "a41;b" ∧
    preProcessed (codes "ab") 0 = codes "ab" := by
  decide

/-! ## Format detection: statistics and percentages -/

theorem detectStatsLoop_avg_left (lines : List LVTextFileLine) :
    ∀ (i : Int) (v : DetectVars),
      (detectStatsLoop lines i v).avg_left = v.avg_left + lposSum lines := by
  induction lines with
  | nil => intro i v; simp [detectStatsLoop, lposSum]
  | cons line rest ih =>
    intro i v
    rw [detectStatsLoop, ih]
    unfold detectStatsBody lposSum
    by_cases h : line.lpos = line.rpos
    · rw [if_pos h, List.filter_cons_of_neg (by simpa using h)]
    · rw [if_neg h, List.filter_cons_of_pos (by simpa using h)]
      simp only [List.map_cons, List.sum_cons]
      omega

/-- Behind line 0 the first loop of `detectFormatFlags` never replaces a
`min_left` of -1: `line->lpos<min_left` compares an unsigned column with -1. -/
theorem detectStatsLoop_min_left_stuck (lines : List LVTextFileLine) :
    ∀ (i : Int) (v : DetectVars), 1 ≤ i → v.min_left = -1 →
      (detectStatsLoop lines i v).min_left = -1 := by
  induction lines with
  | nil => intro i v _ hv; exact hv
  | cons line rest ih =>
    intro i v hi hv
    rw [detectStatsLoop]
    apply ih (i + 1) _ (by omega)
    unfold detectStatsBody
    by_cases h1 : line.lpos = line.rpos
    · rw [if_pos h1]
      exact hv
    · rw [if_neg h1]
      simp only
      have h0 : (0 : Int) ≤ (line.lpos : Int) := Int.natCast_nonneg _
      rw [if_neg (by omega)]
      exact hv

theorem detectIdentLoop_fold (lines : List LVTextFileLine) (m : Int) :
    ∀ n : Int, lines.foldl (fun n line => if (line.lpos : Int) > m then n + 1 else n) n =
      n + identCount lines m := by
  induction lines with
  | nil => intro n; simp [identCount]
  | cons line rest ih =>
    intro n
    rw [List.foldl_cons, ih]
    unfold identCount
    by_cases h : (line.lpos : Int) > m
    · rw [if_pos h, List.countP_cons_of_pos _ _ (by simpa using h)]
      push_cast
      omega
    · rw [if_neg h, List.countP_cons_of_neg _ _ (by simpa using h)]

theorem detectIdentLoop_eq (lines : List LVTextFileLine) (m : Int) :
    detectIdentLoop lines m = identCount lines m := by
  unfold detectIdentLoop
  rw [detectIdentLoop_fold]
  simp

/-- The statistics `detectFormatFlags` leaves in a window with at least ten
non-empty lines. -/
theorem detectFormatFlags_stats (q : LVTextLineQueue)
    (h10 : 10 ≤ (q.lines.length : Int) - emptyCount q.lines) :
    (detectFormatFlags q).avg_left = Int.tdiv (lposSum q.lines) q.lines.length ∧
    (detectFormatFlags q).avg_right = Int.tdiv (rposSum q.lines) q.lines.length ∧
    (detectFormatFlags q).min_left =
      (detectStatsLoop q.lines 0
        { empty_lines := 0, min_left := -1, max_right := -1, avg_left := 0, avg_right := 0 }).min_left := by
  have he := detectStatsLoop_empty q.lines 0
    { empty_lines := 0, min_left := -1, max_right := -1, avg_left := 0, avg_right := 0 }
  have ha := detectStatsLoop_avg_right q.lines 0
    { empty_lines := 0, min_left := -1, max_right := -1, avg_left := 0, avg_right := 0 }
  have hl := detectStatsLoop_avg_left q.lines 0
    { empty_lines := 0, min_left := -1, max_right := -1, avg_left := 0, avg_right := 0 }
  have hle := emptyCount_le q.lines
  simp only [zero_add] at he ha hl
  unfold detectFormatFlags LVTextLineQueue.length
  simp only
  rw [he, ha, hl, if_neg (by omega), if_neg (by omega)]
  split_ifs <;> exact ⟨rfl, rfl, rfl⟩

theorem detectFormatFlags_min_left_first_empty (q : LVTextLineQueue) (l0 : LVTextFileLine)
    (rest : List LVTextFileLine) (hq : q.lines = l0 :: rest) (h0 : l0.lpos = l0.rpos)
    (h10 : 10 ≤ q.lines.length) : (detectFormatFlags q).min_left = -1 := by
  have hs : (detectStatsLoop q.lines 0
      { empty_lines := 0, min_left := -1, max_right := -1, avg_left := 0, avg_right := 0 }).min_left
      = -1 := by
    rw [hq, detectStatsLoop]
    apply detectStatsLoop_min_left_stuck rest _ _ (by omega)
    unfold detectStatsBody
    rw [if_pos h0]
  unfold detectFormatFlags LVTextLineQueue.length
  simp only
  rw [if_neg (by omega)]
  split_ifs <;> exact hs

/-- C26: the statistics of `detectFormatFlags` are not the ones the claim
defines.  When the first line of a window of at least ten lines is empty,
`min_left` stays -1 (the test `i==0 || line->lpos<min_left` can then never
succeed), whatever the non-empty lines hold; and with at least ten non-empty
lines `avg_left` and `avg_right` are the sums over the non-empty lines
divided by `length()`, the number of all lines.  On one empty line followed
by ten lines with `lpos = 2`, `rpos = 12` the code leaves `min_left = -1`,
`avg_left = 1`, `avg_right = 10`, where the minimum is 2 and the means over
the ten non-empty lines are 2 and 12; `max_right` is 12. -/
theorem detect_stats_first_line_and_mean :
    (∀ (q : LVTextLineQueue) (l0 : LVTextFileLine) (rest : List LVTextFileLine),
      q.lines = l0 :: rest → l0.lpos = l0.rpos → 10 ≤ q.lines.length →
      (detectFormatFlags q).min_left = -1) ∧
    (∀ q : LVTextLineQueue, 10 ≤ (q.lines.length : Int) - emptyCount q.lines →
      (detectFormatFlags q).avg_left = Int.tdiv (lposSum q.lines) q.lines.length ∧
      (detectFormatFlags q).avg_right = Int.tdiv (rposSum q.lines) q.lines.length) ∧
    minLpos (lineAt 0 0 :: List.replicate 10 (lineAt 2 12)) = some 2 ∧
    maxRpos (lineAt 0 0 :: List.replicate 10 (lineAt 2 12)) = some 12 ∧
    lposSum (lineAt 0 0 :: List.replicate 10 (lineAt 2 12)) = 2 * 10 ∧
    rposSum (lineAt 0 0 :: List.replicate 10 (lineAt 2 12)) = 12 * 10 ∧
    (detectFormatFlags (queueOf (lineAt 0 0 :: List.replicate 10 (lineAt 2 12)) 0)).min_left = -1 ∧
    (detectFormatFlags (queueOf (lineAt 0 0 :: List.replicate 10 (lineAt 2 12)) 0)).max_right = 12 ∧
    (detectFormatFlags (queueOf (lineAt 0 0 :: List.replicate 10 (lineAt 2 12)) 0)).avg_left = 1 ∧
    (detectFormatFlags (queueOf (lineAt 0 0 :: List.replicate 10 (lineAt 2 12)) 0)).avg_right = 10 := by
  refine ⟨detectFormatFlags_min_left_first_empty,
    fun q h => ⟨(detectFormatFlags_stats q h).1, (detectFormatFlags_stats q h).2.1⟩,
    ?_, ?_, ?_, ?_, ?_, ?_, ?_, ?_⟩
  all_goals set_option maxRecDepth 100000 in decide

theorem tdiv_gt_five (a b : Int) (ha : 0 ≤ a) (hb : 0 < b) :
    Int.tdiv (a * 100) b > 5 ↔ 6 * b ≤ 100 * a := by
  rw [Int.tdiv_eq_ediv (by omega) (by omega)]
  have h := Int.le_ediv_iff_mul_le (a := 6) (b := a * 100) hb
  constructor
  · intro h1
    have := h.mp (by omega)
    omega
  · intro h1
    have := h.mpr (by omega)
    omega

/-- The flags `detectFormatFlags` sets when it reaches the percentages. -/
theorem detectFormatFlags_percent (q : LVTextLineQueue)
    (h10 : 10 ≤ (q.lines.length : Int) - emptyCount q.lines)
    (h80 : Int.tdiv (rposSum q.lines) q.lines.length < 80) :
    ((detectFormatFlags q).formatFlags &&& tftEmptyLineDelimPara ≠ 0 ↔
      6 * q.lines.length ≤ 100 * emptyCount q.lines) ∧
    ((detectFormatFlags q).formatFlags &&& tftParaIdents ≠ 0 ↔
      6 * q.lines.length ≤ 100 * identCount q.lines (detectFormatFlags q).min_left) := by
  have hm := (detectFormatFlags_stats q h10).2.2
  rw [hm]
  have he := detectStatsLoop_empty q.lines 0
    { empty_lines := 0, min_left := -1, max_right := -1, avg_left := 0, avg_right := 0 }
  have ha := detectStatsLoop_avg_right q.lines 0
    { empty_lines := 0, min_left := -1, max_right := -1, avg_left := 0, avg_right := 0 }
  have hle := emptyCount_le q.lines
  simp only [zero_add] at he ha
  generalize hmin : (detectStatsLoop q.lines 0
    { empty_lines := 0, min_left := -1, max_right := -1, avg_left := 0, avg_right := 0 }).min_left
    = m at *
  have hlen : (0 : Int) < (q.lines.length : Int) := by omega
  have e1 := tdiv_gt_five (emptyCount q.lines) q.lines.length (Int.natCast_nonneg _) hlen
  have e2 := tdiv_gt_five (identCount q.lines m) q.lines.length (Int.natCast_nonneg _) hlen
  unfold detectFormatFlags LVTextLineQueue.length
  simp only
  rw [he, ha, hmin, detectIdentLoop_eq, if_neg (by omega), if_neg (by omega), if_neg (by omega)]
  have n1 : (6 * q.lines.length ≤ 100 * emptyCount q.lines) ↔
      (6 * (q.lines.length : Int) ≤ 100 * (emptyCount q.lines : Int)) := by
    constructor <;> intro h <;> omega
  have n2 : (6 * q.lines.length ≤ 100 * identCount q.lines m) ↔
      (6 * (q.lines.length : Int) ≤ 100 * (identCount q.lines m : Int)) := by
    constructor <;> intro h <;> omega
  rw [n1, n2, ← e1, ← e2]
  by_cases c1 : Int.tdiv ((emptyCount q.lines : Int) * 100) q.lines.length > 5 <;>
    by_cases c2 : Int.tdiv ((identCount q.lines m : Int) * 100) q.lines.length > 5 <;>
    simp [c1, c2, tftEmptyLineDelimPara, tftParaIdents, tftParaPerLine, tftEmptyLineDelimHeaders] <;>
    decide

/-- C27 (as amended): for every window with at least 10 non-empty lines and
`avg_right < 80` (the sum of `rpos` divided by `length()`),
`detectFormatFlags` sets `EmptyLineDelimPara` if and only if the integer
percentage `empty_lines * 100 / length()` exceeds 5, that is if and only if
`100 * empty_lines ≥ 6 * length()`; and it sets `ParaIdents` if and only if
`100 * ident_lines ≥ 6 * length()`, where `ident_lines` counts all lines of
the window with `lpos > min_left` and the divisor is the number of all
lines. -/
theorem format_flags_by_integer_percent (q : LVTextLineQueue)
    (h10 : 10 ≤ (q.lines.length : Int) - emptyCount q.lines)
    (h80 : Int.tdiv (rposSum q.lines) q.lines.length < 80) :
    ((detectFormatFlags q).formatFlags &&& tftEmptyLineDelimPara ≠ 0 ↔
      6 * q.lines.length ≤ 100 * emptyCount q.lines) ∧
    ((detectFormatFlags q).formatFlags &&& tftParaIdents ≠ 0 ↔
      6 * q.lines.length ≤ 100 * identCount q.lines (detectFormatFlags q).min_left) :=
  detectFormatFlags_percent q h10 h80

set_option maxRecDepth 100000 in
theorem format_flags_by_integer_percent_witness :
    (detectFormatFlags (queueOf (List.replicate 10 (lineAt 0 4) ++ [lineAt 0 0]) 0)).formatFlags
      &&& tftEmptyLineDelimPara ≠ 0 :=
  ((format_flags_by_integer_percent (queueOf (List.replicate 10 (lineAt 0 4) ++ [lineAt 0 0]) 0)
    (by decide) (by decide)).1).mpr (by decide)

/-- C27 (as stated) fails.  A window of 189 non-empty lines and 11 empty
lines has more than 5/100 empty lines, but `11 * 100 / 200 = 5` is not
greater than 5: `EmptyLineDelimPara` is not set and the flags are the
default 17.  In a window of ten non-empty lines, one of them indented,
followed by ten empty lines, one tenth of the non-empty lines is indented,
but `1 * 100 / 20 = 5`: `ParaIdents` is not set and the flags are
`EmptyLineDelimPara` alone. -/
theorem format_percent_counterexample :
    (detectFormatFlags (queueOf (List.replicate 189 (lineAt 0 4) ++ blankWindow 11) 0)).formatFlags
      = 17 ∧
    emptyCount (List.replicate 189 (lineAt 0 4) ++ blankWindow 11) = 11 ∧
    (List.replicate 189 (lineAt 0 4) ++ blankWindow 11).length = 200 ∧
    (detectFormatFlags
      (queueOf (List.replicate 9 (lineAt 0 4) ++ [lineAt 2 6] ++ blankWindow 10) 0)).formatFlags
      = tftEmptyLineDelimPara ∧
    (detectFormatFlags
      (queueOf (List.replicate 9 (lineAt 0 4) ++ [lineAt 2 6] ++ blankWindow 10) 0)).min_left = 0 ∧
    identCount (List.replicate 9 (lineAt 0 4) ++ [lineAt 2 6] ++ blankWindow 10) 0 = 1 := by
  decide!

/-! ## Paragraph import by indentation (`DoIdentParaImport`) -/

/-- The inner loop of `DoIdentParaImport`, started at `i` with enough turns:
it stops at the first indented line, at the end of the queue or at
`pos + MAX_PARA_LINES`, and passes unindented lines only. -/
theorem identScan_spec (q : LVTextLineQueue) (pos : Int) :
    ∀ (fuel : Nat) (i : Int), (pos + MAX_PARA_LINES - i).toNat < fuel →
      i ≤ identScan q pos fuel i ∧
      (identScan q pos fuel i = i ∨
        (identScan q pos fuel i ≤ q.length ∧ identScan q pos fuel i ≤ pos + MAX_PARA_LINES)) ∧
      (∀ j, i ≤ j → j < identScan q pos fuel i → ¬ ((q.get j).lpos : Int) > q.min_left) ∧
      (q.length ≤ identScan q pos fuel i ∨ pos + MAX_PARA_LINES ≤ identScan q pos fuel i ∨
        ((q.get (identScan q pos fuel i)).lpos : Int) > q.min_left) := by
  intro fuel
  induction fuel with
  | zero => intro i h; omega
  | succ n ih =>
    intro i h
    rw [identScan]
    by_cases c1 : i < q.length ∧ i < pos + MAX_PARA_LINES
    · rw [if_pos c1]
      by_cases c2 : ((q.get i).lpos : Int) > q.min_left
      · rw [if_pos c2]
        exact ⟨le_refl _, Or.inl rfl, fun j h1 h2 => by omega, Or.inr (Or.inr c2)⟩
      · rw [if_neg c2]
        obtain ⟨r1, r2, r3, r4⟩ := ih (i + 1) (by omega)
        refine ⟨by omega, Or.inr ?_, ?_, r4⟩
        · rcases r2 with r2 | r2
          · rw [r2]; omega
          · exact r2
        · intro j h1 h2
          by_cases e : j = i
          · rw [e]; exact c2
          · exact r3 j (by omega) h2
    · rw [if_neg c1]
      refine ⟨le_refl _, Or.inl rfl, fun j h1 h2 => by omega, ?_⟩
      by_cases c3 : i < q.length
      · exact Or.inr (Or.inl (by omega))
      · exact Or.inl (by omega)

theorem AddPara_lines (trim : List Nat → List Nat) (lower : Nat → Nat) (q : LVTextLineQueue)
    (a b : Int) :
    (AddPara trim lower q a b).2.lines = q.lines ∧
    (AddPara trim lower q a b).2.first_line_index = q.first_line_index ∧
    (AddPara trim lower q a b).2.min_left = q.min_left := by
  unfold AddPara
  simp only
  split_ifs <;> exact ⟨rfl, rfl, rfl⟩

theorem ReadLinesLoop_lines (eof : LVTextFileBase → Bool) :
    ∀ (n : Nat) (i : Int) (q : LVTextLineQueue) (r : Bool × LVTextLineQueue),
      ReadLinesLoop eof n i q = some r →
      (∃ more, r.2.lines = q.lines ++ more) ∧ r.2.first_line_index = q.first_line_index ∧
      r.2.min_left = q.min_left := by
  intro n
  induction n with
  | zero =>
    intro i q r h
    simp only [ReadLinesLoop, Option.some.injEq] at h
    subst h
    exact ⟨⟨[], by simp⟩, rfl, rfl⟩
  | succ n ih =>
    intro i q r h
    rw [ReadLinesLoop] at h
    by_cases c : eof q.file = true ∧ i = 0
    · rw [if_pos c] at h
      simp only [Option.some.injEq] at h
      subst h
      exact ⟨⟨[], by simp⟩, rfl, rfl⟩
    · rw [if_neg c] at h
      cases hc : LVTextFileLine.create eof q.file q.maxLineSize with
      | none => rw [hc] at h; simp at h
      | some p =>
        obtain ⟨line, file⟩ := p
        rw [hc] at h
        simp only at h
        obtain ⟨⟨more, hm⟩, h2, h3⟩ := ih _ _ _ h
        exact ⟨⟨[line] ++ more, by rw [hm]; simp⟩, h2, h3⟩

/-- The refill at the top of the import loops keeps the file index of the
line at `pos`, keeps the lines from `pos` on at the head of the queue, and
keeps `min_left`. -/
theorem refillQueue_lines (eof : LVTextFileBase → Bool) (q q1 : LVTextLineQueue)
    (pos pos1 : Int) (h0 : 0 ≤ pos) (h1 : pos ≤ q.length)
    (h : refillQueue eof q pos = some (q1, pos1)) :
    q1.first_line_index + pos1 = q.first_line_index + pos ∧
    (∃ more, q1.lines = q.lines.drop (pos - pos1).toNat ++ more) ∧
    q1.min_left = q.min_left := by
  unfold refillQueue at h
  by_cases c : q.length - pos ≤ MAX_PARA_LINES
  · rw [if_pos c] at h
    cases hr : ReadLines eof (if pos ≠ 0 then RemoveLines q pos else q) MAX_BUF_LINES with
    | none => rw [hr] at h; simp at h
    | some r =>
      rw [hr] at h
      simp only [Option.map_some', Option.some.injEq, Prod.mk.injEq] at h
      obtain ⟨hq, hp⟩ := h
      subst hq hp
      unfold ReadLines at hr
      obtain ⟨⟨more, hm⟩, h2, h3⟩ := ReadLinesLoop_lines eof _ _ _ _ hr
      by_cases c0 : pos ≠ 0
      · rw [if_pos c0] at hm h2 h3
        unfold RemoveLines at hm h2 h3
        simp only at hm h2 h3
        rw [if_neg (by omega)] at hm h2
        refine ⟨by rw [h2]; omega, ⟨more, ?_⟩, h3⟩
        rw [hm]
        simp
      · rw [if_neg c0] at hm h2 h3
        have e : pos = 0 := by omega
        subst e
        exact ⟨by rw [h2], ⟨more, by rw [hm]; simp⟩, h3⟩
  · rw [if_neg c] at h
    simp only [Option.some.injEq, Prod.mk.injEq] at h
    obtain ⟨hq, hp⟩ := h
    subst hq hp
    exact ⟨rfl, ⟨[], by simp⟩, rfl⟩

theorem identParaEnd_spec (lower : Nat → Nat) (q : LVTextLineQueue) (pos : Int)
    (h1 : pos < q.length) :
    pos + 1 ≤ identParaEnd lower q pos ∧ identParaEnd lower q pos ≤ pos + MAX_PARA_LINES ∧
    identParaEnd lower q pos ≤ q.length ∧
    (∀ j, pos < j → j < identParaEnd lower q pos → ¬ ((q.get j).lpos : Int) > q.min_left) ∧
    (DetectHeadingLevelByText lower (q.get pos).text ≠ 0 → identParaEnd lower q pos = pos + 1) ∧
    (DetectHeadingLevelByText lower (q.get pos).text = 0 →
      identParaEnd lower q pos = q.length ∨ identParaEnd lower q pos = pos + MAX_PARA_LINES ∨
      ((q.get (identParaEnd lower q pos)).lpos : Int) > q.min_left) := by
  unfold identParaEnd
  by_cases c : DetectHeadingLevelByText lower (q.get pos).text = 0
  · rw [if_pos (Or.inr c)]
    obtain ⟨r1, r2, r3, r4⟩ := identScan_spec q pos MAX_PARA_LINES.toNat (pos + 1)
      (by unfold MAX_PARA_LINES; omega)
    unfold MAX_PARA_LINES at *
    refine ⟨r1, by omega, by omega, fun j hj1 hj2 => r3 j (by omega) hj2,
      fun h => absurd c h, fun _ => ?_⟩
    rcases r4 with r4 | r4 | r4
    · exact Or.inl (by omega)
    · exact Or.inr (Or.inl (by omega))
    · exact Or.inr (Or.inr r4)
  · rw [if_neg (by intro h; rcases h with h | h <;> omega)]
    unfold MAX_PARA_LINES
    exact ⟨le_refl _, by omega, by omega, fun j hj1 hj2 => by omega, fun _ => rfl,
      fun h => absurd h c⟩

theorem DoIdentParaImportLoop_turn (eof : LVTextFileBase → Bool) (trim : List Nat → List Nat)
    (lower : Nat → Nat) (fuel : Nat) (s : ImportVars) (q : LVTextLineQueue) (pos : Int)
    (hr : refillQueue eof s.q s.pos = some (q, pos)) (h1 : pos < q.length) :
    DoIdentParaImportLoop eof trim lower (fuel + 1) s =
      DoIdentParaImportLoop eof trim lower fuel
        { q := (AddPara trim lower q pos (identParaEnd lower q pos - 1)).2,
          pos := identParaEnd lower q pos,
          events := s.events ++ (AddPara trim lower q pos (identParaEnd lower q pos - 1)).1 } := by
  rw [DoIdentParaImportLoop, hr]
  simp only
  rw [if_neg (by omega)]

/-- C28 (as amended): in a turn of the loop of `DoIdentParaImport` that finds
the line `pos` in the queue `q` after the refill, the paragraph is
`AddPara( pos, i-1 )` with `pos < i ≤ pos + 30` and `i ≤ length()`, the next
turn starts at `i` (no gap, no overlap; `AddPara` keeps the lines, and the
refill keeps the file index of the line at `pos` and the lines from `pos`
on), and no line after the first of the paragraph is indented
(`lpos > min_left`).  A paragraph whose first line is a heading by its text
is that line alone.  Otherwise the paragraph ends one line before the next
indented line, after 30 lines, or at the end of the queue. -/
theorem ident_paragraphs (eof : LVTextFileBase → Bool) (trim : List Nat → List Nat)
    (lower : Nat → Nat) (fuel : Nat) (s : ImportVars) (q : LVTextLineQueue) (pos : Int)
    (hs0 : 0 ≤ s.pos) (hs1 : s.pos ≤ s.q.length)
    (hr : refillQueue eof s.q s.pos = some (q, pos)) (h1 : pos < q.length) :
    (q.first_line_index + pos = s.q.first_line_index + s.pos ∧
      (∃ more, q.lines = s.q.lines.drop (s.pos - pos).toNat ++ more) ∧
      q.min_left = s.q.min_left) ∧
    DoIdentParaImportLoop eof trim lower (fuel + 1) s =
      DoIdentParaImportLoop eof trim lower fuel
        { q := (AddPara trim lower q pos (identParaEnd lower q pos - 1)).2,
          pos := identParaEnd lower q pos,
          events := s.events ++ (AddPara trim lower q pos (identParaEnd lower q pos - 1)).1 } ∧
    (AddPara trim lower q pos (identParaEnd lower q pos - 1)).2.lines = q.lines ∧
    pos + 1 ≤ identParaEnd lower q pos ∧ identParaEnd lower q pos ≤ pos + 30 ∧
    identParaEnd lower q pos ≤ q.length ∧
    (∀ j, pos < j → j < identParaEnd lower q pos → ¬ ((q.get j).lpos : Int) > q.min_left) ∧
    (DetectHeadingLevelByText lower (q.get pos).text ≠ 0 → identParaEnd lower q pos = pos + 1) ∧
    (DetectHeadingLevelByText lower (q.get pos).text = 0 →
      identParaEnd lower q pos = q.length ∨ identParaEnd lower q pos = pos + 30 ∨
      ((q.get (identParaEnd lower q pos)).lpos : Int) > q.min_left) := by
  obtain ⟨p1, p2, p3, p4, p5, p6⟩ := identParaEnd_spec lower q pos h1
  exact ⟨refillQueue_lines eof s.q q s.pos pos hs0 hs1 hr,
    DoIdentParaImportLoop_turn eof trim lower fuel s q pos hr h1,
    (AddPara_lines trim lower q pos _).1, p1, p2, p3, p4, p5, p6⟩

set_option maxRecDepth 100000 in
theorem ident_paragraphs_witness :
    identParaEnd lowerChar { queueOf (twoBlocks ++ twoBlocks) tftParaIdents with min_left := 0 } 0
      ≤ 0 + 30 :=
  (ident_paragraphs Eof trimDoubleSpaces lowerChar 0
    { q := { queueOf (twoBlocks ++ twoBlocks) tftParaIdents with min_left := 0 }, pos := 0,
      events := [] }
    { queueOf (twoBlocks ++ twoBlocks) tftParaIdents with min_left := 0 } 0
    (by decide) (by decide) (by decide) (by decide)).2.2.2.2.1

/-- C28 (as stated) fails: in the queue "Chapter 1", "first line",
"second line" with `min_left = 0` no line is indented, but the first
paragraph is the line "Chapter 1" alone, because it is a heading by its text
(level 3); the second paragraph is made of the two other lines.  So a
paragraph can end before a line that is not indented and before 30 lines. -/
theorem ident_paragraph_heading_counterexample :
    DetectHeadingLevelByText lowerChar (codes "Chapter 1") = 3 ∧
    chapterLines.map (fun l => l.lpos) = [0, 0, 0] ∧
    identParaEnd lowerChar { queueOf chapterLines tftParaIdents with min_left := 0 } 0 = 1 ∧
    identParaEnd lowerChar { queueOf chapterLines tftParaIdents with min_left := 0 } 1 = 3 ∧
    (DoIdentParaImport Eof trimDoubleSpaces lowerChar 4
        { queueOf chapterLines tftParaIdents with min_left := 0 }).map
      (fun r => r.1.filterMap
        (fun e => match e with
          | Event.text t => some (t.text, t.fpos, t.fsize)
          | _ => none)) =
      some [(codes "Chapter 1", 0, 10), (codes "first line second line", 10, 23)] := by
  decide!

/-! ## Text parser (`LVTextParser::Parse`) -/

theorem nestStep_none (l : List Event) : l.foldl nestStep none = none := by
  induction l with
  | nil => rfl
  | cons e l ih => rw [List.foldl_cons]; exact ih

/-- Whatever was open before, the events tag-open `title-info`, tag-close
`description` break the nesting. -/
theorem nestStep_title_info (st : Option (List (Option (List Nat) × List Nat)))
    (rest : List Event) :
    ([Event.tagOpen none (codes "title-info"), Event.tagClose none (codes "description")]
      ++ rest).foldl nestStep st = none := by
  cases st with
  | none => exact nestStep_none _
  | some stack =>
    simp only [List.cons_append, List.nil_append, List.foldl_cons, nestStep]
    rw [if_neg (by decide)]
    exact nestStep_none _

theorem textParse_not_nested (d b : List Event) :
    wellNested (textParseHead ++ d ++ textParseMiddle ++ b ++ textParseTail) = false := by
  unfold wellNested
  have e : textParseHead ++ d ++ textParseMiddle ++ b ++ textParseTail =
      (textParseHead ++ d) ++
        ([Event.tagOpen none (codes "title-info"), Event.tagClose none (codes "description")] ++
          ([Event.tagOpen none (codes "body"), Event.tagOpen none (codes "section")] ++ b ++
            textParseTail)) := by
    simp [textParseMiddle]
  rw [e, List.foldl_append, nestStep_title_info]
  rfl

/-- The shape of the events of `LVTextParser::Parse`. -/
theorem LVTextParser_Parse_events (eof : LVTextFileBase → Bool) (trim : List Nat → List Nat)
    (lower : Nat → Nat) (parse : List Nat → Nat → List (List Nat)) (fuel formatFlags : Nat)
    (f : LVTextFileBase) (r : List Event × LVTextLineQueue)
    (h : LVTextParser.Parse eof trim lower parse fuel formatFlags f = some r) :
    ∃ d b, r.1 = textParseHead ++ d ++ textParseMiddle ++ b ++ textParseTail := by
  unfold LVTextParser.Parse at h
  cases h1 : ReadLines eof (LVTextLineQueue.create f 1000 formatFlags) 200 with
  | none => rw [h1] at h; simp at h
  | some p =>
    rw [h1] at h
    simp only at h
    cases h2 : DoTextImport eof trim lower fuel
        (DetectBookDescription trim parse (detectFormatFlags p.2)).2 with
    | none => rw [h2] at h; simp at h
    | some b =>
      rw [h2] at h
      simp only [Option.some.injEq] at h
      subst h
      exact ⟨_, _, rfl⟩

/-- C21: `LVTextParser::Parse` opens `title-info` a second time where it
should close it (`OnTagOpen( NULL, L"title-info" )` stands on both sides of
`DetectBookDescription`) and never closes it, so `description` is closed
while `title-info` is the innermost open element.  For every input, every
trimming, lowercasing and list-parsing function, the events of a completed
`Parse` are not well nested, whatever the description and the body hold.  On
the empty stream the events are the head, `book-title` with the text
"no name", a second tag-open `title-info`, and the closing tags; on a file of
three lines `title-info` is opened twice and closed never. -/
theorem text_parse_not_well_nested :
    (∀ (eof : LVTextFileBase → Bool) (trim : List Nat → List Nat) (lower : Nat → Nat)
      (parse : List Nat → Nat → List (List Nat)) (fuel formatFlags : Nat) (f : LVTextFileBase)
      (r : List Event × LVTextLineQueue),
      LVTextParser.Parse eof trim lower parse fuel formatFlags f = some r →
      wellNested r.1 = false) ∧
    (LVTextParser.Parse Eof trimDoubleSpaces lowerChar parseList 2 0
        (LVTextFileBase.create [])).map (fun r => r.1) =
      some [Event.tagOpen none (codes "?xml"),
            Event.attribute none (codes "version") (codes "1.0"),
            Event.tagClose none (codes "?xml"),
            Event.tagOpen none (codes "FictionBook"),
            Event.tagOpen none (codes "description"),
            Event.tagOpen none (codes "title-info"),
            Event.tagOpen none (codes "book-title"),
            Event.text { text := codes "no name", len := 7, fpos := 0, fsize := 0, flags := 0 },
            Event.tagClose none (codes "book-title"),
            Event.tagOpen none (codes "title-info"),
            Event.tagClose none (codes "description"),
            Event.tagOpen none (codes "body"),
            Event.tagOpen none (codes "section"),
            Event.tagClose none (codes "section"),
            Event.tagClose none (codes "body"),
            Event.tagClose none (codes "FictionBook")] ∧
    (LVTextParser.Parse Eof trimDoubleSpaces lowerChar parseList 3 0
        (LVTextFileBase.create (codes "John Smith\nMy Book\nOnce upon a time.\n"))).map
      (fun r => (countOpen "title-info" r.1, countClose "title-info" r.1,
                 countOpen "author" r.1, countOpen "p" r.1, wellNested r.1)) =
      some (2, 0, 1, 3, false) := by
  refine ⟨?_, ?_, ?_⟩
  · intro eof trim lower parse fuel formatFlags f r h
    obtain ⟨d, b, e⟩ := LVTextParser_Parse_events eof trim lower parse fuel formatFlags f r h
    rw [e]
    exact textParse_not_nested d b
  · decide!
  · decide!

/-! ## Reading the stream character by character -/

theorem Eof_false_of_cursor (f : LVTextFileBase) (h : cursor f < f.stream_size) :
    Eof f = false := by
  unfold Eof
  unfold cursor at h
  by_cases c1 : f.buf_pos = f.buf_len
  · have c2 : ¬ (f.stream_size - (f.buf_fpos + f.buf_len) ≤ 0) := by omega
    simp [c1, c2]
  · simp [c1]

/-- The refill at the top of the reading loops keeps the cursor, the stream
and the mode, keeps the window genuine, and leaves a byte to read unless the
cursor is at the end of the stream. -/
theorem refill_ready (f : LVTextFileBase) (h : Ready f) :
    Ready (refill f) ∧ cursor (refill f) = cursor f ∧ (refill f).stream = f.stream ∧
    (refill f).stream_size = f.stream_size ∧
    (cursor f < f.stream_size → (refill f).buf_pos < (refill f).buf_len) := by
  obtain ⟨hv, hw, he, ht⟩ := h
  unfold refill
  by_cases c : f.buf_len - f.buf_pos < MIN_BUF_DATA_SIZE
  · rw [if_pos c]
    have hv' := Valid_FillBuffer f (MIN_BUF_DATA_SIZE * 2) hv hw.2.1
    have hw' := WindowInv_FillBuffer f (MIN_BUF_DATA_SIZE * 2) hw
    have hc := FillBuffer_cursor f (MIN_BUF_DATA_SIZE * 2)
    have hfe := FillBuffer_eq f (MIN_BUF_DATA_SIZE * 2)
    by_cases h0 : f.stream_size - (f.buf_fpos + f.buf_len) ≤ 0
    · rw [FillBuffer_at_end f _ h0]
      refine ⟨⟨hv, hw, he, ht⟩, rfl, rfl, rfl, fun hcur => ?_⟩
      unfold cursor at hcur
      show f.buf_pos < f.buf_len
      omega
    · rw [if_neg h0] at hfe
      obtain ⟨p1, p2, p3, p4, p5, p6, p7, p8, p9, p10⟩ :=
        fillPrepare_fields f (fillCount f (MIN_BUF_DATA_SIZE * 2))
      have hlen := streamRead_length (fillPrepare f (fillCount f (MIN_BUF_DATA_SIZE * 2)))
        (fillCount f (MIN_BUF_DATA_SIZE * 2))
      rw [p1, p2] at hlen
      have hcnt : 0 < fillCount f (MIN_BUF_DATA_SIZE * 2) := by
        unfold fillCount MIN_BUF_DATA_SIZE
        split_ifs <;> omega
      have hcle := fillCount_le f (MIN_BUF_DATA_SIZE * 2)
      obtain ⟨v1, v2, v3, v4, v5⟩ := hv
      obtain ⟨w1, w2, w3, w4⟩ := hw
      have hsp : f.stream_pos = f.buf_fpos + f.buf_len := by
        rcases v4 with v4 | v4
        · exact v4
        · omega
      have hdl : 0 < (streamRead (fillPrepare f (fillCount f (MIN_BUF_DATA_SIZE * 2)))
          (fillCount f (MIN_BUF_DATA_SIZE * 2))).length := by
        rw [hlen]
        omega
      rw [hfe] at hv' hw' hc ⊢
      refine ⟨⟨hv', hw', by simp only; rw [p4]; exact he, by simp only; rw [p5]; exact ht⟩, hc,
        by simp only; exact p1, by simp only; exact p3, fun hcur => ?_⟩
      unfold cursor at hc
      simp only at hc ⊢
      omega
  · rw [if_neg c]
    refine ⟨⟨hv, hw, he, ht⟩, rfl, rfl, rfl, fun _ => ?_⟩
    unfold MIN_BUF_DATA_SIZE at c
    omega

/-- Reading an ASCII character: behind the refill `ReadChar` returns the byte
of the stream at the cursor and moves the cursor by one byte. -/
theorem ReadChar_refill (f : LVTextFileBase) (h : Ready f) (hc : cursor f < f.stream_size)
    (hb : f.stream.getD (cursor f).toNat 0 < 128) :
    (ReadChar (refill f)).1 = f.stream.getD (cursor f).toNat 0 ∧
    Ready (ReadChar (refill f)).2 ∧ cursor (ReadChar (refill f)).2 = cursor f + 1 ∧
    (ReadChar (refill f)).2.stream = f.stream ∧
    (ReadChar (refill f)).2.stream_size = f.stream_size ∧
    bufAt (ReadChar (refill f)).2 (ReadChar (refill f)).2.buf_pos =
      bufAt (refill f) ((refill f).buf_pos + 1) := by
  obtain ⟨⟨hv, hw, he, ht⟩, r2, r3, r4, r5⟩ := refill_ready f h
  have r5' := r5 hc
  generalize refill f = g at *
  obtain ⟨v1, v2, v3, v4, v5⟩ := hv
  obtain ⟨w1, w2, w3, w4⟩ := hw
  have hbyte : bufAt g g.buf_pos = f.stream.getD (cursor f).toNat 0 := by
    have hcg : g.buf_fpos + g.buf_pos = cursor f := r2
    have := v5 (g.buf_fpos + g.buf_pos) (by omega) (by omega) (by rw [hcg, r4]; exact hc)
    have e : g.buf_fpos + g.buf_pos - g.buf_fpos = g.buf_pos := by omega
    rw [e, hcg, r3] at this
    exact this
  have hasc : bufAt g g.buf_pos &&& 0x80 = 0 := by
    rw [hbyte]
    exact byte_ascii _ hb
  have hrc : ReadChar g = (bufAt g g.buf_pos, { g with buf_pos := g.buf_pos + 1 }) := by
    unfold ReadChar
    rw [he]
    simp only
    rw [if_pos hasc]
  rw [hrc]
  refine ⟨hbyte, ⟨⟨v1, v2, by simp only; omega, v4, v5⟩, ⟨by simp only; omega, by simp only; omega,
    w3, w4⟩, he, ht⟩, ?_, r3, r4, rfl⟩
  unfold cursor at r2 ⊢
  simp only
  omega

theorem Ready_create (stream : List Nat) : Ready (LVTextFileBase.create stream) :=
  ⟨Valid_fresh stream char_encoding_type.ce_8bit_cp none, WindowInv_create stream, rfl, rfl⟩

/-! ## Text chunks of `ReadText` -/

theorem PreProcessXmlString_bounds (str : List Nat) (len flags : Nat) :
    (PreProcessXmlString str len flags).1 ≤ len ∧
    (PreProcessXmlString str len flags).2.length = str.length := by
  have h := ppRun_inv (decide (flags &&& TXTFLG_PRE ≠ 0)) len str len
  exact ⟨h.1, h.2.1⟩

theorem lString16_erase_length (s : List Nat) (count : Nat) :
    (lString16_erase s 0 count).length = s.length - count := by
  unfold lString16_erase
  simp

theorem ChunkInv_init (splitSize : Int) (h0 : 0 ≤ splitSize) (f : LVTextFileBase) :
    ChunkInv splitSize (TextVars.init f) := by
  unfold ChunkInv TextVars.init
  simp only
  refine ⟨fun e he => by simp at he, fun _ => ⟨by simp, h0, fun h => absurd rfl h⟩⟩

theorem ChunkInv_afterChar (splitSize : Int) (s : TextVars) (ch_start_pos : Int) (ch : Nat)
    (f1 : LVTextFileBase) (atEof : Bool) (h : ChunkInv splitSize s) (hd : s.done = false) :
    ChunkInv splitSize (ReadTextAfterChar splitSize s ch_start_pos ch f1 atEof) := by
  obtain ⟨h1, h2⟩ := h
  obtain ⟨i1, i2, i3⟩ := h2 hd
  unfold ReadTextAfterChar
  simp only
  by_cases hb : (decide (ch = 60) || atEof) = true
  · -- the text node ends here
    simp only [hb, if_true, or_true]
    unfold ReadTextEmit
    simp only [Bool.or_true, if_true]
    have hp := PreProcessXmlString_bounds s.txt_buf s.tlen.toNat 0
    refine ⟨?_, fun hc => by simp at hc⟩
    intro e he
    rcases List.mem_append.mp he with he | he
    · exact h1 e he
    · simp only [List.mem_singleton] at he
      subst he
      simp only
      omega
  · have hb' : (decide (ch = 60) || atEof) = false := by simpa using hb
    simp only [hb', Bool.false_eq_true, if_false, or_false]
    by_cases hover : s.tlen + 1 > splitSize
    · rw [if_pos hover]
      unfold ReadTextEmit
      simp only [Bool.or_false, Bool.false_eq_true, if_false]
      by_cases hl : s.last_split_fpos = 0
      · simp only [hl, decide_True, if_true]
        have hp := PreProcessXmlString_bounds (s.txt_buf ++ [ch]) (s.tlen + 1).toNat 0
        rw [List.length_append, List.length_singleton] at hp
        refine ⟨?_, fun _ => ⟨rfl, ?_, fun hc => absurd rfl hc⟩⟩
        · intro e he
          rcases List.mem_append.mp he with he | he
          · exact h1 e he
          · simp only [List.mem_singleton] at he
            subst he
            simp only
            omega
        · simp only
          rw [lString16_erase_length, hp.2]
          omega
      · simp only [hl, decide_False, if_false, Bool.false_eq_true]
        obtain ⟨j1, j2, j3⟩ := i3 hl
        have hp := PreProcessXmlString_bounds (s.txt_buf ++ [ch]) s.last_split_txtlen.toNat 0
        rw [List.length_append, List.length_singleton] at hp
        refine ⟨?_, fun _ => ⟨rfl, ?_, fun hc => absurd rfl hc⟩⟩
        · intro e he
          rcases List.mem_append.mp he with he | he
          · exact h1 e he
          · simp only [List.mem_singleton] at he
            subst he
            simp only
            omega
        · simp only
          rw [lString16_erase_length, hp.2]
          omega
    · rw [if_neg hover]
      by_cases hsp : ch = 32 ∨ (ch = 13 ∧ bufAt f1 f1.buf_pos ≠ 10) ∨
          (ch = 10 ∧ bufAt f1 f1.buf_pos ≠ 13)
      · rw [if_pos hsp]
        refine ⟨h1, fun _ => ⟨by simp only [List.length_append, List.length_singleton]; push_cast; omega,
          by simp only; omega, fun _ => ⟨by simp only; omega, le_refl _, ?_⟩⟩⟩
        simp only
        have e : (s.tlen + 1).toNat - 1 = s.txt_buf.length := by omega
        rw [e, List.getD_eq_getElem?_getD, List.getElem?_append_right (le_refl _)]
        simp only [Nat.sub_self, List.getElem?_cons_zero, Option.getD_some]
        unfold isSplitChar
        rcases hsp with hsp | hsp | hsp
        · rw [hsp]; rfl
        · rw [hsp.1]; rfl
        · rw [hsp.1]; rfl
      · rw [if_neg hsp]
        refine ⟨h1, fun _ => ⟨by simp only [List.length_append, List.length_singleton]; push_cast; omega,
          by simp only; omega, fun hl => ?_⟩⟩
        obtain ⟨j1, j2, j3⟩ := i3 hl
        refine ⟨j1, by simp only; omega, ?_⟩
        simp only
        rw [List.getD_eq_getElem?_getD, List.getElem?_append_left (by omega),
          ← List.getD_eq_getElem?_getD]
        exact j3

theorem ChunkInv_turn (eof : LVTextFileBase → Bool) (splitSize : Int) (s : TextVars)
    (h : ChunkInv splitSize s) : ChunkInv splitSize (ReadTextTurn eof splitSize s) := by
  unfold ReadTextTurn
  by_cases hd : s.done = true
  · rw [if_pos hd]; exact h
  rw [if_neg hd]
  have hdf : s.done = false := by simpa using hd
  by_cases he : eof s.file = true
  · rw [if_pos he]
    exact ⟨h.1, fun hc => by simp at hc⟩
  rw [if_neg he]
  exact ChunkInv_afterChar _ _ _ _ _ _ h hdf

theorem ChunkInv_run (eof : LVTextFileBase → Bool) (splitSize : Int) (h0 : 0 ≤ splitSize)
    (f : LVTextFileBase) : ∀ n, ChunkInv splitSize (ReadTextRun eof splitSize f n) := by
  intro n
  induction n with
  | zero => exact ChunkInv_init splitSize h0 f
  | succ n ih => exact ChunkInv_turn eof splitSize _ ih

/-- The event `ReadText` sends when the buffer overflows: the number of
characters handed to `PreProcessXmlString` is the recorded split length, or
the whole buffer when no split point was recorded. -/
theorem ReadTextAfterChar_overflow (splitSize : Int) (s : TextVars) (ch_start_pos : Int)
    (ch : Nat) (f1 : LVTextFileBase) (hch : ch ≠ 60) (hover : s.tlen + 1 > splitSize) :
    (ReadTextAfterChar splitSize s ch_start_pos ch f1 false).events =
      s.events ++
        [{ text := (PreProcessXmlString (s.txt_buf ++ [ch])
              (if s.last_split_fpos = 0 then s.tlen + 1 else s.last_split_txtlen).toNat 0).2.take
              (PreProcessXmlString (s.txt_buf ++ [ch])
                (if s.last_split_fpos = 0 then s.tlen + 1 else s.last_split_txtlen).toNat 0).1,
           len := (PreProcessXmlString (s.txt_buf ++ [ch])
              (if s.last_split_fpos = 0 then s.tlen + 1 else s.last_split_txtlen).toNat 0).1,
           fpos := s.text_start_pos,
           fsize := (if s.last_split_fpos = 0 then cursor f1 else s.last_split_fpos)
              - s.text_start_pos,
           flags := 0 }] := by
  unfold ReadTextAfterChar
  simp only [hch, decide_False, Bool.or_false, Bool.false_eq_true, if_false, or_false]
  rw [if_pos hover]
  unfold ReadTextEmit
  simp only [Bool.or_false, Bool.false_eq_true, if_false]
  by_cases hl : s.last_split_fpos = 0
  · simp [hl]
  · simp [hl]

theorem letterRun_getD (n k : Nat) (h : k < n) : (letterRun n).getD k 0 = 97 := by
  unfold letterRun
  rw [List.getD_eq_getElem?_getD, List.getElem?_append_left (by simpa using h),
    List.getElem?_replicate, if_pos h]
  rfl

theorem plain_replicate (n : Nat) : ∀ c ∈ List.replicate n 97, plainChar c = true := by
  intro c hc
  rw [List.mem_replicate] at hc
  rw [hc.2]
  decide

theorem LettersRead_init (n : Nat) :
    LettersRead (letterRun n) 0 (TextVars.init (LVTextFileBase.create (letterRun n))) := by
  unfold LettersRead TextVars.init
  refine ⟨rfl, rfl, rfl, rfl, rfl, rfl, rfl, Ready_create _, rfl, rfl, rfl⟩

/-- What reading one more letter does, in the terms of the loop body. -/
theorem LettersRead_char (n k : Nat) (s : TextVars) (h : LettersRead (letterRun n) k s)
    (hk : k < n) :
    ReadTextTurn Eof (n - 1 : Nat) s =
      ReadTextAfterChar (n - 1 : Nat) s (cursor (refill s.file)) 97 (ReadChar (refill s.file)).2
        false ∧
    Ready (ReadChar (refill s.file)).2 ∧ cursor (ReadChar (refill s.file)).2 = k + 1 ∧
    (ReadChar (refill s.file)).2.stream = letterRun n ∧
    (ReadChar (refill s.file)).2.stream_size = (letterRun n).length := by
  obtain ⟨h1, h2, h3, h4, h5, h6, h7, h8, h9, h10, h11⟩ := h
  have hsz : ((letterRun n).length : Int) = n + 1 := by
    unfold letterRun
    simp
  have hcur : cursor s.file < s.file.stream_size := by rw [h9, h11, hsz]; omega
  have hget : s.file.stream.getD (cursor s.file).toNat 0 = 97 := by
    rw [h10, h9]
    exact letterRun_getD n k hk
  obtain ⟨r1, r2, r3, r4, r5, _⟩ := ReadChar_refill s.file h8 hcur (by rw [hget]; decide)
  have he1 : Eof s.file = false := Eof_false_of_cursor _ hcur
  have he2 : Eof (ReadChar (refill s.file)).2 = false :=
    Eof_false_of_cursor _ (by rw [r3, r5, h9, h11, hsz]; omega)
  refine ⟨?_, r2, by rw [r3, h9], by rw [r4, h10], by rw [r5, h11]⟩
  unfold ReadTextTurn ReadTextBody
  rw [h1, he1, he2, r1, hget]
  simp

theorem LettersRead_turn (n k : Nat) (s : TextVars) (h : LettersRead (letterRun n) k s)
    (hk : k + 1 < n) : LettersRead (letterRun n) (k + 1) (ReadTextTurn Eof (n - 1 : Nat) s) := by
  obtain ⟨t1, t2, t3, t4, t5⟩ := LettersRead_char n k s h (by omega)
  obtain ⟨h1, h2, h3, h4, h5, h6, h7, h8, h9, h10, h11⟩ := h
  rw [t1]
  unfold ReadTextAfterChar
  have hno : ¬ (s.tlen + 1 > ((n - 1 : Nat) : Int)) := by rw [h4]; omega
  simp only [show ¬ ((97 : Nat) = 60) by decide, decide_False, Bool.or_false, Bool.false_eq_true,
    if_false, or_false, show ¬ ((97 : Nat) = 32) by decide, show ¬ ((97 : Nat) = 13) by decide,
    show ¬ ((97 : Nat) = 10) by decide, false_and, or_self]
  rw [if_neg hno]
  unfold LettersRead
  simp only
  refine ⟨h1, h2, ?_, by rw [h4]; push_cast; rfl, h5, h6, h7, t2, by rw [t3]; push_cast; rfl,
    t4, t5⟩
  rw [h3, List.replicate_succ']

theorem LettersRead_run (n : Nat) :
    ∀ k, k < n → LettersRead (letterRun n) k
      (ReadTextRun Eof (n - 1 : Nat) (LVTextFileBase.create (letterRun n)) k) := by
  intro k
  induction k with
  | zero => intro _; exact LettersRead_init n
  | succ k ih =>
    intro hk
    rw [ReadTextRun]
    exact LettersRead_turn n k _ (ih (by omega)) hk

/-- A text node of `n` letters without split point, read with the split size
`n - 1`: the turn that reads the last letter sends all `n` letters as one
chunk. -/
theorem letterRun_chunk (n : Nat) (hn : 0 < n) :
    (ReadTextRun Eof (n - 1 : Nat) (LVTextFileBase.create (letterRun n)) n).events =
      [{ text := List.replicate n 97, len := n, fpos := 0, fsize := n, flags := 0 }] := by
  obtain ⟨m, rfl⟩ : ∃ m, n = m + 1 := ⟨n - 1, by omega⟩
  have h := LettersRead_run (m + 1) m (by omega)
  rw [ReadTextRun]
  generalize ReadTextRun Eof ((m + 1 - 1 : Nat) : Int) (LVTextFileBase.create (letterRun (m + 1))) m
    = s at *
  obtain ⟨t1, t2, t3, t4, t5⟩ := LettersRead_char (m + 1) m s h (by omega)
  obtain ⟨h1, h2, h3, h4, h5, h6, h7, h8, h9, h10, h11⟩ := h
  rw [t1, ReadTextAfterChar_overflow _ _ _ _ _ (by decide) (by rw [h4]; simp), h2, h3, h4, h5,
    h7]
  simp only [if_true, List.nil_append]
  have hstr : List.replicate m 97 ++ [97] = List.replicate (m + 1) 97 :=
    (List.replicate_succ' m 97).symm
  have hto : ((m : Int) + 1).toNat = m + 1 := by omega
  rw [hstr, hto]
  have hpp := PreProcessXmlString_result (List.replicate (m + 1) 97) (m + 1) 0
    (List.replicate (m + 1) 97) (by simp)
    (by
      have ht : (List.replicate (m + 1) 97).take (m + 1) = List.replicate (m + 1) 97 := by
        rw [List.take_of_length_le (by simp)]
      rw [ht]
      exact ppList_word_end _ _ _ _ (plain_replicate _) rfl)
  rw [List.length_replicate] at hpp
  rw [hpp.1, hpp.2, t3]
  simp

/-- C22 (as stated) fails: a text node of 8193 letters `a` followed by '<' is
sent as one text event of 8193 characters; the length handed to
`PreProcessXmlString` and the length reported to `OnText` are 8193, more than
`TEXT_SPLIT_SIZE = 8192`. -/
theorem text_chunk_counterexample :
    TEXT_SPLIT_SIZE = 8192 ∧
    (ReadTextRun Eof TEXT_SPLIT_SIZE (LVTextFileBase.create (letterRun 8193)) 8193).events =
      [{ text := List.replicate 8193 97, len := 8193, fpos := 0, fsize := 8193, flags := 0 }] :=
  ⟨rfl, letterRun_chunk 8193 (by decide)⟩

/-- C22 (as amended): every text event sent by `ReadText` reports at most
`TEXT_SPLIT_SIZE + 1 = 8193` characters, after any number of turns of the
loop and for a completed call.  While the loop runs the buffer holds at most
8192 characters, and a recorded split point lies inside the buffer, right
behind a space, a CR or a LF.  When the buffer overflows (an 8193rd
character that is not '<' has been read, not at the end of the stream) the
number of characters handed to `PreProcessXmlString` is the recorded split
length, so the chunk has at most 8192 characters and ends with that space,
CR or LF; with no split point recorded all 8193 characters are handed
over. -/
theorem text_chunk_bound (eof : LVTextFileBase → Bool) (f : LVTextFileBase) (n : Nat) :
    (∀ e ∈ (ReadTextRun eof TEXT_SPLIT_SIZE f n).events, e.len ≤ 8193) ∧
    (∀ r, ReadText eof n f = some r → ∀ e ∈ r.events, e.len ≤ 8193) ∧
    ((ReadTextRun eof TEXT_SPLIT_SIZE f n).done = false →
      (ReadTextRun eof TEXT_SPLIT_SIZE f n).tlen =
        (ReadTextRun eof TEXT_SPLIT_SIZE f n).txt_buf.length ∧
      (ReadTextRun eof TEXT_SPLIT_SIZE f n).txt_buf.length ≤ 8192 ∧
      ((ReadTextRun eof TEXT_SPLIT_SIZE f n).last_split_fpos ≠ 0 →
        1 ≤ (ReadTextRun eof TEXT_SPLIT_SIZE f n).last_split_txtlen ∧
        (ReadTextRun eof TEXT_SPLIT_SIZE f n).last_split_txtlen ≤
          (ReadTextRun eof TEXT_SPLIT_SIZE f n).txt_buf.length ∧
        isSplitChar ((ReadTextRun eof TEXT_SPLIT_SIZE f n).txt_buf.getD
          ((ReadTextRun eof TEXT_SPLIT_SIZE f n).last_split_txtlen.toNat - 1) 0) = true)) ∧
    (∀ (s : TextVars) (ch_start_pos : Int) (ch : Nat) (f1 : LVTextFileBase), ch ≠ 60 →
      s.tlen + 1 > TEXT_SPLIT_SIZE →
      (ReadTextAfterChar TEXT_SPLIT_SIZE s ch_start_pos ch f1 false).events =
        s.events ++
          [{ text := (PreProcessXmlString (s.txt_buf ++ [ch])
                (if s.last_split_fpos = 0 then s.tlen + 1 else s.last_split_txtlen).toNat 0).2.take
                (PreProcessXmlString (s.txt_buf ++ [ch])
                  (if s.last_split_fpos = 0 then s.tlen + 1 else s.last_split_txtlen).toNat 0).1,
             len := (PreProcessXmlString (s.txt_buf ++ [ch])
                (if s.last_split_fpos = 0 then s.tlen + 1 else s.last_split_txtlen).toNat 0).1,
             fpos := s.text_start_pos,
             fsize := (if s.last_split_fpos = 0 then cursor f1 else s.last_split_fpos)
                - s.text_start_pos,
             flags := 0 }]) := by
  obtain ⟨h1, h2⟩ := ChunkInv_run eof TEXT_SPLIT_SIZE (by decide) f n
  have hev : ∀ e ∈ (ReadTextRun eof TEXT_SPLIT_SIZE f n).events, e.len ≤ 8193 := by
    intro e he
    have := h1 e he
    unfold TEXT_SPLIT_SIZE at this
    omega
  refine ⟨hev, ?_, ?_, fun s c ch f1 h3 h4 => ReadTextAfterChar_overflow _ s c ch f1 h3 h4⟩
  · intro r hr
    unfold ReadText at hr
    split_ifs at hr
    simp only [Option.some.injEq] at hr
    subst hr
    exact hev
  · intro hd
    obtain ⟨i1, i2, i3⟩ := h2 hd
    have i2' : (ReadTextRun eof TEXT_SPLIT_SIZE f n).tlen ≤ 8192 := i2
    refine ⟨i1, by omega, fun hl => ?_⟩
    obtain ⟨j1, j2, j3⟩ := i3 hl
    exact ⟨j1, by omega, j3⟩

/-! ## Identifiers (`ReadIdent`) -/

theorem bufAt_pos (f : LVTextFileBase) (p i : Int) :
    bufAt { f with buf_pos := p } i = bufAt f i := rfl

/-- The scan of `ReadIdent` over a run of identifier characters without
colon: they are appended to the name. -/
theorem ReadIdentScan_names :
    ∀ (xs : List Nat), (∀ x ∈ xs, isNameChar x = true) → ∀ (n : Nat) (v : IdentVars),
      (∀ i, i < xs.length → bufAt v.file (v.file.buf_pos + (i : Nat)) = xs.getD i 0) →
      v.file.buf_pos + xs.length ≤ v.file.buf_len →
      ReadIdentScan (xs.length + n) v =
        ReadIdentScan n { file := { v.file with buf_pos := v.file.buf_pos + xs.length },
                          ns := v.ns, name := v.name ++ xs } := by
  intro xs
  induction xs with
  | nil =>
    intro _ n v _ _
    simp only [List.length_nil, Nat.zero_add, Nat.cast_zero, add_zero, List.append_nil]
  | cons x xs ih =>
    intro hx n v hw hlen
    have hx0 := hx x (List.mem_cons_self _ _)
    have h0 := hw 0 (by simp)
    simp only [Nat.cast_zero, add_zero, List.getD_cons_zero] at h0
    simp only [isNameChar, Bool.and_eq_true, bne_iff_ne, ne_eq] at hx0
    simp only [List.length_cons, Nat.cast_add, Nat.cast_one] at hlen
    have e : (x :: xs).length + n = (xs.length + n) + 1 := by simp; omega
    rw [e, ReadIdentScan, if_pos (by omega), h0]
    simp only [hx0.1, Bool.true_eq_false, if_false, hx0.2]
    rw [ih (fun y hy => hx y (List.mem_cons_of_mem _ hy)) n]
    · simp only [List.length_cons, Nat.cast_add, Nat.cast_one, List.append_assoc,
        List.singleton_append]
      congr 3
      omega
    · intro i hi
      have := hw (i + 1) (by simp; omega)
      simp only [List.getD_cons_succ, Nat.cast_add, Nat.cast_one] at this
      rw [bufAt_pos]
      simp only
      rw [← this]
      congr 1
      omega
    · simp only
      omega

theorem ReadIdentScan_stop (n : Nat) (v : IdentVars)
    (h : v.file.buf_pos < v.file.buf_len →
      isValidIdentChar (bufAt v.file v.file.buf_pos) = false ∨
        (bufAt v.file v.file.buf_pos = 58 ∧ v.ns ≠ [])) :
    ReadIdentScan n v = v := by
  cases n with
  | zero => rfl
  | succ n =>
    rw [ReadIdentScan]
    by_cases c : v.file.buf_pos < v.file.buf_len
    · rw [if_pos c]
      rcases h c with h | h
      · rw [if_pos h]
      · have hv : isValidIdentChar (bufAt v.file v.file.buf_pos) = true := by rw [h.1]; decide
        rw [if_neg (by rw [hv]; simp), if_pos h.1, if_neg h.2]
    · rw [if_neg c]

theorem ReadIdentScan_colon (n : Nat) (v : IdentVars) (h1 : v.file.buf_pos < v.file.buf_len)
    (h2 : bufAt v.file v.file.buf_pos = 58) (h3 : v.ns = []) :
    ReadIdentScan (n + 1) v =
      ReadIdentScan n { file := { v.file with buf_pos := v.file.buf_pos + 1 },
                        ns := v.name, name := v.ns } := by
  rw [ReadIdentScan, if_pos h1, h2]
  have hv : isValidIdentChar 58 = true := by decide
  rw [if_neg (by rw [hv]; simp), if_pos rfl, if_pos h3]

theorem getD_append_at (xs ys : List Nat) (i : Nat) :
    (xs ++ ys).getD (xs.length + i) 0 = ys.getD i 0 := by
  rw [List.getD_eq_getElem?_getD, List.getElem?_append_right (by omega),
    List.getD_eq_getElem?_getD]
  congr 2
  omega

theorem getD_append_lt (xs ys : List Nat) (i : Nat) (h : i < xs.length) :
    (xs ++ ys).getD i 0 = xs.getD i 0 := by
  rw [List.getD_eq_getElem?_getD, List.getElem?_append_left h, List.getD_eq_getElem?_getD]

theorem not_nameChar (t : Nat) (h : isNameChar t = false) (h58 : t ≠ 58) :
    isValidIdentChar t = false := by
  unfold isNameChar at h
  cases hv : isValidIdentChar t with
  | false => rfl
  | true =>
    rw [hv] at h
    simp only [Bool.true_and, bne_eq_false_iff_eq] at h
    exact absurd h h58

theorem dropWhile_head (l : List Nat) (t : Nat) (tail : List Nat)
    (h : l.dropWhile isNameChar = t :: tail) : isNameChar t = false := by
  have := List.head_dropWhile_not isNameChar l (by rw [h]; simp)
  simp only [h, List.head_cons] at this
  simpa using this

/-- The scan of `ReadIdent` over the characters `rest` behind the first
character: it ends on the character behind the identifier `identOf`
describes. -/
theorem ReadIdentScan_identOf (c : Nat) (rest : List Nat) (f : LVTextFileBase) (n : Nat)
    (hw : ∀ i, i < rest.length → bufAt f (f.buf_pos + (i : Nat)) = rest.getD i 0)
    (hlen : f.buf_pos + rest.length ≤ f.buf_len)
    (hk : (identOf (c :: rest)).2.2 < (c :: rest).length)
    (hn : rest.length ≤ n) :
    ReadIdentScan n { file := f, ns := [], name := [c] } =
      { file := { f with buf_pos := f.buf_pos + ((identOf (c :: rest)).2.2 - 1 : Nat) },
        ns := (identOf (c :: rest)).1, name := (identOf (c :: rest)).2.1 } := by
  have hsplit := List.takeWhile_append_dropWhile isNameChar rest
  have htw : ∀ x ∈ rest.takeWhile isNameChar, isNameChar x = true :=
    fun x hx => List.mem_takeWhile_imp hx
  generalize hxs : rest.takeWhile isNameChar = xs at *
  cases hd : rest.dropWhile isNameChar with
  | nil =>
    exfalso
    rw [hd, List.append_nil] at hsplit
    simp only [identOf, hd, hxs, List.length_cons] at hk
    rw [← hsplit] at hk
    omega
  | cons t tail =>
    have ht := dropWhile_head rest t tail hd
    rw [hd] at hsplit
    have hrl : rest.length = xs.length + (tail.length + 1) := by rw [← hsplit]; simp
    obtain ⟨m, hm⟩ : ∃ m, n = xs.length + (m + 1) := ⟨n - xs.length - 1, by omega⟩
    rw [hm, ReadIdentScan_names xs htw (m + 1) _
      (fun i hi => by
        have := hw i (by omega)
        rw [← hsplit, getD_append_lt _ _ _ hi] at this
        exact this)
      (by simp only; omega)]
    have hat : bufAt f (f.buf_pos + (xs.length : Nat)) = t := by
      have := hw xs.length (by omega)
      rw [← hsplit] at this
      have e := getD_append_at xs (t :: tail) 0
      simp only [Nat.add_zero, List.getD_cons_zero] at e
      rw [e] at this
      exact this
    by_cases h58 : t = 58
    · -- a first colon
      subst h58
      have htw2 : ∀ x ∈ tail.takeWhile isNameChar, isNameChar x = true :=
        fun x hx => List.mem_takeWhile_imp hx
      have hsplit2 := List.takeWhile_append_dropWhile isNameChar tail
      simp only [identOf, hd, hxs, List.length_cons] at hk ⊢
      generalize hys : tail.takeWhile isNameChar = ys at *
      rw [ReadIdentScan_colon m _ (by simp only; omega) (by simp only [bufAt_pos]; exact hat) rfl]
      simp only [List.singleton_append]
      cases hd2 : tail.dropWhile isNameChar with
      | nil =>
        exfalso
        rw [hd2, List.append_nil] at hsplit2
        rw [← hsplit2] at hrl
        omega
      | cons t2 tail2 =>
        have ht2 := dropWhile_head tail t2 tail2 hd2
        rw [hd2] at hsplit2
        have htl : tail.length = ys.length + (tail2.length + 1) := by rw [← hsplit2]; simp
        obtain ⟨m2, hm2⟩ : ∃ m2, m = ys.length + m2 := ⟨m - ys.length, by omega⟩
        have hw2 : ∀ i, i < tail.length →
            bufAt f (f.buf_pos + (xs.length : Nat) + 1 + (i : Nat)) = tail.getD i 0 := by
          intro i hi
          have := hw (xs.length + (i + 1)) (by omega)
          rw [← hsplit, getD_append_at, List.getD_cons_succ] at this
          rw [← this]
          congr 1
          push_cast
          omega
        rw [hm2, ReadIdentScan_names ys htw2 m2 _
          (fun i hi => by
            have := hw2 i (by omega)
            rw [← hsplit2, getD_append_lt _ _ _ hi] at this
            simp only [bufAt_pos]
            exact this)
          (by simp only; omega)]
        rw [ReadIdentScan_stop]
        · simp only [List.nil_append]
          congr 2
          omega
        · intro _
          simp only [bufAt_pos]
          have hat2 : bufAt f (f.buf_pos + (xs.length : Nat) + 1 + (ys.length : Nat)) = t2 := by
            have := hw2 ys.length (by omega)
            rw [← hsplit2] at this
            have e := getD_append_at ys (t2 :: tail2) 0
            simp only [Nat.add_zero, List.getD_cons_zero] at e
            rw [e] at this
            exact this
          rw [hat2]
          by_cases h582 : t2 = 58
          · exact Or.inr ⟨h582, by simp⟩
          · exact Or.inl (not_nameChar t2 ht2 h582)
    · -- the identifier has no colon
      have hinv := not_nameChar t ht h58
      have hid : identOf (c :: rest) = ([], c :: xs, xs.length + 1) := by
        simp only [identOf, hd, hxs]
        cases t with
        | zero => rfl
        | succ t =>
          split
          · rename_i heq
            simp only [List.cons.injEq] at heq
            exact absurd heq.1 h58
          · rfl
      rw [hid]
      rw [ReadIdentScan_stop]
      · simp only [List.singleton_append, Nat.add_sub_cancel]
      · intro _
        simp only [bufAt_pos]
        rw [hat]
        exact Or.inl hinv

theorem refill_id (f : LVTextFileBase)
    (h : f.stream_size ≤ f.buf_fpos + f.buf_len ∨ MIN_BUF_DATA_SIZE ≤ f.buf_len - f.buf_pos) :
    refill f = f := by
  unfold refill
  by_cases c : f.buf_len - f.buf_pos < MIN_BUF_DATA_SIZE
  · rw [if_pos c]
    rcases h with h | h
    · rw [FillBuffer_at_end f _ (by omega)]
    · omega
  · rw [if_neg c]

theorem identOf_pos (c : Nat) (rest : List Nat) : 1 ≤ (identOf (c :: rest)).2.2 := by
  simp only [identOf]
  split
  · simp only
    omega
  · simp

/-- The refill at the top of a reading loop keeps the characters the window
holds from the cursor on, and keeps the cursor. -/
theorem refill_holds (f : LVTextFileBase) (w : List Nat) (h0 : 0 ≤ f.buf_pos)
    (hw : windowHolds f w) (hlen : f.buf_pos + w.length ≤ f.buf_len) :
    windowHolds (refill f) w ∧ (refill f).buf_pos + w.length ≤ (refill f).buf_len ∧
    0 ≤ (refill f).buf_pos ∧ cursor (refill f) = cursor f := by
  unfold refill
  by_cases c : f.buf_len - f.buf_pos < MIN_BUF_DATA_SIZE
  · rw [if_pos c, FillBuffer_eq]
    by_cases hend : f.stream_size - (f.buf_fpos + f.buf_len) ≤ 0
    · rw [if_pos hend]
      exact ⟨hw, hlen, h0, rfl⟩
    · rw [if_neg hend]
      generalize fillCount f (MIN_BUF_DATA_SIZE * 2) = m
      obtain ⟨p1, p2, p3, p4, p5, p6, p7, p8, p9, p10⟩ := fillPrepare_fields f m
      have hbuf := fillPrepare_buf f m h0
      generalize fillPrepare f m = p at *
      generalize streamRead p m = data
      refine ⟨?_, by simp only; omega, by simp only; omega, by unfold cursor; simp only; omega⟩
      unfold windowHolds at hw ⊢
      intro i hi
      simp only
      have e1 : p.buf_pos + (i : Int) = (f.buf_fpos + f.buf_pos + i) - p.buf_fpos := by omega
      have hb := hbuf (f.buf_fpos + f.buf_pos + i) (by omega) (by omega)
      have e2 : f.buf_fpos + f.buf_pos + (i : Int) - f.buf_fpos = f.buf_pos + i := by omega
      rw [e2] at hb
      rw [← hw i hi, ← hb, e1, bufAt_nonneg _ _ (by omega), bufAt_nonneg _ _ (by omega)]
      simp only
      rw [writeAt_getD, if_pos (by omega)]
  · rw [if_neg c]
    exact ⟨hw, hlen, h0, rfl⟩

/-- `ReadIdent` on a window that holds, from the cursor on, the characters
`c :: rest` with the identifier and the character behind it among them: the
loop refills the window, scans the identifier `identOf` describes and stops
on the character behind it; the result is true exactly when the local name is
not empty and that character is a space, '/', '>', '?' or '='. -/
theorem ReadIdent_window (eof : LVTextFileBase → Bool) (fuel : Nat) (f : LVTextFileBase)
    (c : Nat) (rest : List Nat) (hc : isValidFirstIdentChar c = true)
    (hw : windowHolds f (c :: rest)) (h0 : 0 ≤ f.buf_pos)
    (hlen : f.buf_pos + (c :: rest).length ≤ f.buf_len)
    (hk : (identOf (c :: rest)).2.2 < (c :: rest).length)
    (heof : eof { f with buf_pos := f.buf_pos + 1 } = false) :
    ReadIdent eof (fuel + 1) f =
      some (decide ((identOf (c :: rest)).2.1 ≠ []) &&
              endsIdent ((c :: rest).getD (identOf (c :: rest)).2.2 0),
            { file := { refill { f with buf_pos := f.buf_pos + 1 } with
                buf_pos := (refill { f with buf_pos := f.buf_pos + 1 }).buf_pos +
                  (((identOf (c :: rest)).2.2 - 1 : Nat) : Int) },
              ns := (identOf (c :: rest)).1, name := (identOf (c :: rest)).2.1 }) ∧
    cursor { refill { f with buf_pos := f.buf_pos + 1 } with
        buf_pos := (refill { f with buf_pos := f.buf_pos + 1 }).buf_pos +
          (((identOf (c :: rest)).2.2 - 1 : Nat) : Int) } =
      cursor f + ((identOf (c :: rest)).2.2 : Nat) ∧
    bufAt (refill { f with buf_pos := f.buf_pos + 1 })
        ((refill { f with buf_pos := f.buf_pos + 1 }).buf_pos +
          (((identOf (c :: rest)).2.2 - 1 : Nat) : Int)) =
      (c :: rest).getD (identOf (c :: rest)).2.2 0 := by
  have hw0 := hw
  unfold windowHolds at hw
  have hfirst := hw 0 (by simp)
  simp only [Nat.cast_zero, add_zero, List.getD_cons_zero] at hfirst
  have hk1 := identOf_pos c rest
  simp only [List.length_cons, Nat.cast_add, Nat.cast_one] at hlen hk
  have hw1 : windowHolds { f with buf_pos := f.buf_pos + 1 } rest := by
    unfold windowHolds
    intro i hi
    have := hw (i + 1) (by simp; omega)
    simp only [List.getD_cons_succ, Nat.cast_add, Nat.cast_one] at this
    rw [bufAt_pos]
    simp only
    rw [← this]
    congr 1
    omega
  obtain ⟨g1, g2, g3, g4⟩ := refill_holds { f with buf_pos := f.buf_pos + 1 } rest
    (by simp only; omega) hw1 (by simp only; omega)
  unfold ReadIdent
  rw [hfirst, hc]
  simp only [Bool.true_eq_false, if_false]
  rw [ReadIdentLoop, heof]
  simp only [Bool.false_eq_true, if_false]
  generalize refill { f with buf_pos := f.buf_pos + 1 } = g at *
  have hat : bufAt g (g.buf_pos + (((identOf (c :: rest)).2.2 - 1 : Nat) : Int)) =
      (c :: rest).getD (identOf (c :: rest)).2.2 0 := by
    unfold windowHolds at g1
    rw [g1 ((identOf (c :: rest)).2.2 - 1) (by omega)]
    obtain ⟨j, hj⟩ : ∃ j, (identOf (c :: rest)).2.2 = j + 1 :=
      ⟨(identOf (c :: rest)).2.2 - 1, by omega⟩
    rw [hj]
    simp
  refine ⟨?_, ?_, hat⟩
  · have hscan := ReadIdentScan_identOf c rest g (g.buf_len - g.buf_pos).toNat
      (fun i hi => g1 i hi) g2 (by simp only [List.length_cons]; exact hk) (by omega)
    rw [hscan]
    simp only
    rw [if_pos (by omega), bufAt_pos, hat]
    rfl
  · unfold cursor at g4 ⊢
    simp only at g4 ⊢
    omega

set_option maxRecDepth 100000 in
/-- The window "fb:title id": `ReadIdent` returns true with the namespace
"fb" and the name "title", and leaves the cursor on the space. -/
theorem ReadIdent_window_example :
    ReadIdent Eof 1 (readerOver (codes "fb:title id") char_encoding_type.ce_8bit_cp none) =
      some (true,
        { file := { readerOver (codes "fb:title id") char_encoding_type.ce_8bit_cp none with
                      buf_pos := 8 },
          ns := codes "fb", name := codes "title" }) :=
  ((ReadIdent_window Eof 0 (readerOver (codes "fb:title id") char_encoding_type.ce_8bit_cp none)
      102 (codes "b:title id") (by decide) (by unfold windowHolds; decide) (by decide)
      (by decide) (by decide) (by decide)).1).trans (by decide)

/-- C30: `ReadIdent` reports an identifier as read only when the character
behind it is a space, '/', '>', '?' or '=': its last statement compares that
character with `' '` alone, where `SkipSpaces` and the loop for attribute
values use `IsSpaceChar`.  An identifier followed by a tab, a CR or a LF is
consumed and reported as a failure, so `Parse` sends no `OnTagOpen` and no
`OnAttribute` for a tag whose name is followed by a tab, as in
`<p\tid="x">`, which it handles when a space stands there.  A second colon
ends the identifier and is reported as a failure too, and the end of the file
behind the first character is reported as a success.

In general: when the window holds, from the cursor on, the characters
`c :: rest` with `c` an ASCII letter and the identifier and the character
behind it among them, `ReadIdent` refills the window, consumes exactly the
identifier `identOf` describes (the maximal run of characters from
`[A-Za-z0-9._-:]` up to but not including a second colon), sets the namespace
to the part before the first colon (empty if there is none) and the local
name to the part after it, leaves the cursor on the first unconsumed
character, and returns true exactly when the local name is not empty and that
character is a space, '/', '>', '?' or '='.  When the character at the cursor
is not an ASCII letter it fails, clears both strings and does not move the
cursor. -/
theorem read_ident :
    (∀ (eof : LVTextFileBase → Bool) (fuel : Nat) (f : LVTextFileBase) (c : Nat)
      (rest : List Nat), isValidFirstIdentChar c = true → windowHolds f (c :: rest) →
      0 ≤ f.buf_pos → f.buf_pos + (c :: rest).length ≤ f.buf_len →
      (identOf (c :: rest)).2.2 < (c :: rest).length →
      eof { f with buf_pos := f.buf_pos + 1 } = false →
      ReadIdent eof (fuel + 1) f =
        some (decide ((identOf (c :: rest)).2.1 ≠ []) &&
                endsIdent ((c :: rest).getD (identOf (c :: rest)).2.2 0),
              { file := { refill { f with buf_pos := f.buf_pos + 1 } with
                  buf_pos := (refill { f with buf_pos := f.buf_pos + 1 }).buf_pos +
                    (((identOf (c :: rest)).2.2 - 1 : Nat) : Int) },
                ns := (identOf (c :: rest)).1, name := (identOf (c :: rest)).2.1 }) ∧
      cursor { refill { f with buf_pos := f.buf_pos + 1 } with
          buf_pos := (refill { f with buf_pos := f.buf_pos + 1 }).buf_pos +
            (((identOf (c :: rest)).2.2 - 1 : Nat) : Int) } =
        cursor f + ((identOf (c :: rest)).2.2 : Nat) ∧
      bufAt (refill { f with buf_pos := f.buf_pos + 1 })
          ((refill { f with buf_pos := f.buf_pos + 1 }).buf_pos +
            (((identOf (c :: rest)).2.2 - 1 : Nat) : Int)) =
        (c :: rest).getD (identOf (c :: rest)).2.2 0) ∧
    (∀ (eof : LVTextFileBase → Bool) (fuel : Nat) (g : LVTextFileBase),
      isValidFirstIdentChar (bufAt g g.buf_pos) = false →
      ReadIdent eof fuel g = some (false, { file := g, ns := [], name := [] })) ∧
    (∀ (eof : LVTextFileBase → Bool) (fuel : Nat) (g : LVTextFileBase),
      isValidFirstIdentChar (bufAt g g.buf_pos) = true →
      eof { g with buf_pos := g.buf_pos + 1 } = true →
      ReadIdent eof (fuel + 1) g =
        some (true, { file := { g with buf_pos := g.buf_pos + 1 }, ns := [],
                      name := [bufAt g g.buf_pos] })) ∧
    ([9, 13, 10, 58].map endsIdent = [false, false, false, false] ∧
      [9, 13, 10, 32].map IsSpaceChar = [true, true, true, true]) ∧
    (ReadIdent Eof 2 (readerOver (codes "ab c") char_encoding_type.ce_8bit_cp none)).map
      (fun r => (r.1, r.2.ns, r.2.name, r.2.file.buf_pos)) = some (true, [], codes "ab", 2) ∧
    (ReadIdent Eof 2 (readerOver (codes "ab\tc") char_encoding_type.ce_8bit_cp none)).map
      (fun r => (r.1, r.2.ns, r.2.name, r.2.file.buf_pos)) = some (false, [], codes "ab", 2) ∧
    (ReadIdent Eof 2 (readerOver (codes "ab\rc") char_encoding_type.ce_8bit_cp none)).map
      (fun r => (r.1, r.2.ns, r.2.name, r.2.file.buf_pos)) = some (false, [], codes "ab", 2) ∧
    (ReadIdent Eof 2 (readerOver (codes "ab\nc") char_encoding_type.ce_8bit_cp none)).map
      (fun r => (r.1, r.2.ns, r.2.name, r.2.file.buf_pos)) = some (false, [], codes "ab", 2) ∧
    (ReadIdent Eof 2 (readerOver (codes "a:b:c ") char_encoding_type.ce_8bit_cp none)).map
      (fun r => (r.1, r.2.ns, r.2.name, r.2.file.buf_pos)) =
        some (false, codes "a", codes "b", 3) ∧
    (ReadIdent Eof 2 (readerOver (codes "a:") char_encoding_type.ce_8bit_cp none)).map
      (fun r => (r.1, r.2.ns, r.2.name, r.2.file.buf_pos)) = some (true, codes "a", [], 2) ∧
    (LVXMLParser.Parse Eof (fun _ => none) 40
        (LVTextFileBase.create (codes "<p id=\"x\">hi</p>"))).map (fun r => r.1) =
      some [Event.start,
            Event.tagOpen (some []) (codes "p"),
            Event.attribute (some []) (codes "id") (codes "x"),
            Event.text { text := codes "hi", len := 2, fpos := 10, fsize := 2, flags := 0 },
            Event.tagClose (some []) (codes "p"),
            Event.stop] ∧
    (LVXMLParser.Parse Eof (fun _ => none) 40
        (LVTextFileBase.create (codes "<p\tid=\"x\">hi</p>"))).map (fun r => r.1) =
      some [Event.start,
            Event.text { text := codes "hi", len := 2, fpos := 10, fsize := 2, flags := 0 },
            Event.tagClose (some []) (codes "p"),
            Event.stop] := by
  refine ⟨?_, ?_, ?_, ⟨by decide, by decide⟩, ?_, ?_, ?_, ?_, ?_, ?_, ?_, ?_⟩
  · intro eof fuel f c rest hc hw h0 hlen hk heof
    exact ReadIdent_window eof fuel f c rest hc hw h0 hlen hk heof
  · intro eof fuel g hg
    unfold ReadIdent
    rw [if_pos hg]
  · intro eof fuel g hg he
    unfold ReadIdent
    rw [if_neg (by rw [hg]; simp), ReadIdentLoop, he]
    rfl
  all_goals decide!

/-! ## XML parser: attribute values, recovery, a whole document -/

/-- The loop that reads an attribute value stops at '>' whatever the quote
is. -/
theorem ReadValueLoop_gt (eof : LVTextFileBase → Bool) (qChar fuel : Nat) (f : LVTextFileBase)
    (attrvalue : List Nat) (he : eof f = false)
    (hgt : bufAt (refill f) (refill f).buf_pos = 62) :
    ReadValueLoop eof qChar (fuel + 1) f attrvalue = some (refill f, attrvalue) := by
  rw [ReadValueLoop, he]
  simp only [Bool.false_eq_true, if_false]
  rw [if_pos hgt]

/-- C23: the loop that reads an attribute value tests `if (ch=='>') break;`
before it looks at the quote, so a '>' ends a quoted value too.  For the
input `<a title="x>y">` the value passed to `OnAttribute` is "x", not "x>y";
the rest, `y"`, is sent as text. -/
theorem quoted_value_stops_at_gt :
    (∀ (eof : LVTextFileBase → Bool) (qChar fuel : Nat) (f : LVTextFileBase)
      (attrvalue : List Nat), eof f = false → bufAt (refill f) (refill f).buf_pos = 62 →
      ReadValueLoop eof qChar (fuel + 1) f attrvalue = some (refill f, attrvalue)) ∧
    (LVXMLParser.Parse Eof (fun _ => none) 20
        (LVTextFileBase.create (codes "<a title=\"x>y\">"))).map (fun r => r.1) =
      some [Event.start,
            Event.tagOpen (some []) (codes "a"),
            Event.attribute (some []) (codes "title") (codes "x"),
            Event.text { text := codes "y\"", len := 2, fpos := 12, fsize := 3, flags := 0 },
            Event.stop] := by
  refine ⟨ReadValueLoop_gt, ?_⟩
  decide!

theorem ParseLt_error (eof : LVTextFileBase → Bool) (fuel : Nat) (s s1 : XmlVars)
    (f1 : LVTextFileBase) (ok : Bool) (v : IdentVars)
    (h1 : SkipSpaces eof fuel s.file = some (true, f1))
    (h2 : ReadIdent eof fuel
        (if (decide (bufAt f1 f1.buf_pos = 47) ||
            (!decide (bufAt f1 f1.buf_pos = 47) && decide (bufAt f1 f1.buf_pos = 63))) = true
         then { f1 with buf_pos := f1.buf_pos + 1 } else f1) = some (ok, v))
    (h3 : ok = false ∨ bufAt v.file v.file.buf_pos = 61)
    (h : ParseLt eof fuel s = some s1) : s1.events = s.events := by
  unfold ParseLt at h
  rw [h1] at h
  simp only at h
  rw [h2] at h
  simp only at h
  rw [if_pos h3] at h
  unfold skipRestOfTag at h
  cases hs : SkipTillChar eof fuel v.file 62 with
  | none => rw [hs] at h; simp at h
  | some r =>
    rw [hs] at h
    simp only [Option.map_some', Option.some.injEq] at h
    subst h
    split_ifs <;> rfl

theorem ParseAttr_error (eof : LVTextFileBase → Bool)
    (charsetTable : List Nat → Option (List Nat)) (fuel : Nat) (s s1 : XmlVars)
    (f1 : LVTextFileBase) (v : IdentVars)
    (h1 : SkipSpaces eof fuel s.file = some (true, f1))
    (hend : ¬ (bufAt f1 f1.buf_pos = 62 ∨
      (bufAt f1 (f1.buf_pos + 1) = 62 ∧ (bufAt f1 f1.buf_pos = 47 ∨ bufAt f1 f1.buf_pos = 63))))
    (h2 : ReadIdent eof fuel f1 = some (false, v))
    (h : ParseAttr eof charsetTable fuel s = some s1) :
    s1.events = s.events ∧ s1.m_state = parser_state_t.ps_lt := by
  unfold ParseAttr at h
  rw [h1] at h
  simp only at h
  rw [if_neg hend, h2] at h
  simp only at h
  cases hs : SkipTillChar eof fuel v.file 60 with
  | none => rw [hs] at h; simp at h
  | some r =>
    rw [hs] at h
    simp only [Option.map_some', Option.some.injEq] at h
    subst h
    exact ⟨rfl, rfl⟩

/-- C24 (as amended): a tag whose name cannot be read, or whose name is
directly followed by '=', produces no event (the case `ps_lt` leaves the
events as they are).  A syntax error in the attribute list is met in the
case `ps_attr`, after `OnTagOpen` has been sent: no further event is sent for
the tag and the parser goes on behind the next '<'.  So `<foo =bad><bar/>`
gives `OnTagOpen(foo)`, `OnTagOpen(bar)`, `OnTagClose(bar)` between `OnStart`
and `OnStop`, and `<foo=bad><bar/>` gives no tag event for `foo`. -/
theorem malformed_tag_events :
    (∀ (eof : LVTextFileBase → Bool) (fuel : Nat) (s s1 : XmlVars) (f1 : LVTextFileBase)
      (ok : Bool) (v : IdentVars),
      SkipSpaces eof fuel s.file = some (true, f1) →
      ReadIdent eof fuel
        (if (decide (bufAt f1 f1.buf_pos = 47) ||
            (!decide (bufAt f1 f1.buf_pos = 47) && decide (bufAt f1 f1.buf_pos = 63))) = true
         then { f1 with buf_pos := f1.buf_pos + 1 } else f1) = some (ok, v) →
      (ok = false ∨ bufAt v.file v.file.buf_pos = 61) →
      ParseLt eof fuel s = some s1 → s1.events = s.events) ∧
    (∀ (eof : LVTextFileBase → Bool) (charsetTable : List Nat → Option (List Nat)) (fuel : Nat)
      (s s1 : XmlVars) (f1 : LVTextFileBase) (v : IdentVars),
      SkipSpaces eof fuel s.file = some (true, f1) →
      ¬ (bufAt f1 f1.buf_pos = 62 ∨
        (bufAt f1 (f1.buf_pos + 1) = 62 ∧ (bufAt f1 f1.buf_pos = 47 ∨ bufAt f1 f1.buf_pos = 63))) →
      ReadIdent eof fuel f1 = some (false, v) →
      ParseAttr eof charsetTable fuel s = some s1 →
      s1.events = s.events ∧ s1.m_state = parser_state_t.ps_lt) ∧
    (LVXMLParser.Parse Eof (fun _ => none) 20
        (LVTextFileBase.create (codes "<foo =bad><bar/>"))).map (fun r => r.1) =
      some [Event.start,
            Event.tagOpen (some []) (codes "foo"),
            Event.tagOpen (some []) (codes "bar"),
            Event.tagClose (some []) (codes "bar"),
            Event.stop] ∧
    (LVXMLParser.Parse Eof (fun _ => none) 20
        (LVTextFileBase.create (codes "<foo=bad><bar/>"))).map (fun r => r.1) =
      some [Event.start,
            Event.text { text := [], len := 0, fpos := 9, fsize := 0, flags := 0 },
            Event.tagOpen (some []) (codes "bar"),
            Event.tagClose (some []) (codes "bar"),
            Event.stop] := by
  refine ⟨ParseLt_error, ParseAttr_error, ?_, ?_⟩ <;> decide!

/-- C24 (as stated) fails: for the input `<foo =bad><bar/>` the parser sends
`OnTagOpen(foo)`: the name `foo` is followed by a space, so the error is
found only when the attribute list is read. -/
theorem malformed_tag_counterexample :
    (LVXMLParser.Parse Eof (fun _ => none) 20
        (LVTextFileBase.create (codes "<foo =bad><bar/>"))).map
      (fun r => (r.1.contains (Event.tagOpen (some []) (codes "foo")), r.1.length)) =
      some (true, 5) := by
  decide!

/-- C25 (as amended): the events of the document
`<?xml version="1.0" encoding="utf-8"?><FictionBook><body><p>hi &#38; bye</p></body></FictionBook>`,
in this order: `OnStart`; tag-open `?xml`, attribute `version` = `1.0`,
attribute `encoding` = `utf-8`, the encoding event (sent by `SetCharset` as
soon as the attribute has been read), tag-close `?xml`; the opens and closes
of `FictionBook`, `body` and `p` properly nested; `OnStop`.  A text event is
sent for every text node that ends at a '<', the empty ones included: six
text events, five of length 0 and one with the content "hi & bye".  The
events are evaluated with no conversion table known for "utf-8". -/
theorem xml_document_events :
    (∀ (charsetTable : List Nat → Option (List Nat)) (s : XmlVars) (v : IdentVars)
      (f : LVTextFileBase) (attrvalue : List Nat),
      s.inXmlTag = true → v.name = codes "encoding" →
      (ParseAttrEnd charsetTable s v f attrvalue).events =
        s.events ++
          [Event.attribute (some (c_str v.ns)) (c_str v.name) (c_str attrvalue),
           Event.encoding (c_str attrvalue)
             (LVTextFileBase.SetCharset (fun _ => false) charsetTable f
               (c_str attrvalue)).conv_table]) ∧
    (LVXMLParser.Parse Eof (fun _ => none) 40 (LVTextFileBase.create sampleDocument)).map
        (fun r => r.1) =
      some [Event.start,
            Event.tagOpen (some []) (codes "?xml"),
            Event.attribute (some []) (codes "version") (codes "1.0"),
            Event.attribute (some []) (codes "encoding") (codes "utf-8"),
            Event.encoding (codes "utf-8") none,
            Event.tagClose (some []) (codes "?xml"),
            Event.text { text := [], len := 0, fpos := 38, fsize := 0, flags := 0 },
            Event.tagOpen (some []) (codes "FictionBook"),
            Event.text { text := [], len := 0, fpos := 51, fsize := 0, flags := 0 },
            Event.tagOpen (some []) (codes "body"),
            Event.text { text := [], len := 0, fpos := 57, fsize := 0, flags := 0 },
            Event.tagOpen (some []) (codes "p"),
            Event.text { text := codes "hi & bye", len := 8, fpos := 60, fsize := 12,
                         flags := 0 },
            Event.tagClose (some []) (codes "p"),
            Event.text { text := [], len := 0, fpos := 76, fsize := 0, flags := 0 },
            Event.tagClose (some []) (codes "body"),
            Event.text { text := [], len := 0, fpos := 83, fsize := 0, flags := 0 },
            Event.tagClose (some []) (codes "FictionBook"),
            Event.stop] := by
  refine ⟨?_, ?_⟩
  · intro charsetTable s v f attrvalue h1 h2
    unfold ParseAttrEnd
    rw [if_pos ⟨h1, h2⟩]
  · decide!

/-- C25 (as stated) fails in two points: the encoding event comes before the
tag-close of `?xml` (it is the fifth event, the tag-close the sixth), and the
stream holds six text events, not one. -/
theorem xml_document_counterexample :
    (LVXMLParser.Parse Eof (fun _ => none) 40 (LVTextFileBase.create sampleDocument)).map
      (fun r => (r.1.getD 4 Event.stop, r.1.getD 5 Event.stop, (textEvents r.1).length,
                 (textEvents r.1).map (fun t => t.len))) =
      some (Event.encoding (codes "utf-8") none, Event.tagClose (some []) (codes "?xml"), 6,
            [0, 0, 0, 8, 0, 0]) := by
  decide!

/-! ## `ReadLines`: records read at the end of the stream -/

/-- At the end of the stream the constructor of `LVTextFileLine` builds the
padding record and leaves the reader as it is (for a `maxsize` that is not 0
as an unsigned number). -/
theorem create_at_end (f : LVTextFileBase) (m : Int) (he : Eof f = true)
    (hm : toUnsigned m ≠ 0) :
    LVTextFileLine.create Eof f m = some (paddingLine (cursor f), f) := by
  have h' : f.stream_size - (f.buf_fpos + f.buf_len) ≤ 0 := by
    unfold Eof at he
    simp only [Bool.and_eq_true, decide_eq_true_eq] at he
    exact he.2
  have hU : 0 < toUnsigned m := Nat.pos_of_ne_zero hm
  unfold LVTextFileLine.create ReadLine
  rw [FillBuffer_at_end f _ h']
  show (Option.map ReadLineFinish (ReadLineLoop Eof m ((toUnsigned m + 2) + 1) _)).map _ = _
  rw [ReadLineLoop]
  simp only [List.length_nil]
  rw [if_pos hU]
  have hb : ReadLineBody Eof
      { file := f, fpos := cursor f, flags := 0, res := [], last_space_fpos := 0,
        last_space_chpos := -1 } =
      (false, { file := f, fpos := cursor f, flags := 1, res := [],
                last_space_fpos := cursor f, last_space_chpos := 0 }) := by
    unfold ReadLineBody
    simp only
    rw [if_pos he]
    rfl
  rw [hb]
  simp only [Bool.false_eq_true, if_false, Option.map_some', Option.some.injEq, Prod.mk.injEq]
  constructor
  · unfold LVTextFileLine.ofLine ReadLineFinish paddingLine
    simp [c_str, toUnsigned]
  · unfold ReadLineFinish
    simp only
    have : cursor f - f.buf_fpos = f.buf_pos := by unfold cursor; omega
    simp [this]

/-- Once the reader is at the end of the stream, every further turn of the
loop of `ReadLines` appends a padding record and leaves the reader as it
is. -/
theorem ReadLinesLoop_at_end :
    ∀ (n : Nat) (i : Int) (q : LVTextLineQueue), Eof q.file = true →
      toUnsigned q.maxLineSize ≠ 0 → 0 < i →
      ReadLinesLoop Eof n i q =
        some (true, { q with lines := q.lines ++ List.replicate n (paddingLine (cursor q.file)) }) := by
  intro n
  induction n with
  | zero =>
    intro i q _ _ _
    simp [ReadLinesLoop]
  | succ n ih =>
    intro i q he hm hi
    rw [ReadLinesLoop, if_neg (by omega), create_at_end q.file q.maxLineSize he hm]
    simp only
    rw [ih (i + 1) { q with lines := q.lines ++ [paddingLine (cursor q.file)], file := q.file }
      he hm (by omega)]
    simp [List.replicate_succ]

/-- A call of `ReadLines` that does not find the end of the stream on entry
returns true and appends one record per turn, for every `Eof`. -/
theorem ReadLinesLoop_count (eof : LVTextFileBase → Bool) :
    ∀ (n : Nat) (i : Int) (q : LVTextLineQueue), 0 ≤ i → ¬ (eof q.file = true ∧ i = 0) →
      ∃ recs file, ReadLinesLoop eof n i q =
        some (true, { q with lines := q.lines ++ recs, file := file }) ∧ recs.length = n := by
  intro n
  induction n with
  | zero =>
    intro i q _ _
    exact ⟨[], q.file, by simp [ReadLinesLoop], rfl⟩
  | succ n ih =>
    intro i q hi hc
    obtain ⟨o, ho⟩ := ReadLine_total eof q.file q.maxLineSize
    rw [ReadLinesLoop, if_neg hc]
    unfold LVTextFileLine.create
    rw [ho]
    simp only [Option.map_some']
    obtain ⟨recs, file, h1, h2⟩ := ih (i + 1)
      { q with lines := q.lines ++ [LVTextFileLine.ofLine o], file := o.file } (by omega)
      (by omega)
    exact ⟨LVTextFileLine.ofLine o :: recs, file, by rw [h1]; simp, by simp [h2]⟩

/-- The first `a` turns of the loop of `ReadLines`, then the other `b`. -/
theorem ReadLinesLoop_add (eof : LVTextFileBase → Bool) (b : Nat) :
    ∀ (a : Nat) (i : Int) (q : LVTextLineQueue),
      ReadLinesLoop eof (a + b) i q =
        (ReadLinesLoop eof a i q).bind (fun r =>
          if r.1 = true then ReadLinesLoop eof b (i + a) r.2 else some r) := by
  intro a
  induction a with
  | zero =>
    intro i q
    simp [ReadLinesLoop]
  | succ a ih =>
    intro i q
    have e : a + 1 + b = (a + b) + 1 := by omega
    rw [e, ReadLinesLoop, ReadLinesLoop]
    by_cases c : eof q.file = true ∧ i = 0
    · rw [if_pos c, if_pos c]
      simp
    · rw [if_neg c, if_neg c]
      cases hc : LVTextFileLine.create eof q.file q.maxLineSize with
      | none => simp
      | some p =>
        obtain ⟨line, file⟩ := p
        simp only
        rw [ih]
        have e2 : i + 1 + (a : Int) = i + ((a + 1 : Nat) : Int) := by push_cast; omega
        rw [e2]

/-! ## `ReadLines`: the end of the window stays inside the stream -/

theorem FillBuffer_end_le (f : LVTextFileBase) (n : Int)
    (h : f.buf_fpos + f.buf_len ≤ f.stream_size) :
    (FillBuffer f n).2.buf_fpos + (FillBuffer f n).2.buf_len ≤ (FillBuffer f n).2.stream_size ∧
    (FillBuffer f n).2.stream_size = f.stream_size := by
  rw [FillBuffer_eq]
  by_cases h0 : f.stream_size - (f.buf_fpos + f.buf_len) ≤ 0
  · rw [if_pos h0]
    exact ⟨h, rfl⟩
  · rw [if_neg h0]
    obtain ⟨p1, p2, p3, p4, p5, p6, p7, p8, p9, p10⟩ := fillPrepare_fields f (fillCount f n)
    have hlen := streamRead_length (fillPrepare f (fillCount f n)) (fillCount f n)
    have hcle := fillCount_le f n
    simp only
    rw [p3]
    refine ⟨?_, rfl⟩
    have : ((streamRead (fillPrepare f (fillCount f n)) (fillCount f n)).length : Int) ≤
        f.stream_size - (f.buf_fpos + f.buf_len) := by
      rw [hlen]
      omega
    omega

theorem ReadChar_frame (f : LVTextFileBase) :
    (ReadChar f).2.buf_fpos = f.buf_fpos ∧ (ReadChar f).2.buf_len = f.buf_len ∧
    (ReadChar f).2.stream_size = f.stream_size := by
  have h := (ReadChar_fields f).1
  rw [h]
  exact ⟨rfl, rfl, rfl⟩

theorem ReadLineBody_frame (eof : LVTextFileBase → Bool) (s : LineVars) :
    (ReadLineBody eof s).2.file.buf_fpos = s.file.buf_fpos ∧
    (ReadLineBody eof s).2.file.buf_len = s.file.buf_len ∧
    (ReadLineBody eof s).2.file.stream_size = s.file.stream_size := by
  obtain ⟨a1, a2, a3⟩ := ReadChar_frame s.file
  obtain ⟨b1, b2, b3⟩ := ReadChar_frame (ReadChar s.file).2
  unfold ReadLineBody
  simp only
  split_ifs <;> first
    | exact ⟨rfl, rfl, rfl⟩
    | exact ⟨a1, a2, a3⟩
    | exact ⟨by rw [b1, a1], by rw [b2, a2], by rw [b3, a3]⟩

theorem ReadLineLoop_frame (eof : LVTextFileBase → Bool) (m : Int) :
    ∀ (fuel : Nat) (s s1 : LineVars), ReadLineLoop eof m fuel s = some s1 →
      s1.file.buf_fpos = s.file.buf_fpos ∧ s1.file.buf_len = s.file.buf_len ∧
      s1.file.stream_size = s.file.stream_size := by
  intro fuel
  induction fuel with
  | zero =>
    intro s s1 h
    simp [ReadLineLoop] at h
  | succ fuel ih =>
    intro s s1 h
    obtain ⟨a1, a2, a3⟩ := ReadLineBody_frame eof s
    rw [ReadLineLoop] at h
    split_ifs at h with c1 c2
    · obtain ⟨b1, b2, b3⟩ := ih _ _ h
      exact ⟨by rw [b1, a1], by rw [b2, a2], by rw [b3, a3]⟩
    · simp only [Option.some.injEq] at h
      subst h
      exact ⟨a1, a2, a3⟩
    · simp only [Option.some.injEq] at h
      subst h
      exact ⟨rfl, rfl, rfl⟩

/-- A call of `ReadLine` keeps the end of the window inside the stream. -/
theorem ReadLine_end_le (eof : LVTextFileBase → Bool) (f : LVTextFileBase) (m : Int)
    (o : LineResult) (h : ReadLine eof f m = some o)
    (hw : f.buf_fpos + f.buf_len ≤ f.stream_size) :
    o.file.buf_fpos + o.file.buf_len ≤ o.file.stream_size ∧
    o.file.stream_size = f.stream_size := by
  unfold ReadLine at h
  simp only [Option.map_eq_some'] at h
  obtain ⟨s, hs, rfl⟩ := h
  obtain ⟨a1, a2, a3⟩ := ReadLineLoop_frame eof m _ _ _ hs
  obtain ⟨b1, b2⟩ := FillBuffer_end_le f (m * 3) hw
  simp only at a1 a2 a3
  unfold ReadLineFinish
  simp only
  rw [a1, a2, a3]
  exact ⟨b1, b2⟩

theorem ReadLinesLoop_end_le (eof : LVTextFileBase → Bool) :
    ∀ (n : Nat) (i : Int) (q : LVTextLineQueue) (r : Bool × LVTextLineQueue),
      ReadLinesLoop eof n i q = some r →
      q.file.buf_fpos + q.file.buf_len ≤ q.file.stream_size →
      r.2.file.buf_fpos + r.2.file.buf_len ≤ r.2.file.stream_size ∧
      r.2.file.stream_size = q.file.stream_size := by
  intro n
  induction n with
  | zero =>
    intro i q r h hw
    simp only [ReadLinesLoop, Option.some.injEq] at h
    subst h
    exact ⟨hw, rfl⟩
  | succ n ih =>
    intro i q r h hw
    rw [ReadLinesLoop] at h
    by_cases c : eof q.file = true ∧ i = 0
    · rw [if_pos c] at h
      simp only [Option.some.injEq] at h
      subst h
      exact ⟨hw, rfl⟩
    · rw [if_neg c] at h
      unfold LVTextFileLine.create at h
      cases ho : ReadLine eof q.file q.maxLineSize with
      | none => rw [ho] at h; simp at h
      | some o =>
        rw [ho] at h
        simp only [Option.map_some'] at h
        obtain ⟨a1, a2⟩ := ReadLine_end_le eof q.file q.maxLineSize o ho hw
        obtain ⟨b1, b2⟩ := ih _ _ _ h a1
        exact ⟨b1, by rw [b2]; exact a2⟩

/-- At the end of the stream the cursor is at the end of the stream when the
window ends inside the stream. -/
theorem cursor_at_end (f : LVTextFileBase) (he : Eof f = true)
    (hw : f.buf_fpos + f.buf_len ≤ f.stream_size) : cursor f = f.stream_size := by
  unfold Eof at he
  simp only [Bool.and_eq_true, decide_eq_true_eq] at he
  unfold cursor
  omega

/-! ## `ReadLines` with `maxLineSize = 0`: the reader never moves -/

theorem FillBuffer_zero_Eof (f : LVTextFileBase) (he : Eof f = false) :
    Eof (FillBuffer f 0).2 = false := by
  rw [FillBuffer_eq]
  by_cases h0 : f.stream_size - (f.buf_fpos + f.buf_len) ≤ 0
  · rw [if_pos h0]
    exact he
  · rw [if_neg h0]
    have hc : fillCount f 0 = 0 := by
      unfold fillCount
      rw [if_neg (by omega)]
    rw [hc]
    obtain ⟨p1, p2, p3, p4, p5, p6, p7, p8, p9, p10⟩ := fillPrepare_fields f 0
    have hd : streamRead (fillPrepare f 0) 0 = [] := by simp [streamRead]
    rw [hd]
    unfold Eof
    simp only [List.length_nil, Nat.cast_zero, add_zero]
    have : ¬ ((fillPrepare f 0).stream_size - ((fillPrepare f 0).buf_fpos + (fillPrepare f 0).buf_len) ≤ 0) := by
      rw [p3, p7]
      exact h0
    simp [this]

theorem ReadLine_zero (f : LVTextFileBase) (o : LineResult) (he : Eof f = false)
    (h : ReadLine Eof f 0 = some o) : Eof o.file = false := by
  unfold ReadLine at h
  have hU : toUnsigned 0 = 0 := by decide
  rw [hU] at h
  rw [ReadLineLoop] at h
  simp only [List.length_nil, hU, lt_self_iff_false, if_false, Option.map_some',
    Option.some.injEq] at h
  subst h
  have hz := FillBuffer_zero_Eof f he
  simp only [zero_mul]
  generalize (FillBuffer f 0).2 = g at hz
  unfold ReadLineFinish
  simp only [decide_True, and_self, if_true]
  have : cursor g - g.buf_fpos = g.buf_pos := by unfold cursor; omega
  rw [this]
  exact hz

theorem ReadLinesLoop_zero :
    ∀ (n : Nat) (i : Int) (q : LVTextLineQueue) (r : Bool × LVTextLineQueue),
      q.maxLineSize = 0 → Eof q.file = false → ReadLinesLoop Eof n i q = some r →
      Eof r.2.file = false := by
  intro n
  induction n with
  | zero =>
    intro i q r _ he h
    simp only [ReadLinesLoop, Option.some.injEq] at h
    subst h
    exact he
  | succ n ih =>
    intro i q r hm he h
    rw [ReadLinesLoop, if_neg (by simp [he])] at h
    unfold LVTextFileLine.create at h
    cases ho : ReadLine Eof q.file q.maxLineSize with
    | none => rw [ho] at h; simp at h
    | some o =>
      rw [ho] at h
      simp only [Option.map_some'] at h
      rw [hm] at ho
      exact ih (i + 1)
        { q with lines := q.lines ++ [LVTextFileLine.ofLine o], file := o.file } r hm
        (ReadLine_zero q.file o he ho) h

/-! ## `ReadLine` on a line of a plain file -/

/-- The call `FillBuffer( k )` keeps the cursor, the stream and the mode, keeps
the window genuine, and makes the window reach `k` bytes beyond the cursor or
the end of the stream. -/
theorem fill_ready (f : LVTextFileBase) (h : Ready f) (k : Int) (hk : 0 < k) :
    Ready (FillBuffer f k).2 ∧ cursor (FillBuffer f k).2 = cursor f ∧
    (FillBuffer f k).2.stream = f.stream ∧
    (FillBuffer f k).2.stream_size = f.stream_size ∧
    (cursor f + k ≤ (FillBuffer f k).2.buf_fpos + (FillBuffer f k).2.buf_len ∨
      (FillBuffer f k).2.buf_fpos + (FillBuffer f k).2.buf_len = f.stream_size) := by
  obtain ⟨hv, hw, he, ht⟩ := h
  have hv' := Valid_FillBuffer f k hv hw.2.1
  have hw' := WindowInv_FillBuffer f k hw
  have hc := FillBuffer_cursor f k
  have hfe := FillBuffer_eq f k
  by_cases h0 : f.stream_size - (f.buf_fpos + f.buf_len) ≤ 0
  · rw [FillBuffer_at_end f _ h0]
    refine ⟨⟨hv, hw, he, ht⟩, rfl, rfl, rfl, Or.inr ?_⟩
    have := hw.2.2.2
    show f.buf_fpos + f.buf_len = f.stream_size
    omega
  · rw [if_neg h0] at hfe
    obtain ⟨p1, p2, p3, p4, p5, p6, p7, p8, p9, p10⟩ := fillPrepare_fields f (fillCount f k)
    have hlen := streamRead_length (fillPrepare f (fillCount f k)) (fillCount f k)
    rw [p1, p2] at hlen
    have hcle := fillCount_le f k
    have hcnt : fillCount f k = k ∨ fillCount f k = f.stream_size - (f.buf_fpos + f.buf_len) := by
      unfold fillCount
      split_ifs <;> simp
    obtain ⟨v1, v2, v3, v4, v5⟩ := hv
    obtain ⟨w1, w2, w3, w4⟩ := hw
    have hsp : f.stream_pos = f.buf_fpos + f.buf_len := by
      rcases v4 with v4 | v4
      · exact v4
      · omega
    rw [hfe] at hv' hw' hc ⊢
    refine ⟨⟨hv', hw', by simp only; rw [p4]; exact he, by simp only; rw [p5]; exact ht⟩, hc,
      by simp only; exact p1, by simp only; exact p3, ?_⟩
    unfold cursor at hc ⊢
    simp only at hc ⊢
    rw [hlen]
    rcases hcnt with e | e
    · left
      omega
    · right
      omega

/-- Reading an ASCII character that lies in the window: `ReadChar` returns the
byte of the stream at the cursor and moves the cursor by one byte. -/
theorem ReadChar_ready (g : LVTextFileBase) (h : Ready g)
    (hc : g.buf_pos < g.buf_len) (hb : g.stream.getD (cursor g).toNat 0 < 128) :
    ReadChar g = (g.stream.getD (cursor g).toNat 0, { g with buf_pos := g.buf_pos + 1 }) ∧
    Ready { g with buf_pos := g.buf_pos + 1 } := by
  obtain ⟨⟨v1, v2, v3, v4, v5⟩, ⟨w1, w2, w3, w4⟩, he, ht⟩ := h
  have hbyte : bufAt g g.buf_pos = g.stream.getD (cursor g).toNat 0 := by
    have := v5 (g.buf_fpos + g.buf_pos) (by omega) (by omega) (by omega)
    have e : g.buf_fpos + g.buf_pos - g.buf_fpos = g.buf_pos := by omega
    rw [e] at this
    exact this
  have hasc : bufAt g g.buf_pos &&& 0x80 = 0 := by
    rw [hbyte]
    exact byte_ascii _ hb
  constructor
  · unfold ReadChar
    rw [he]
    simp only
    rw [if_pos hasc, hbyte]
  · exact ⟨⟨v1, v2, by simp only; omega, v4, v5⟩, ⟨by simp only; omega, by simp only; omega,
      w3, w4⟩, he, ht⟩

/-- A turn of the loop of `ReadLine` that reads a 7-bit character other than
CR and LF: the character is appended. -/
theorem ReadLineBody_char (s : LineVars) (ch : Nat) (f1 : LVTextFileBase)
    (he : Eof s.file = false) (hr : ReadChar s.file = (ch, f1)) (hch : isLineChar ch = true) :
    (ReadLineBody Eof s).1 = true ∧ (ReadLineBody Eof s).2.file = f1 ∧
    (ReadLineBody Eof s).2.res = s.res ++ [ch] ∧ (ReadLineBody Eof s).2.flags = s.flags ∧
    (ReadLineBody Eof s).2.fpos = s.fpos := by
  unfold isLineChar at hch
  simp only [Bool.and_eq_true, decide_eq_true_eq, bne_iff_ne, ne_eq] at hch
  obtain ⟨⟨h1, h2⟩, h3⟩ := hch
  unfold ReadLineBody
  rw [he, hr]
  simp only [Bool.false_eq_true, if_false]
  rw [if_neg (by omega), if_pos ⟨h3, h2⟩]
  split_ifs <;> exact ⟨rfl, rfl, rfl, rfl, rfl⟩

/-- A turn of the loop of `ReadLine` that reads a line feed which is not
followed by a carriage return: the line ends behind the line feed. -/
theorem ReadLineBody_lf (s : LineVars) (f1 : LVTextFileBase)
    (he : Eof s.file = false) (hr : ReadChar s.file = (10, f1))
    (h2 : Eof f1 = false → (ReadChar f1).1 ≠ 13) :
    (ReadLineBody Eof s).1 = false ∧
    (ReadLineBody Eof s).2.file = { f1 with buf_pos := f1.buf_pos } ∧
    (ReadLineBody Eof s).2.res = s.res ∧ (ReadLineBody Eof s).2.flags = s.flags ||| 1 ∧
    (ReadLineBody Eof s).2.fpos = s.fpos ∧
    (ReadLineBody Eof s).2.last_space_fpos = cursor f1 ∧
    (ReadLineBody Eof s).2.last_space_chpos = s.res.length := by
  unfold ReadLineBody
  rw [he, hr]
  simp only [Bool.false_eq_true, if_false]
  rw [if_neg (by omega), if_neg (by omega)]
  by_cases he1 : Eof f1 = true
  · rw [if_pos he1]
    exact ⟨rfl, rfl, rfl, rfl, rfl, rfl, rfl⟩
  · rw [if_neg he1]
    have h3 := h2 (by simpa using he1)
    rw [if_neg (by omega)]
    refine ⟨rfl, ?_, rfl, rfl, rfl, rfl, rfl⟩
    simp only
    have h := (ReadChar_fields f1).1
    rw [h]

theorem Eof_iff_ready (f : LVTextFileBase) (h : Ready f) :
    (Eof f = true ↔ cursor f = f.stream_size) ∧ cursor f ≤ f.stream_size := by
  obtain ⟨_, ⟨w1, w2, w3, w4⟩, _, _⟩ := h
  unfold Eof cursor
  simp only [Bool.and_eq_true, decide_eq_true_eq]
  constructor
  · constructor
    · intro h; omega
    · intro h; constructor <;> omega
  · omega

/-- The reader after `ReadChar` has read an ASCII character that lies in the
window. -/
theorem ReadChar_next (f : LVTextFileBase) (h : Ready f) (hc : f.buf_pos < f.buf_len)
    (b : Nat) (hb : f.stream.getD (cursor f).toNat 0 = b) (h128 : b < 128) :
    ∃ g, ReadChar f = (b, g) ∧ Ready g ∧ g.stream = f.stream ∧ cursor g = cursor f + 1 ∧
      g.buf_fpos + g.buf_len = f.buf_fpos + f.buf_len ∧ g.buf_pos = f.buf_pos + 1 ∧
      g.buf_len = f.buf_len ∧ g.stream_size = f.stream_size := by
  obtain ⟨h1, h2⟩ := ReadChar_ready f h hc (by rw [hb]; exact h128)
  rw [hb] at h1
  refine ⟨_, h1, h2, rfl, ?_, rfl, rfl, rfl, rfl⟩
  unfold cursor
  simp only
  omega

/-- The loop of `ReadLine` on a line `l` of 7-bit characters that is closed by
a line feed: with `d` characters of the line still to read, the loop ends
behind the line feed with the text `l`. -/
theorem ReadLineLoop_line (stream : List Nat) (m c0 E : Int) (l : List Nat)
    (hm : (l.length : Int) < m) (hm2 : m < 4294967296)
    (hE : c0 + l.length + 2 ≤ E ∨ E = stream.length)
    (hl : ∀ t, t < l.length → stream.getD (c0.toNat + t) 0 = l.getD t 0)
    (hlc : ∀ c ∈ l, isLineChar c = true)
    (hlf : stream.getD (c0.toNat + l.length) 0 = 10)
    (hin : c0 + l.length < stream.length)
    (hnext : stream.getD (c0.toNat + l.length + 1) 0 < 128 ∧
      stream.getD (c0.toNat + l.length + 1) 0 ≠ 13)
    (hc0 : 0 ≤ c0) :
    ∀ (d : Nat) (fuel : Nat) (s : LineVars), d ≤ l.length → d + 1 ≤ fuel →
      Ready s.file → s.file.stream = stream → cursor s.file = c0 + ((l.length - d : Nat) : Int) →
      s.res = l.take (l.length - d) → s.flags = 0 → s.file.buf_fpos + s.file.buf_len = E →
      ∃ s1, ReadLineLoop Eof m fuel s = some s1 ∧ s1.res = l ∧ s1.flags = 1 ∧
        s1.fpos = s.fpos ∧ s1.last_space_chpos = l.length ∧
        s1.last_space_fpos = c0 + l.length + 1 ∧
        Ready s1.file ∧ s1.file.stream = stream ∧ cursor s1.file = c0 + l.length + 1 := by
  have hU : toUnsigned m = m.toNat := by
    unfold toUnsigned
    rw [Int.emod_eq_of_lt (by omega) hm2]
  intro d
  induction d with
  | zero =>
    intro fuel s _ hf hR hS hC hres hfl hEq
    obtain ⟨fuel, rfl⟩ : ∃ k, fuel = k + 1 := ⟨fuel - 1, by omega⟩
    simp only [Nat.sub_zero] at hC hres
    rw [List.take_length] at hres
    have hsz : s.file.stream_size = stream.length := by rw [← hS]; exact hR.1.1
    obtain ⟨hEof, hle⟩ := Eof_iff_ready s.file hR
    have he : Eof s.file = false := by
      rw [← Bool.not_eq_true, hEof]
      omega
    have hcur : (cursor s.file).toNat = c0.toNat + l.length := by omega
    have hw := hR.2.1
    have hpos : s.file.buf_pos < s.file.buf_len := by
      unfold cursor at hC
      unfold WindowInv at hw
      rcases hE with hE | hE <;> omega
    obtain ⟨g, hrc, hR1, g1, g2, g3, g4, g5, g6⟩ :=
      ReadChar_next s.file hR hpos 10 (by rw [hS, hcur, hlf]) (by decide)
    obtain ⟨b1, b2, b3, b4, b5, b6, b7⟩ := ReadLineBody_lf s g he hrc (by
      intro he1
      obtain ⟨hEof1, hle1⟩ := Eof_iff_ready g hR1
      have hne : cursor g ≠ g.stream_size := by
        intro hx
        rw [← Bool.not_eq_true, hEof1] at he1
        exact he1 hx
      have hpos1 : g.buf_pos < g.buf_len := by
        unfold cursor at hC g2 hne
        unfold WindowInv at hw
        rcases hE with hE | hE <;> omega
      have hcur1 : (cursor g).toNat = c0.toNat + l.length + 1 := by omega
      obtain ⟨g', hrc1, _⟩ := ReadChar_next g hR1 hpos1 _ rfl (by
        rw [g1, hS, hcur1]
        exact hnext.1)
      rw [hrc1]
      show g.stream.getD _ 0 ≠ 13
      rw [g1, hS, hcur1]
      exact hnext.2)
    have hgg : { g with buf_pos := g.buf_pos } = g := rfl
    rw [hgg] at b2
    rw [ReadLineLoop, if_pos (by rw [hres, hU]; omega), b1]
    simp only [Bool.false_eq_true, if_false]
    refine ⟨_, rfl, by rw [b3, hres], by rw [b4, hfl]; rfl, b5, by rw [b7, hres],
      by rw [b6, g2, hC], by rw [b2]; exact hR1, by rw [b2, g1]; exact hS,
      by rw [b2, g2, hC]⟩
  | succ d ih =>
    intro fuel s hd hf hR hS hC hres hfl hEq
    obtain ⟨fuel, rfl⟩ : ∃ k, fuel = k + 1 := ⟨fuel - 1, by omega⟩
    have hsz : s.file.stream_size = stream.length := by rw [← hS]; exact hR.1.1
    obtain ⟨hEof, hle⟩ := Eof_iff_ready s.file hR
    have he : Eof s.file = false := by
      rw [← Bool.not_eq_true, hEof]
      omega
    have hcur : (cursor s.file).toNat = c0.toNat + (l.length - (d + 1)) := by omega
    have hw := hR.2.1
    have hpos : s.file.buf_pos < s.file.buf_len := by
      unfold cursor at hC
      unfold WindowInv at hw
      rcases hE with hE | hE <;> omega
    have hmem : l.getD (l.length - (d + 1)) 0 ∈ l := by
      rw [List.getD_eq_getElem _ _ (by omega)]
      exact List.getElem_mem _
    have hch := hlc _ hmem
    have hbyte : s.file.stream.getD (cursor s.file).toNat 0 = l.getD (l.length - (d + 1)) 0 := by
      rw [hS, hcur]
      exact hl _ (by omega)
    have h128 : l.getD (l.length - (d + 1)) 0 < 128 := by
      unfold isLineChar at hch
      simp only [Bool.and_eq_true, decide_eq_true_eq] at hch
      exact hch.1.1
    obtain ⟨g, hrc, hR1, g1, g2, g3, g4, g5, g6⟩ := ReadChar_next s.file hR hpos _ hbyte h128
    obtain ⟨b1, b2, b3, b4, b5⟩ := ReadLineBody_char s _ _ he hrc hch
    have hlen : s.res.length = l.length - (d + 1) := by
      rw [hres, List.length_take]
      omega
    rw [ReadLineLoop, if_pos (by rw [hlen, hU]; omega), b1]
    simp only [if_true]
    have e1 : l.length - d = (l.length - (d + 1)) + 1 := by omega
    obtain ⟨s1, c1, c2, c3, c4, c5, c6, c7, c8, c9⟩ := ih fuel (ReadLineBody Eof s).2
      (by omega) (by omega) (by rw [b2]; exact hR1) (by rw [b2, g1]; exact hS)
      (by rw [b2, g2, hC]; omega)
      (by
        have hlt : l.length - (d + 1) < l.length := by omega
        rw [b3, hres, e1, List.take_succ, List.getElem?_eq_getElem hlt,
          List.getD_eq_getElem _ _ hlt]
        rfl)
      (by rw [b4, hfl])
      (by rw [b2, g3]; exact hEq)
    exact ⟨s1, c1, c2, c3, by rw [c4, b5], c5, c6, c7, c8, c9⟩

/-- The end of `ReadLine` behind a line that was closed by a line feed: the
record of the line, and the reader as the loop left it. -/
theorem ReadLineFinish_line (s : LineVars) (c0 : Int) (l : List Nat)
    (h1 : s.res = l) (h2 : s.flags = 1) (h3 : s.fpos = c0)
    (h4 : s.last_space_chpos = l.length) (h5 : s.last_space_fpos = c0 + l.length + 1)
    (h6 : cursor s.file = c0 + l.length + 1) :
    LVTextFileLine.ofLine (ReadLineFinish s) = lineOfText c0 l ∧
    (ReadLineFinish s).file = s.file := by
  have hnb : decide (s.flags = 0 ∧ s.last_space_chpos = -1) = false := by
    rw [h2]
    simp
  have htu : ¬ toUnsigned (l.length : Int) > l.length := by
    unfold toUnsigned
    have : ((l.length : Int) % 4294967296).toNat ≤ l.length := by omega
    omega
  constructor
  · unfold LVTextFileLine.ofLine ReadLineFinish lineOfText
    simp only [hnb, Bool.false_eq_true, if_false]
    simp only [h1, h2, h3, h4, h5, if_neg htu]
    congr 1
    omega
  · unfold ReadLineFinish
    simp only [hnb, Bool.false_eq_true, if_false, h5]
    have : c0 + l.length + 1 - s.file.buf_fpos = s.file.buf_pos := by
      unfold cursor at h6
      omega
    rw [this]

theorem getD_drop_add (l : List Nat) (n t : Nat) : l.getD (n + t) 0 = (l.drop n).getD t 0 := by
  rw [List.getD_eq_getElem?_getD, List.getD_eq_getElem?_getD, List.getElem?_drop]

/-- The constructor of `LVTextFileLine` on a line `l` of 7-bit characters that
is closed by a line feed and shorter than `maxsize`: the record of the line,
and the reader behind the line feed. -/
theorem create_line (f : LVTextFileBase) (m : Int) (l rest : List Nat)
    (hR : Ready f) (hm : (l.length : Int) < m) (hm2 : m < 4294967296)
    (hlc : ∀ c ∈ l, isLineChar c = true)
    (hs : f.stream.drop (cursor f).toNat = l ++ [10] ++ rest)
    (hnext : rest.getD 0 0 < 128 ∧ rest.getD 0 0 ≠ 13) :
    ∃ g, LVTextFileLine.create Eof f m = some (lineOfText (cursor f) l, g) ∧ Ready g ∧
      g.stream = f.stream ∧ cursor g = cursor f + l.length + 1 := by
  obtain ⟨r1, r2, r3, r4, r5⟩ := fill_ready f hR (m * 3) (by omega)
  have hv := hR.1
  have hc0 : 0 ≤ cursor f := by
    unfold cursor
    have := hv.2.1
    have := hv.2.2.1
    omega
  have hsz : f.stream_size = f.stream.length := hv.1
  have hlen : f.stream.length - (cursor f).toNat = l.length + 1 + rest.length := by
    have := congrArg List.length hs
    simp only [List.length_drop, List.length_append, List.length_singleton] at this
    omega
  have hget : ∀ t, f.stream.getD ((cursor f).toNat + t) 0 = (l ++ [10] ++ rest).getD t 0 := by
    intro t
    rw [getD_drop_add, hs]
  obtain ⟨s1, c1, c2, c3, c4, c5, c6, c7, c8, c9⟩ :=
    ReadLineLoop_line f.stream m (cursor f)
      ((FillBuffer f (m * 3)).2.buf_fpos + (FillBuffer f (m * 3)).2.buf_len) l hm hm2
      (by rcases r5 with h | h
          · left; omega
          · right; rw [h, hsz])
      (by
        intro t ht
        rw [hget, List.append_assoc, List.getD_append _ _ _ _ ht])
      hlc
      (by
        rw [hget, List.append_assoc, List.getD_append_right _ _ _ _ (le_refl _)]
        simp)
      (by omega)
      (by
        rw [add_assoc, hget, List.append_assoc, List.getD_append_right _ _ _ _ (by omega)]
        have : l.length + 1 - l.length = 1 := by omega
        rw [this]
        exact hnext)
      hc0 l.length (toUnsigned m + 3)
      { file := (FillBuffer f (m * 3)).2, fpos := cursor f, flags := 0, res := [],
        last_space_fpos := 0, last_space_chpos := -1 }
      (le_refl _)
      (by
        unfold toUnsigned
        rw [Int.emod_eq_of_lt (by omega) hm2]
        omega)
      r1 r3 (by simp only [Nat.sub_self, Nat.cast_zero, add_zero]; exact r2)
      (by simp) rfl rfl
  simp only at c4
  obtain ⟨e1, e2⟩ := ReadLineFinish_line s1 (cursor f) l c2 c3 c4 c5 c6 c9
  refine ⟨s1.file, ?_, c7, c8, c9⟩
  unfold LVTextFileLine.create ReadLine
  rw [c1]
  simp only [Option.map_some']
  rw [e1, e2]

/-! ## `ReadLines` on a file of lines -/

theorem fileOfLines_head (ls : List (List Nat))
    (h : ∀ l ∈ ls, ∀ c ∈ l, isLineChar c = true) :
    (fileOfLines ls).getD 0 0 < 128 ∧ (fileOfLines ls).getD 0 0 ≠ 13 := by
  cases ls with
  | nil => simp [fileOfLines]
  | cons l ls =>
    cases l with
    | nil => simp [fileOfLines]
    | cons c l =>
      have hc := h (c :: l) (by simp) c (by simp)
      unfold isLineChar at hc
      simp only [Bool.and_eq_true, decide_eq_true_eq, bne_iff_ne, ne_eq] at hc
      simp only [fileOfLines, List.cons_append, List.getD_cons_zero]
      exact ⟨hc.1.1, hc.2⟩

/-- The loop of `ReadLines` on a reader whose stream holds, from the cursor
on, the lines `ls`: one record per line, then padding records at the end of
the stream. -/
theorem ReadLinesLoop_file :
    ∀ (ls : List (List Nat)) (n : Nat) (i : Int) (q : LVTextLineQueue),
      Ready q.file → q.file.stream.drop (cursor q.file).toNat = fileOfLines ls →
      (∀ l ∈ ls, (l.length : Int) < q.maxLineSize ∧ ∀ c ∈ l, isLineChar c = true) →
      0 < q.maxLineSize → q.maxLineSize < 4294967296 → ls.length ≤ n → 0 ≤ i →
      (0 < i ∨ ls ≠ []) →
      ∃ file, ReadLinesLoop Eof n i q = some (true, { q with
          lines := q.lines ++ lineRecords (cursor q.file) ls ++
            List.replicate (n - ls.length) (paddingLine q.file.stream_size),
          file := file }) ∧ Eof file = true ∧ cursor file = q.file.stream_size := by
  intro ls
  induction ls with
  | nil =>
    intro n i q hR hs _ hm1 hm2 _ _ hi
    have hi' : 0 < i := by
      rcases hi with h | h
      · exact h
      · exact absurd rfl h
    obtain ⟨hEof, hle⟩ := Eof_iff_ready q.file hR
    have hsz : q.file.stream_size = q.file.stream.length := hR.1.1
    have hc0 : 0 ≤ cursor q.file := by
      unfold cursor
      have := hR.1.2.1
      have := hR.1.2.2.1
      omega
    have hcur : cursor q.file = q.file.stream_size := by
      simp only [fileOfLines, List.drop_eq_nil_iff] at hs
      omega
    have he : Eof q.file = true := hEof.mpr hcur
    have hU : toUnsigned q.maxLineSize ≠ 0 := by
      unfold toUnsigned
      rw [Int.emod_eq_of_lt (by omega) hm2]
      omega
    refine ⟨q.file, ?_, he, hcur⟩
    rw [ReadLinesLoop_at_end n i q he hU hi', hcur]
    simp [lineRecords]
  | cons l ls ih =>
    intro n i q hR hs hl hm1 hm2 hn hi0 _
    obtain ⟨n, rfl⟩ : ∃ k, n = k + 1 := ⟨n - 1, by simp only [List.length_cons] at hn; omega⟩
    obtain ⟨hEof, hle⟩ := Eof_iff_ready q.file hR
    have hsz : q.file.stream_size = q.file.stream.length := hR.1.1
    have hv := hR.1
    have hc0 : 0 ≤ cursor q.file := by
      unfold cursor
      have := hv.2.1
      have := hv.2.2.1
      omega
    have hlen : q.file.stream.length - (cursor q.file).toNat =
        l.length + 1 + (fileOfLines ls).length := by
      have := congrArg List.length hs
      simp only [fileOfLines, List.length_drop, List.length_append, List.length_singleton] at this
      omega
    have he : Eof q.file = false := by
      rw [← Bool.not_eq_true, hEof]
      omega
    obtain ⟨hl1, hl2⟩ := hl l (by simp)
    obtain ⟨g, hg, gR, gS, gC⟩ := create_line q.file q.maxLineSize l (fileOfLines ls) hR hl1 hm2
      hl2 hs (fileOfLines_head ls (fun l' hl' => (hl l' (by simp [hl'])).2))
    have hgsz : g.stream_size = q.file.stream_size := by
      rw [gR.1.1, gS, hsz]
    have hdrop : g.stream.drop (cursor g).toNat = fileOfLines ls := by
      have e : (cursor g).toNat = (cursor q.file).toNat + (l.length + 1) := by omega
      rw [gS, e, ← List.drop_drop, hs]
      simp [fileOfLines]
    obtain ⟨file, h1, h2, h3⟩ := ih n (i + 1)
      { q with lines := q.lines ++ [lineOfText (cursor q.file) l], file := g }
      gR hdrop (fun l' hl' => hl l' (by simp [hl'])) hm1 hm2
      (by simp only [List.length_cons] at hn; omega) (by omega) (Or.inl (by omega))
    refine ⟨file, ?_, h2, by rw [h3]; exact hgsz⟩
    rw [ReadLinesLoop, if_neg (by simp [he]), hg]
    simp only
    rw [h1]
    simp only [lineRecords, gC, hgsz, List.length_cons, List.append_assoc, List.singleton_append,
      Nat.add_sub_add_right]

/-! ## `ReadLines`: padding records -/

/-- C31: `ReadLines( n )` with `n ≥ 1`, for every queue and every reader
state.  If the reader is at the end of the stream on entry, the call appends
nothing and returns false.  Otherwise it returns true after appending exactly
`n` records.  Once the end of the stream has been reached after `k ≥ 1`
records, the other `n - k` records are padding records (empty text,
`fsize = 0`, end-of-line flag set, `lpos = rpos = 0`) whose `fpos` is the
position of the cursor, and the reader does not change any more; that position
is the end of the stream when the window of the reader ended inside the
stream on entry (`maxLineSize` is taken as a 32-bit `int`).  So, for a reader
with a genuine window in the single-byte mode whose stream holds from the
cursor on `k ≥ 1` lines of 7-bit characters, each shorter than `maxLineSize`
and closed by a line feed, the call appends the `k` records of the lines and
`n - k` padding records at the end of the stream. -/
theorem read_lines_padding (q : LVTextLineQueue) (n : Int) (hn : 1 ≤ n) :
    (Eof q.file = true → ReadLines Eof q n = some (false, q)) ∧
    (Eof q.file = false → ∃ recs file, ReadLines Eof q n =
        some (true, { q with lines := q.lines ++ recs, file := file }) ∧
        (recs.length : Int) = n) ∧
    (∀ (k : Int) (qk : LVTextLineQueue), 1 ≤ k → k ≤ n →
      -2147483648 ≤ q.maxLineSize → q.maxLineSize < 2147483648 →
      ReadLines Eof q k = some (true, qk) → Eof qk.file = true →
      ReadLines Eof q n = some (true, { qk with
        lines := qk.lines ++ List.replicate (n - k).toNat (paddingLine (cursor qk.file)) }) ∧
      (q.file.buf_fpos + q.file.buf_len ≤ q.file.stream_size →
        cursor qk.file = q.file.stream_size)) ∧
    (∀ ls : List (List Nat), Ready q.file →
      q.file.stream.drop (cursor q.file).toNat = fileOfLines ls →
      (∀ l ∈ ls, (l.length : Int) < q.maxLineSize ∧ ∀ c ∈ l, isLineChar c = true) →
      q.maxLineSize < 4294967296 → ls ≠ [] → (ls.length : Int) ≤ n →
      ∃ file, ReadLines Eof q n = some (true, { q with
          lines := q.lines ++ lineRecords (cursor q.file) ls ++
            List.replicate (n.toNat - ls.length) (paddingLine q.file.stream_size),
          file := file }) ∧ Eof file = true ∧ cursor file = q.file.stream_size) := by
  obtain ⟨n0, hn0⟩ : ∃ k : Nat, n.toNat = k + 1 := ⟨n.toNat - 1, by omega⟩
  refine ⟨?_, ?_, ?_, ?_⟩
  · intro he
    unfold ReadLines
    rw [hn0, ReadLinesLoop, if_pos ⟨he, rfl⟩]
  · intro he
    obtain ⟨recs, file, h1, h2⟩ := ReadLinesLoop_count Eof n.toNat 0 q (le_refl _)
      (by simp [he])
    exact ⟨recs, file, h1, by omega⟩
  · intro k qk hk1 hkn hm1 hm2 hk he
    unfold ReadLines at hk ⊢
    have heq : Eof q.file = false := by
      cases hq : Eof q.file with
      | false => rfl
      | true =>
        obtain ⟨k0, hk0⟩ : ∃ j : Nat, k.toNat = j + 1 := ⟨k.toNat - 1, by omega⟩
        rw [hk0, ReadLinesLoop, if_pos ⟨hq, rfl⟩] at hk
        simp at hk
    have hU : toUnsigned q.maxLineSize ≠ 0 := by
      intro h0
      have hz : q.maxLineSize = 0 := by
        unfold toUnsigned at h0
        omega
      have := ReadLinesLoop_zero k.toNat 0 q _ hz heq hk
      rw [he] at this
      exact absurd this (by decide)
    obtain ⟨recs, file, h1, _⟩ := ReadLinesLoop_count Eof k.toNat 0 q (le_refl _)
      (by simp [heq])
    rw [h1] at hk
    simp only [Option.some.injEq, Prod.mk.injEq, true_and] at hk
    have hmk : qk.maxLineSize = q.maxLineSize := by rw [← hk]
    constructor
    · have e : n.toNat = k.toNat + (n - k).toNat := by omega
      rw [e, ReadLinesLoop_add, h1, hk]
      simp only [Option.some_bind, if_true]
      exact ReadLinesLoop_at_end _ _ qk he (by rw [hmk]; exact hU) (by omega)
    · intro hw
      obtain ⟨a1, a2⟩ := ReadLinesLoop_end_le Eof k.toNat 0 q _ h1 hw
      rw [hk] at a1 a2
      simp only at a1 a2
      rw [← a2]
      exact cursor_at_end qk.file he a1
  · intro ls hR hs hl hm2 hne hlen
    unfold ReadLines
    have hm1 : 0 < q.maxLineSize := by
      cases ls with
      | nil => exact absurd rfl hne
      | cons l ls =>
        have := (hl l (by simp)).1
        omega
    exact ReadLinesLoop_file ls n.toNat 0 q hR hs hl hm1 hm2 (by omega) (le_refl _) (Or.inr hne)

theorem read_lines_padding_witness :
    ∃ file,
      ReadLines Eof (LVTextLineQueue.create (LVTextFileBase.create (codes "ab\ncd\n")) 100 0) 5 =
        some (true,
          { LVTextLineQueue.create (LVTextFileBase.create (codes "ab\ncd\n")) 100 0 with
            lines := [lineOfText 0 (codes "ab"), lineOfText 3 (codes "cd"),
                      paddingLine 6, paddingLine 6, paddingLine 6],
            file := file }) ∧
      Eof file = true ∧ cursor file = 6 :=
  (read_lines_padding (LVTextLineQueue.create (LVTextFileBase.create (codes "ab\ncd\n")) 100 0) 5
    (by decide)).2.2.2 [codes "ab", codes "cd"] (Ready_create _) (by decide) (by decide)
    (by decide) (by decide) (by decide)

/-- Calls `ReadLines( 4 )` on fresh readers: a last line without a line end is
a record of its own; CR LF closes a line like LF; on the empty file nothing
is appended and the result is false; a line of six letters read with
`maxLineSize = 3` takes three records, the last one for its line feed. -/
theorem read_lines_examples :
    (ReadLines Eof (LVTextLineQueue.create (LVTextFileBase.create (codes "ab\ncd")) 100 0) 4).map
        (fun r => (r.1, r.2.lines)) =
      some (true, [lineOfText 0 (codes "ab"),
                   { fpos := 3, fsize := 2, flags := 1, text := codes "cd", lpos := 0, rpos := 2 },
                   paddingLine 5, paddingLine 5]) ∧
    (ReadLines Eof (LVTextLineQueue.create (LVTextFileBase.create (codes "ab\r\ncd\r\n")) 100 0)
        4).map (fun r => (r.1, r.2.lines)) =
      some (true, [{ fpos := 0, fsize := 4, flags := 1, text := codes "ab", lpos := 0, rpos := 2 },
                   { fpos := 4, fsize := 4, flags := 1, text := codes "cd", lpos := 0, rpos := 2 },
                   paddingLine 8, paddingLine 8]) ∧
    (ReadLines Eof (LVTextLineQueue.create (LVTextFileBase.create []) 100 0) 4).map
        (fun r => (r.1, r.2.lines)) = some (false, []) ∧
    (ReadLines Eof (LVTextLineQueue.create (LVTextFileBase.create (codes "abcdef\n")) 3 0) 4).map
        (fun r => (r.1, r.2.lines)) =
      some (true, [{ fpos := 0, fsize := 3, flags := 0, text := codes "abc", lpos := 0, rpos := 3 },
                   { fpos := 3, fsize := 3, flags := 0, text := codes "def", lpos := 0, rpos := 3 },
                   lineOfText 6 [], paddingLine 7]) := by
  refine ⟨?_, ?_, ?_, ?_⟩ <;> decide!

end lvxml
